import Mathlib

/-!
Verification of the statement-lowering component (`lib/SILGen/SILGenStmt.cpp`):
lowering of structured control-flow statements into a control-flow graph of
basic blocks.

The embedding models the lowering state (`SGState`): the blocks of the
function under construction (an association list from block id to its
instruction list), the current insertion point of the builder, the fresh-id
counters for blocks and for temporary storage slots, the break/continue
destination stack, the return destination and the emitted diagnostics.

External collaborators (expression lowering, the cleanup stack's own emitted
code, pattern initialization) only append opaque instructions (`Inst.other`)
at the insertion point; the instructions this component itself emits
(branches, conditional branches, `destroy_addr` of a temporary slot,
`alloc_stack` of a temporary slot) are modelled precisely.
-/

namespace SILGenStmt

/-- A diagnostic, as reported by `visitBraceStmt`.
`unreachableAfterStmt k` models `diag::unreachable_code_after_stmt` with the
statement-kind payload `k` (0 = return, 1 = continue); `unreachableCode`
models the generic `diag::unreachable_code`. -/
inductive Diag where
  | unreachableAfterStmt : Nat → Diag
  | unreachableCode : Diag
deriving DecidableEq

/-- An instruction of a basic block.  `other` stands for any instruction
emitted by an external collaborator (expression evaluation, cleanup code,
pattern initialization); the remaining constructors are the instructions
the statement-lowering component emits itself. -/
inductive Inst where
  | other : Inst
  | allocStack : Nat → Inst
  | destroyAddr : Nat → Inst
  | br : Nat → Inst
  | condBr : Nat → Nat → Inst
deriving DecidableEq

/-- The block ids an instruction branches to. -/
def Inst.targets : Inst → List Nat
  | .br d => [d]
  | .condBr t f => [t, f]
  | _ => []

/-- The lowering state: the function's blocks under construction, the
builder's insertion point, fresh-id counters, the break/continue destination
stack (construct id, break block, continue block), the function's return
destination block and the diagnostics emitted so far. -/
structure SGState where
  blocks : List (Nat × List Inst)
  nextId : Nat
  insPt : Option Nat
  nextSlot : Nat
  bcStack : List (Nat × Nat × Nat)
  returnDest : Nat
  diags : List Diag
deriving DecidableEq

/-- Look up the instruction list of block `b` in a block list. -/
def lookupD (l : List (Nat × List Inst)) (b : Nat) : List Inst :=
  match l with
  | [] => []
  | p :: rest => if p.1 = b then p.2 else lookupD rest b

/-- Rewrite the instruction list of block `b` in a block list. -/
def updL (l : List (Nat × List Inst)) (b : Nat) (f : List Inst → List Inst) :
    List (Nat × List Inst) :=
  match l with
  | [] => []
  | p :: rest => (if p.1 = b then (p.1, f p.2) else p) :: updL rest b f

/-- The number of times instruction `i` occurs in a block list. -/
def ciL (l : List (Nat × List Inst)) (i : Inst) : Nat :=
  (l.map (fun p => p.2.count i)).sum

/-- How often one instruction branches to `b`. -/
def instHits (i : Inst) (b : Nat) : Nat := i.targets.count b

/-- How often an instruction list branches to `b`. -/
def blockHits (l : List Inst) (b : Nat) : Nat := (l.map (fun i => instHits i b)).sum

/-- How often a block list branches to `b`. -/
def tcL (l : List (Nat × List Inst)) (b : Nat) : Nat :=
  (l.map (fun p => blockHits p.2 b)).sum

namespace SGState

/-- The ids of the blocks currently in the function. -/
def ids (s : SGState) : List Nat := s.blocks.map (·.1)

/-- The instruction list of block `b` (empty if `b` is not a block of `s`). -/
def getBlockD (s : SGState) (b : Nat) : List Inst := lookupD s.blocks b

/-- Rewrite the instruction list of block `b` with `f`. -/
def updateBlock (s : SGState) (b : Nat) (f : List Inst → List Inst) : SGState :=
  { s with blocks := updL s.blocks b f }

/-- `createBasicBlock` of the IR builder facade: a fresh, empty block. -/
def createBasicBlock (s : SGState) : Nat × SGState :=
  (s.nextId, { s with blocks := s.blocks ++ [(s.nextId, [])], nextId := s.nextId + 1 })

/-- `eraseFromParent`: remove block `b` from the function. -/
def eraseBlock (s : SGState) (b : Nat) : SGState :=
  { s with blocks := s.blocks.filter (fun p => p.1 ≠ b) }

/-- Append an instruction at the end of block `b` (a detached builder
positioned at the end of `b`). -/
def appendTo (s : SGState) (b : Nat) (i : Inst) : SGState :=
  s.updateBlock b (fun l => l ++ [i])

/-- Insert an instruction at the beginning of block `b` (a detached builder
positioned at `b->begin()`). -/
def prependTo (s : SGState) (b : Nat) (i : Inst) : SGState :=
  s.updateBlock b (fun l => i :: l)

/-- Append an instruction at the current insertion point (no-op when the
insertion point is invalid). -/
def appendInst (s : SGState) (i : Inst) : SGState :=
  match s.insPt with
  | some b => s.appendTo b i
  | none => s

/-- Clear the insertion point. -/
def clearIP (s : SGState) : SGState := { s with insPt := none }

/-- `createBranch`: append a `br` terminator at the insertion point; emitting
a terminator leaves no valid insertion point. -/
def createBranch (s : SGState) (d : Nat) : SGState :=
  (s.appendInst (.br d)).clearIP

/-- `createCondBranch`: append a `cond_br` terminator at the insertion point. -/
def createCondBranch (s : SGState) (t f : Nat) : SGState :=
  (s.appendInst (.condBr t f)).clearIP

/-- `emitBlock(BB)` (no branch location): move to the block and continue
emitting into it. -/
def emitBlockNoBr (s : SGState) (b : Nat) : SGState := { s with insPt := some b }

/-- `emitBlock(BB, loc)`: fall through into the block, branching from the
current insertion point when it is valid. -/
def emitBlockBr (s : SGState) (b : Nat) : SGState :=
  if s.insPt.isSome then (s.createBranch b).emitBlockNoBr b else s.emitBlockNoBr b

/-- The number of instructions of the function that branch to `b`. -/
def targetCount (s : SGState) (b : Nat) : Nat := tcL s.blocks b

/-- `pred_empty()`: no instruction of the function branches to `b`. -/
def predEmpty (s : SGState) (b : Nat) : Bool := s.targetCount b == 0

/-- `emitOrDeleteBlock`: delete the block if nothing branches to it,
otherwise fall through into it. -/
def emitOrDeleteBlock (s : SGState) (b : Nat) : SGState :=
  if s.predEmpty b then s.eraseBlock b else s.emitBlockBr b

/-- Allocate a fresh temporary storage slot. -/
def allocSlot (s : SGState) : Nat × SGState :=
  (s.nextSlot, { s with nextSlot := s.nextSlot + 1 })

/-- Push an entry on the break/continue destination stack. -/
def pushBC (s : SGState) (id bdest cdest : Nat) : SGState :=
  { s with bcStack := (id, bdest, cdest) :: s.bcStack }

/-- Pop the top entry of the break/continue destination stack. -/
def popBC (s : SGState) : SGState := { s with bcStack := s.bcStack.tail }

/-- The number of `destroy_addr` instructions of the function for slot `k`. -/
def destroyCount (s : SGState) (k : Nat) : Nat := ciL s.blocks (.destroyAddr k)

/-- The number of `alloc_stack` instructions of the function for slot `k`. -/
def allocCount (s : SGState) (k : Nat) : Nat := ciL s.blocks (.allocStack k)

end SGState

/-- All block ids an instruction list branches to are below `n`, and all
slot references are below `m`. -/
def instsBounded (l : List Inst) (n m : Nat) : Bool :=
  l.all (fun i =>
    (i.targets.all (fun t => t < n)) &&
    (match i with
     | .destroyAddr k => k < m
     | .allocStack k => k < m
     | _ => true))

/-- Well-formedness of a lowering state: block ids are unique and below the
fresh counter, every branch target and slot reference is in range, the
insertion point (when valid) is a block of the function, and the
break/continue destinations and the return destination are in range. -/
def WFb (s : SGState) : Bool :=
  s.ids.Nodup &&
  s.blocks.all (fun p => p.1 < s.nextId && instsBounded p.2 s.nextId s.nextSlot) &&
  (match s.insPt with
   | some b => s.ids.contains b
   | none => true) &&
  s.bcStack.all (fun e => e.2.1 < s.nextId && e.2.2 < s.nextId) &&
  s.returnDest < s.nextId

open SGState

/-! ## Condition lowering (`SILGenFunction::emitCondition`, value form) -/

/-- The `Condition` record: true block, optional false block, merge block.
`trueBB = none` encodes a folded condition with no true edge; `falseBB = none`
encodes the `hasFalseCode = false` form; `contBB = none` encodes the
infinite-loop form `Condition(LoopBB, 0, 0, S)` used by `visitForStmt`. -/
structure CondRec where
  trueBB : Option Nat
  falseBB : Option Nat
  contBB : Option Nat
deriving DecidableEq

/-- `SILGenFunction::emitCondition(SILValue, ...)`: create the merge block and
the true block; with false code, create a separate false block, otherwise use
the merge block as the false destination; emit the conditional branch, swapped
when `invertValue` is set.  (Block arguments of the merge block are not
modelled; no claim depends on them.) -/
def emitConditionV (hasFalseCode invertValue : Bool) (s : SGState) : CondRec × SGState :=
  let c1 := s.createBasicBlock
  let contBB := c1.1
  let c2 := (c1.2).createBasicBlock
  let trueBB := c2.1
  let fds :=
    if hasFalseCode then
      let c3 := (c2.2).createBasicBlock
      (some c3.1, c3.1, c3.2)
    else (none, contBB, c2.2)
  let s4 := if invertValue then (fds.2.2).createCondBranch fds.2.1 trueBB
            else (fds.2.2).createCondBranch trueBB fds.2.1
  (⟨some trueBB, fds.1, some contBB⟩, s4)

/-- `SILGenFunction::emitCondition(Expr*, ...)`: evaluate the condition
expression (an opaque collaborator producing the 1-bit value), then the value
form. -/
def emitConditionE (hasFalseCode invertValue : Bool) (s : SGState) : CondRec × SGState :=
  emitConditionV hasFalseCode invertValue (s.appendInst .other)

/-- Modelled from the spec: `Condition::enterTrue` (the `Condition` class is
declared in `Condition.h`, which is not under `src/`): switch the insertion
point into the true block. -/
def condEnterTrue (c : CondRec) (s : SGState) : SGState :=
  match c.trueBB with
  | some t => s.emitBlockNoBr t
  | none => s

/-- Modelled from the spec: `Condition::exitTrue`: if the insertion point is
still valid, branch the live exit of the true arm to the merge block. -/
def condExitTrue (c : CondRec) (s : SGState) : SGState :=
  if s.insPt.isNone then s
  else
    match c.contBB with
    | some cb => s.createBranch cb
    | none => s

/-- Modelled from the spec: `Condition::complete`: discard the merge block if
it is unreachable from both arms, otherwise continue emitting in it. -/
def condComplete (c : CondRec) (s : SGState) : SGState :=
  match c.contBB with
  | none => s
  | some cb =>
    if s.predEmpty cb then (s.eraseBlock cb).clearIP
    else s.emitBlockNoBr cb

/-! ## Conditional-binding lowering (`emitStmtCondition` and helpers) -/

/-- An element of a statement condition: a plain boolean expression, or a
pattern binding initialized from an optional-valued expression. -/
inductive CondElt where
  | boolean : CondElt
  | binding : CondElt
deriving DecidableEq

/-- `emitConditionalBindingBuffers`: one `alloc_stack` temporary per pattern
binding of the condition, allocated before any of the condition is
evaluated.  Returns the slots in binding order. -/
def emitConditionalBindingBuffers : List CondElt → SGState → List Nat × SGState
  | [], s => ([], s)
  | .boolean :: rest, s => emitConditionalBindingBuffers rest s
  | .binding :: rest, s =>
    let a := s.allocSlot
    let s1 := (a.2).appendInst (.allocStack a.1)
    let r := emitConditionalBindingBuffers rest s1
    (a.1 :: r.1, r.2)

/-- `emitConditionalPatternBindings`: on the success path, extract each
binding's value out of its optional buffer into the pattern's storage
(opaque collaborator work at the insertion point). -/
def emitPatternBindingsM (bufs : List Nat) (s : SGState) : SGState :=
  bufs.foldl (fun s _ => s.appendInst .other) s

/-- The loop of `emitStmtCondition` over the condition elements.  `cbs` is
the cleanup-block list built in `push_back` order (so `cbs.getLastD 0` is
`CleanupBlocks.back()`), `bufs` the not-yet-consumed binding buffers.
For a boolean element: evaluate it and `cond_br` to a fresh success block or
to the current last cleanup block.  For a binding: evaluate the initializer
into the buffer, test presence; if the current last cleanup block already has
predecessors, create a new block branching to it and push it; insert the
buffer's `destroy_addr` at the begin of the (possibly new) last cleanup
block; `cond_br` to a fresh success block or to the last cleanup block. -/
def escGo : List CondElt → List Nat → List Nat → SGState → List Nat × SGState
  | [], _, cbs, s => (cbs.reverse, s)
  | .boolean :: rest, bufs, cbs, s =>
    let s1 := s.appendInst .other
    let c := s1.createBasicBlock
    let s2 := (c.2).createCondBranch c.1 (cbs.getLastD 0)
    escGo rest bufs cbs (s2.emitBlockNoBr c.1)
  | .binding :: rest, bufs, cbs, s =>
    -- the choice of destroy site is hoisted to the top of the step; the
    -- common continuation is repeated in both branches
    let s1 := (s.appendInst .other).appendInst .other
    if s1.predEmpty (cbs.getLastD 0) then
      let s2 := s1.prependTo (cbs.getLastD 0) (.destroyAddr (bufs.headD 0))
      let c2 := s2.createBasicBlock
      escGo rest bufs.tail cbs
        (((c2.2).createCondBranch c2.1 (cbs.getLastD 0)).emitBlockNoBr c2.1)
    else
      let c := s1.createBasicBlock
      let s2 := (((c.2).appendTo c.1 (.br (cbs.getLastD 0))).prependTo c.1
        (.destroyAddr (bufs.headD 0)))
      let c2 := s2.createBasicBlock
      escGo rest bufs.tail (cbs ++ [c.1])
        (((c2.2).createCondBranch c2.1 ((cbs ++ [c.1]).getLastD 0)).emitBlockNoBr c2.1)

/-- `emitStmtCondition`: create the overall-failure block, walk the
condition elements, and return the cleanup-block list reversed (index 0
runs all cleanups; the last entry continues past the failed condition). -/
def emitStmtCondition (cond : List CondElt) (bufs : List Nat) (s : SGState) :
    List Nat × SGState :=
  let c := s.createBasicBlock
  escGo cond bufs [c.1] c.2

/-! ## Statement lowering (`SILGenFunction::visit*Stmt`) -/

/-- The statement tree, restricted to the constructs the statement-lowering
component handles and the claims mention.  `exprElt` and `declElt` are the
expression and declaration elements of a brace (lowered by the opaque
collaborators); loop constructs carry an identity used by `break`/`continue`
target resolution. -/
inductive Stmt where
  | brace : List Stmt → Stmt
  | exprElt : Stmt
  | declElt : Stmt
  | ifConfig : Stmt
  | ret : Stmt
  | ifS : List CondElt → Stmt → Option Stmt → Stmt
  | whileS : Nat → List CondElt → Stmt → Stmt
  | doWhileS : Nat → Stmt → Stmt
  | forS : Nat → Bool → Bool → Bool → Stmt → Stmt
  | forEachS : Nat → Stmt → Stmt
  | breakS : Nat → Stmt
  | continueS : Nat → Stmt

/-- `isa<IfConfigStmt>`: recognize a conditional-compilation element. -/
def Stmt.isIfConfig : Stmt → Bool
  | .ifConfig => true
  | _ => false

/-- The `StmtType` update of `visitBraceStmt`: remember whether the statement
just lowered was a return (0) or a continue (1); other statements leave the
classification unchanged. -/
def updStmtType (e : Stmt) (t : Nat) : Nat :=
  match e with
  | .ret => 0
  | .continueS _ => 1
  | _ => t

/-- The diagnostic `visitBraceStmt` reports at an unreachable element:
classified when the preceding lowered statement was a return or continue,
generic otherwise (`UnknownStmtType = 2`). -/
def classifyDiag (t : Nat) : Diag :=
  if t ≠ 2 then .unreachableAfterStmt t else .unreachableCode

/-- Emit the cleanup blocks in sequence (`clearInsertionPoint` followed by
`emitBlock` for each), leaving the insertion point in the last one. -/
def emitAll (cbs : List Nat) (s : SGState) : SGState :=
  cbs.foldl (fun s b => s.emitBlockNoBr b) s

/-- Stage of `visitIfStmt` before the then branch: allocate the binding
buffers, lower the condition, and materialize the pattern bindings on the
success path. -/
def ifPre (cond : List CondElt) (s : SGState) : List Nat × SGState :=
  let bf := emitConditionalBindingBuffers cond s
  let cc := emitStmtCondition cond bf.1 bf.2
  (cc.1, emitPatternBindingsM bf.1 cc.2)

/-- Stage of `visitIfStmt` after the then branch when there is no else:
if the insertion point is still valid, branch to the last cleanup block for
continuation, first appending a fresh block to the chain when the last
cleanup block is non-empty (so the fallthrough runs no destroy); then emit
all cleanup blocks in sequence. -/
def ifNoElseFinish (cbs : List Nat) (s1 : SGState) : SGState :=
  let p :=
    if s1.insPt.isSome then
      let q :=
        if s1.getBlockD (cbs.getLastD 0) = [] then (cbs, s1)
        else
          let c := s1.createBasicBlock
          (cbs ++ [c.1], (c.2).appendTo (cbs.getLastD 0) (.br c.1))
      (q.1, (q.2).createBranch ((q.1).getLastD 0))
    else (cbs, s1)
  emitAll p.1 p.2

/-- Stage of `visitIfStmt` between the branches when there is an else:
create the merge block, branch to it from the live exit of the then branch,
and emit the cleanup blocks (the last of which the else branch continues
in). -/
def ifElseMid (cbs : List Nat) (s1 : SGState) : Nat × SGState :=
  let c := s1.createBasicBlock
  let s := if (c.2).insPt.isSome then (c.2).createBranch c.1 else c.2
  (c.1, emitAll cbs s)

/-- Stage of `visitIfStmt` after the else branch: branch its live exit to the
merge block; erase the merge block when nothing reaches it, otherwise leave
the insertion point in it. -/
def ifElseFinish (contBB : Nat) (s2 : SGState) : SGState :=
  let s := if s2.insPt.isSome then s2.createBranch contBB else s2
  if s.predEmpty contBB then s.eraseBlock contBB else s.emitBlockNoBr contBB

/-- Stage of `visitWhileStmt` before the body: binding buffers outside the
loop, the loop header block entered by fallthrough, the condition lowered at
the loop head, the break destination (the cleanup chain's first block) and
continue destination (the loop header) pushed, and the bindings
materialized. -/
def whilePre (id : Nat) (cond : List CondElt) (s : SGState) :
    Nat × List Nat × SGState :=
  let bf := emitConditionalBindingBuffers cond s
  let lb := (bf.2).createBasicBlock
  let s1 := (lb.2).emitBlockBr lb.1
  let cc := emitStmtCondition cond bf.1 s1
  let s2 := (cc.2).pushBC id ((cc.1).headD 0) lb.1
  (lb.1, cc.1, emitPatternBindingsM bf.1 s2)

/-- Stage of `visitWhileStmt` after the body: loop back from the live exit,
pop the break/continue entry, and emit the cleanup blocks as the
continuation. -/
def whilePost (loopBB : Nat) (cbs : List Nat) (s1 : SGState) : SGState :=
  let s := if s1.insPt.isSome then s1.createBranch loopBB else s1
  emitAll cbs s.popBC

/-- Stage of `visitDoWhileStmt` before the body: the loop header entered by
fallthrough, the end block (break destination) and the condition-test block
(continue destination) created, and the entry pushed. -/
def doWhilePre (id : Nat) (s : SGState) : Nat × Nat × Nat × SGState :=
  let lb := s.createBasicBlock
  let s1 := (lb.2).emitBlockBr lb.1
  let eb := s1.createBasicBlock
  let cb := (eb.2).createBasicBlock
  (lb.1, eb.1, cb.1, (cb.2).pushBC id eb.1 cb.1)

/-- The condition step of `visitDoWhileStmt`: evaluate the condition with
the no-false-block form, branch the true edge back to the loop header, and
complete into the merge block. -/
def doWhileCondStep (loopBB : Nat) (s : SGState) : SGState :=
  let ce := emitConditionE false false s
  let s1 := condEnterTrue ce.1 ce.2
  let s2 := if s1.insPt.isSome then s1.createBranch loopBB else s1
  condComplete ce.1 (condExitTrue ce.1 s2)

/-- Stage of `visitDoWhileStmt` after the body: emit (or delete) the
condition-test block; when the insertion point is valid, run the condition
step; then emit (or delete) the end block and pop the entry. -/
def doWhilePost (loopBB endBB condBB : Nat) (s1 : SGState) : SGState :=
  let s := s1.emitOrDeleteBlock condBB
  let s2 := if s.insPt.isSome then doWhileCondStep loopBB s else s
  ((s2.emitOrDeleteBlock endBB)).popBC

/-- The initializer stage of `visitForStmt`: initializer variable
declarations and the initializer expression (opaque collaborator work). -/
def forInit (hasInit : Bool) (s : SGState) : SGState :=
  if hasInit then s.appendInst .other else s

/-- Stage of `visitForStmt` before the body: the loop header entered by
fallthrough, the increment block (continue destination) and end block (break
destination) created and pushed, and the condition: the no-false-block form
when a condition is present, the infinite-loop record otherwise. -/
def forPre (id : Nat) (hasCond : Bool) (s : SGState) :
    Nat × Nat × Nat × CondRec × SGState :=
  let lb := s.createBasicBlock
  let s1 := (lb.2).emitBlockBr lb.1
  let ib := s1.createBasicBlock
  let eb := (ib.2).createBasicBlock
  let s2 := (eb.2).pushBC id eb.1 ib.1
  if hasCond then
    let ce := emitConditionE false false s2
    (lb.1, ib.1, eb.1, ce.1, ce.2)
  else
    (lb.1, ib.1, eb.1, ⟨some lb.1, none, none⟩, s2)

/-- Stage of `visitForStmt` after the body (inside the true edge): emit (or
delete) the increment block, run the increment expression at a live point,
loop back, exit the true arm, complete the condition, emit (or delete) the
end block, and pop the entry. -/
def forPost (loopBB incBB endBB : Nat) (cond : CondRec) (hasIncr : Bool)
    (s1 : SGState) : SGState :=
  let s := s1.emitOrDeleteBlock incBB
  let s := if s.insPt.isSome && hasIncr then s.appendInst .other else s
  let s := if s.insPt.isSome then s.createBranch loopBB else s
  let s := condExitTrue cond s
  let s := condComplete cond s
  (s.emitOrDeleteBlock endBB).popBC

/-- The path of `visitForStmt` with no true edge: complete the condition,
emit (or delete) the end block, pop the entry. -/
def forSkipBody (endBB : Nat) (cond : CondRec) (s : SGState) : SGState :=
  (((condComplete cond s).emitOrDeleteBlock endBB)).popBC

/-- Stage of `visitForEachStmt` before the body: the generator declaration
lowered, the shared `next` buffer allocated once outside the loop, the loop
header entered by fallthrough, the end block (break destination; the
continue destination is the loop header itself) pushed, the generator
advanced into the buffer, presence tested, and the condition emitted with
the no-false-block form. -/
def forEachPre (id : Nat) (s : SGState) : Nat × Nat × Nat × CondRec × SGState :=
  let a := s.allocSlot
  let s1 := (a.2).appendInst (.allocStack a.1)
  let lb := s1.createBasicBlock
  let s2 := (lb.2).emitBlockBr lb.1
  let eb := s2.createBasicBlock
  let s3 := (((eb.2).pushBC id eb.1 lb.1).appendInst .other).appendInst .other
  let ce := emitConditionV false false s3
  (a.1, lb.1, eb.1, ce.1, ce.2)

/-- Stage of `visitForEachStmt` at the body entry: enter the true arm and
materialize the element pattern out of the buffer (opaque collaborator
work). -/
def forEachBodyEntry (cond : CondRec) (s : SGState) : SGState :=
  (condEnterTrue cond s).appendInst .other

/-- Stage of `visitForEachStmt` after the body: loop back from the live
exit, exit the true arm, complete the condition, emit (or delete) the end
block, and pop the entry.  No destroy of the shared buffer is emitted on
any exit path. -/
def forEachPost (loopBB endBB : Nat) (cond : CondRec) (s1 : SGState) : SGState :=
  let s := if s1.insPt.isSome then s1.createBranch loopBB else s1
  let s := condExitTrue cond s
  let s := condComplete cond s
  (s.emitOrDeleteBlock endBB).popBC

/-- Resolve a break/continue target on the destination stack. -/
def findBC (stack : List (Nat × Nat × Nat)) (tgt : Nat) : Option (Nat × Nat) :=
  match stack with
  | [] => none
  | (id, b, c) :: rest => if id = tgt then some (b, c) else findBC rest tgt

mutual

/-- The statement visitor of `SILGenFunction` (the dispatcher over statement
kinds), translated case by case from `SILGenStmt.cpp`. -/
def visitStmt : Stmt → SGState → SGState
  | .brace elts, s => visitBraceElts elts 2 s
  | .exprElt, s => s.appendInst .other
  | .declElt, s => s.appendInst .other
  | .ifConfig, s => s
  | .ret, s => (s.appendInst .other).createBranch s.returnDest
  | .breakS tgt, s =>
    (match findBC s.bcStack tgt with
     | some (b, _) => s.createBranch b
     | none => s)
  | .continueS tgt, s =>
    (match findBC s.bcStack tgt with
     | some (_, c) => s.createBranch c
     | none => s)
  | .ifS cond th none, s =>
    (match ifPre cond s with
     | (cbs, s0) => ifNoElseFinish cbs (visitStmt th s0))
  | .ifS cond th (some el), s =>
    (match ifPre cond s with
     | (cbs, s0) =>
       match ifElseMid cbs (visitStmt th s0) with
       | (contBB, s2) => ifElseFinish contBB (visitStmt el s2))
  | .whileS id cond body, s =>
    (match whilePre id cond s with
     | (loopBB, cbs, sb) => whilePost loopBB cbs (visitStmt body sb))
  | .doWhileS id body, s =>
    (match doWhilePre id s with
     | (loopBB, endBB, condBB, sb) =>
       doWhilePost loopBB endBB condBB (visitStmt body sb))
  | .forS id hasInit hasCond hasIncr body, s =>
    let s0 := forInit hasInit s
    if s0.insPt.isNone then s0
    else
      (match forPre id hasCond s0 with
       | (loopBB, incBB, endBB, cond, sb) =>
         if cond.trueBB.isSome then
           forPost loopBB incBB endBB cond hasIncr
             (visitStmt body (condEnterTrue cond sb))
         else forSkipBody endBB cond sb)
  | .forEachS id body, s =>
    let s0 := s.appendInst .other
    if s0.insPt.isNone then s0
    else
      (match forEachPre id s0 with
       | (_, loopBB, endBB, cond, sb) =>
         if cond.trueBB.isSome then
           forEachPost loopBB endBB cond (visitStmt body (forEachBodyEntry cond sb))
         else ((condComplete cond sb).emitOrDeleteBlock endBB).popBC)

/-- The element loop of `visitBraceStmt`: skip conditional-compilation
elements; at an element with no valid insertion point, report one
unreachable-code diagnostic (classified by the preceding lowered statement)
and stop; otherwise lower the element and update the classification. -/
def visitBraceElts : List Stmt → Nat → SGState → SGState
  | [], _, s => s
  | e :: rest, stype, s =>
    if e.isIfConfig then visitBraceElts rest stype s
    else if s.insPt.isSome then
      visitBraceElts rest (updStmtType e stype) (visitStmt e s)
    else
      { s with diags := s.diags ++ [classifyDiag stype] }

end

/-- The slots destroyed by an instruction list, in order. -/
def destroysOf (l : List Inst) : List Nat :=
  l.filterMap (fun i => match i with | .destroyAddr k => some k | _ => none)

/-- Walk the branch chain from block `b`: collect the visited blocks,
following an unconditional branch in terminator position, and stop at a
block without one. -/
def chainBlocks (s : SGState) : Nat → Nat → List Nat
  | 0, _ => []
  | fuel + 1, b =>
    match (s.getBlockD b).getLast? with
    | some (.br d) => b :: chainBlocks s fuel d
    | _ => [b]

/-- Walk the branch chain from block `b` and collect the slots destroyed
along it, in execution order. -/
def chainTrace (s : SGState) : Nat → Nat → List Nat
  | 0, _ => []
  | fuel + 1, b =>
    match (s.getBlockD b).getLast? with
    | some (.br d) => destroysOf (s.getBlockD b) ++ chainTrace s fuel d
    | _ => destroysOf (s.getBlockD b)

/-- The cleanup-block chain of `emitStmtCondition`, relating the accumulated
cleanup blocks (in creation order) to the slots destroyed along them (in
binding order).  The first block is the overall-failure continuation — empty,
or holding the sole destroy when the first condition element is a binding —
and each later block destroys one slot and branches to the previous one. -/
inductive ChainOK (s : SGState) : List Nat → List Nat → Prop where
  | base0 (b : Nat) (h : s.getBlockD b = []) : ChainOK s [b] []
  | base1 (b k : Nat) (h : s.getBlockD b = [.destroyAddr k]) : ChainOK s [b] [k]
  | step (b k : Nat) (bs ks : List Nat) (hprev : ChainOK s bs ks)
      (h : s.getBlockD b = [.destroyAddr k, .br (bs.getLastD 0)]) :
      ChainOK s (bs ++ [b]) (ks ++ [k])

/-- Number of pattern bindings in a condition list. -/
def countB : List CondElt → Nat
  | [] => 0
  | .boolean :: rest => countB rest
  | .binding :: rest => countB rest + 1

/-! ## The extension relation

`ExtC s t` records what a lowering step may do to a well-formed state `s`:
counters grow, pre-existing blocks are kept and (except at the insertion
point) unmodified, branch counts to protected blocks are unchanged, new
break/continue entries only name fresh blocks, destroy/alloc counts of
already-allocated slots are unchanged, and the insertion point either
vanishes, stays, or moves to a fresh block. -/

structure ExtC (s t : SGState) : Prop where
  nid : s.nextId ≤ t.nextId
  rdest : t.returnDest = s.returnDest
  nslot : s.nextSlot ≤ t.nextSlot
  keep : ∀ b, b ∈ s.ids → b ∈ t.ids
  frozen : ∀ b, b ∈ s.ids → s.insPt ≠ some b → t.getBlockD b = s.getBlockD b
  tgt : ∀ b, b < s.nextId → (∀ e ∈ s.bcStack, b ≠ e.2.1 ∧ b ≠ e.2.2) →
      b ≠ s.returnDest → t.targetCount b = s.targetCount b
  sdests : ∀ e, e ∈ t.bcStack → e ∈ s.bcStack ∨ (s.nextId ≤ e.2.1 ∧ s.nextId ≤ e.2.2)
  dcount : ∀ k, k < s.nextSlot → t.destroyCount k = s.destroyCount k
  acount : ∀ k, k < s.nextSlot → t.allocCount k = s.allocCount k
  ip : t.insPt = none ∨ t.insPt = s.insPt ∨
      ∃ b, t.insPt = some b ∧ s.nextId ≤ b ∧ b ∈ t.ids
  wf : WFb t = true

/-- `Ext s t`: from a well-formed `s`, the state `t` is an admissible
extension. -/
def Ext (s t : SGState) : Prop := WFb s = true → ExtC s t

/-- A branch target a lowering step is allowed to aim at existing blocks:
a fresh block, a break/continue destination, or the return destination. -/
def admTgt (s : SGState) (d : Nat) : Prop :=
  s.nextId ≤ d ∨ (∃ e ∈ s.bcStack, d = e.2.1 ∨ d = e.2.2) ∨ d = s.returnDest

/-- Modelled from the spec's words (for comparison with `ifNoElseFinish`,
which is translated from the code): the spec describes the no-else
continuation as a branch to the *first* cleanup block of the chain.  This
definition differs from `ifNoElseFinish` only in the branch target
(`headD` instead of `getLastD`). -/
def ifNoElseFinishSpec (cbs : List Nat) (s1 : SGState) : SGState :=
  let p :=
    if s1.insPt.isSome then
      let q :=
        if s1.getBlockD (cbs.getLastD 0) = [] then (cbs, s1)
        else
          let c := s1.createBasicBlock
          (cbs ++ [c.1], (c.2).appendTo (cbs.getLastD 0) (.br c.1))
      (q.1, (q.2).createBranch ((q.1).headD 0))
    else (cbs, s1)
  emitAll p.1 p.2

/-- A minimal well-formed lowering state: one empty block, the insertion
point in it, the return destination on it. -/
def sampleState : SGState := ⟨[(0, [])], 1, some 0, 0, [], 0, []⟩

/-- A well-formed state with a second (empty) block. -/
def sampleState2 : SGState := ⟨[(0, []), (1, [])], 2, some 0, 0, [], 0, []⟩

/-- A well-formed state with two storage slots already allocated. -/
def sampleState3 : SGState := ⟨[(0, [])], 1, some 0, 2, [], 0, []⟩

/-- A well-formed state with no valid insertion point. -/
def sampleState4 : SGState := ⟨[(0, [])], 1, none, 0, [], 0, []⟩

theorem updL_map_fst {l : List (Nat × List Inst)} {b : Nat}
    {f : List Inst → List Inst} : (updL l b f).map (·.1) = l.map (·.1) := by
  induction l with
  | nil => rfl
  | cons p rest ih =>
    by_cases hp : p.1 = b <;> simp [updL, hp, ih]

/-! ## Basic lemmas about the builder primitives -/

section BasicLemmas

variable {s : SGState} {b c d : Nat} {i : Inst}

@[simp] theorem ids_updateBlock (f : List Inst → List Inst) :
    (s.updateBlock b f).ids = s.ids := by
  simp [SGState.updateBlock, SGState.ids, updL_map_fst]

@[simp] theorem ids_appendTo : (s.appendTo b i).ids = s.ids := ids_updateBlock _

@[simp] theorem ids_prependTo : (s.prependTo b i).ids = s.ids := ids_updateBlock _

@[simp] theorem ids_create : ((s.createBasicBlock).2).ids = s.ids ++ [s.nextId] := by
  simp [SGState.createBasicBlock, SGState.ids]

@[simp] theorem create_fst : (s.createBasicBlock).1 = s.nextId := rfl

@[simp] theorem mem_ids_erase : c ∈ (s.eraseBlock b).ids ↔ c ∈ s.ids ∧ c ≠ b := by
  simp only [SGState.eraseBlock, SGState.ids, List.mem_map, List.mem_filter]
  constructor
  · rintro ⟨p, ⟨hp, hne⟩, rfl⟩
    exact ⟨⟨p, hp, rfl⟩, by simpa using hne⟩
  · rintro ⟨⟨p, hp, rfl⟩, hne⟩
    exact ⟨p, ⟨hp, by simpa using hne⟩, rfl⟩

@[simp] theorem ids_appendInst : (s.appendInst i).ids = s.ids := by
  cases h : s.insPt <;> simp [SGState.appendInst, h]

@[simp] theorem ids_clearIP : (s.clearIP).ids = s.ids := rfl

@[simp] theorem ids_createBranch : (s.createBranch d).ids = s.ids := by
  simp [SGState.createBranch]

@[simp] theorem ids_createCondBranch : (s.createCondBranch c d).ids = s.ids := by
  simp [SGState.createCondBranch]

@[simp] theorem ids_emitBlockNoBr : (s.emitBlockNoBr b).ids = s.ids := rfl

@[simp] theorem ids_emitBlockBr : (s.emitBlockBr b).ids = s.ids := by
  unfold SGState.emitBlockBr
  by_cases h : s.insPt.isSome <;> simp [h]

@[simp] theorem ids_pushBC (id bd cd : Nat) : (s.pushBC id bd cd).ids = s.ids := rfl

@[simp] theorem ids_popBC : (s.popBC).ids = s.ids := rfl

@[simp] theorem insPt_updateBlock (f : List Inst → List Inst) :
    (s.updateBlock b f).insPt = s.insPt := rfl

@[simp] theorem insPt_appendTo : (s.appendTo b i).insPt = s.insPt := rfl

@[simp] theorem insPt_prependTo : (s.prependTo b i).insPt = s.insPt := rfl

@[simp] theorem insPt_create : ((s.createBasicBlock).2).insPt = s.insPt := rfl

@[simp] theorem insPt_appendInst : (s.appendInst i).insPt = s.insPt := by
  cases h : s.insPt <;> simp [SGState.appendInst, h]

@[simp] theorem insPt_clearIP : (s.clearIP).insPt = none := rfl

@[simp] theorem insPt_createBranch : (s.createBranch d).insPt = none := rfl

@[simp] theorem insPt_createCondBranch : (s.createCondBranch c d).insPt = none := rfl

@[simp] theorem insPt_emitBlockNoBr : (s.emitBlockNoBr b).insPt = some b := rfl

@[simp] theorem insPt_emitBlockBr : (s.emitBlockBr b).insPt = some b := by
  unfold SGState.emitBlockBr
  by_cases h : s.insPt.isSome <;> simp [h]

@[simp] theorem insPt_eraseBlock : (s.eraseBlock b).insPt = s.insPt := rfl

@[simp] theorem insPt_pushBC (id bd cd : Nat) :
    (s.pushBC id bd cd).insPt = s.insPt := rfl

@[simp] theorem insPt_popBC : (s.popBC).insPt = s.insPt := rfl

@[simp] theorem nextId_updateBlock (f : List Inst → List Inst) :
    (s.updateBlock b f).nextId = s.nextId := rfl

@[simp] theorem nextId_appendTo : (s.appendTo b i).nextId = s.nextId := rfl

@[simp] theorem nextId_prependTo : (s.prependTo b i).nextId = s.nextId := rfl

@[simp] theorem nextId_appendInst : (s.appendInst i).nextId = s.nextId := by
  cases h : s.insPt <;> simp [SGState.appendInst, h]

@[simp] theorem nextId_create : ((s.createBasicBlock).2).nextId = s.nextId + 1 := rfl

@[simp] theorem nextId_clearIP : (s.clearIP).nextId = s.nextId := rfl

@[simp] theorem nextId_createBranch : (s.createBranch d).nextId = s.nextId := by
  simp [SGState.createBranch, SGState.clearIP]

@[simp] theorem nextId_createCondBranch : (s.createCondBranch c d).nextId = s.nextId := by
  simp [SGState.createCondBranch, SGState.clearIP]

@[simp] theorem nextId_emitBlockNoBr : (s.emitBlockNoBr b).nextId = s.nextId := rfl

@[simp] theorem nextId_emitBlockBr : (s.emitBlockBr b).nextId = s.nextId := by
  unfold SGState.emitBlockBr
  by_cases h : s.insPt.isSome <;> simp [h]

@[simp] theorem nextId_eraseBlock : (s.eraseBlock b).nextId = s.nextId := rfl

@[simp] theorem nextId_pushBC (id bd cd : Nat) :
    (s.pushBC id bd cd).nextId = s.nextId := rfl

@[simp] theorem nextId_popBC : (s.popBC).nextId = s.nextId := rfl

@[simp] theorem nextId_allocSlot : ((s.allocSlot).2).nextId = s.nextId := rfl

@[simp] theorem ids_allocSlot : ((s.allocSlot).2).ids = s.ids := rfl

@[simp] theorem insPt_allocSlot : ((s.allocSlot).2).insPt = s.insPt := rfl

@[simp] theorem allocSlot_fst : (s.allocSlot).1 = s.nextSlot := rfl

@[simp] theorem nextSlot_allocSlot : ((s.allocSlot).2).nextSlot = s.nextSlot + 1 := rfl

@[simp] theorem nextSlot_updateBlock (f : List Inst → List Inst) :
    (s.updateBlock b f).nextSlot = s.nextSlot := rfl

@[simp] theorem nextSlot_appendTo : (s.appendTo b i).nextSlot = s.nextSlot := rfl

@[simp] theorem nextSlot_prependTo : (s.prependTo b i).nextSlot = s.nextSlot := rfl

@[simp] theorem nextSlot_appendInst : (s.appendInst i).nextSlot = s.nextSlot := by
  cases h : s.insPt <;> simp [SGState.appendInst, h]

@[simp] theorem nextSlot_create : ((s.createBasicBlock).2).nextSlot = s.nextSlot := rfl

@[simp] theorem nextSlot_createBranch : (s.createBranch d).nextSlot = s.nextSlot := by
  simp [SGState.createBranch, SGState.clearIP]

@[simp] theorem nextSlot_createCondBranch :
    (s.createCondBranch c d).nextSlot = s.nextSlot := by
  simp [SGState.createCondBranch, SGState.clearIP]

@[simp] theorem nextSlot_emitBlockNoBr : (s.emitBlockNoBr b).nextSlot = s.nextSlot := rfl

@[simp] theorem nextSlot_emitBlockBr : (s.emitBlockBr b).nextSlot = s.nextSlot := by
  unfold SGState.emitBlockBr
  by_cases h : s.insPt.isSome <;> simp [h]

@[simp] theorem nextSlot_eraseBlock : (s.eraseBlock b).nextSlot = s.nextSlot := rfl

@[simp] theorem nextSlot_pushBC (id bd cd : Nat) :
    (s.pushBC id bd cd).nextSlot = s.nextSlot := rfl

@[simp] theorem nextSlot_popBC : (s.popBC).nextSlot = s.nextSlot := rfl

@[simp] theorem returnDest_updateBlock (f : List Inst → List Inst) :
    (s.updateBlock b f).returnDest = s.returnDest := rfl

@[simp] theorem returnDest_appendTo : (s.appendTo b i).returnDest = s.returnDest := rfl

@[simp] theorem returnDest_prependTo : (s.prependTo b i).returnDest = s.returnDest := rfl

@[simp] theorem returnDest_appendInst : (s.appendInst i).returnDest = s.returnDest := by
  cases h : s.insPt <;> simp [SGState.appendInst, h]

@[simp] theorem returnDest_create : ((s.createBasicBlock).2).returnDest = s.returnDest := rfl

@[simp] theorem returnDest_createBranch : (s.createBranch d).returnDest = s.returnDest := by
  simp [SGState.createBranch, SGState.clearIP]

@[simp] theorem returnDest_createCondBranch :
    (s.createCondBranch c d).returnDest = s.returnDest := by
  simp [SGState.createCondBranch, SGState.clearIP]

@[simp] theorem returnDest_emitBlockNoBr :
    (s.emitBlockNoBr b).returnDest = s.returnDest := rfl

@[simp] theorem returnDest_emitBlockBr : (s.emitBlockBr b).returnDest = s.returnDest := by
  unfold SGState.emitBlockBr
  by_cases h : s.insPt.isSome <;> simp [h]

@[simp] theorem returnDest_eraseBlock : (s.eraseBlock b).returnDest = s.returnDest := rfl

@[simp] theorem returnDest_pushBC (id bd cd : Nat) :
    (s.pushBC id bd cd).returnDest = s.returnDest := rfl

@[simp] theorem returnDest_popBC : (s.popBC).returnDest = s.returnDest := rfl

@[simp] theorem returnDest_allocSlot : ((s.allocSlot).2).returnDest = s.returnDest := rfl

@[simp] theorem bcStack_updateBlock (f : List Inst → List Inst) :
    (s.updateBlock b f).bcStack = s.bcStack := rfl

@[simp] theorem bcStack_appendTo : (s.appendTo b i).bcStack = s.bcStack := rfl

@[simp] theorem bcStack_prependTo : (s.prependTo b i).bcStack = s.bcStack := rfl

@[simp] theorem bcStack_appendInst : (s.appendInst i).bcStack = s.bcStack := by
  cases h : s.insPt <;> simp [SGState.appendInst, h]

@[simp] theorem bcStack_create : ((s.createBasicBlock).2).bcStack = s.bcStack := rfl

@[simp] theorem bcStack_createBranch : (s.createBranch d).bcStack = s.bcStack := by
  simp [SGState.createBranch, SGState.clearIP]

@[simp] theorem bcStack_createCondBranch :
    (s.createCondBranch c d).bcStack = s.bcStack := by
  simp [SGState.createCondBranch, SGState.clearIP]

@[simp] theorem bcStack_emitBlockNoBr : (s.emitBlockNoBr b).bcStack = s.bcStack := rfl

@[simp] theorem bcStack_emitBlockBr : (s.emitBlockBr b).bcStack = s.bcStack := by
  unfold SGState.emitBlockBr
  by_cases h : s.insPt.isSome <;> simp [h]

@[simp] theorem bcStack_eraseBlock : (s.eraseBlock b).bcStack = s.bcStack := rfl

@[simp] theorem bcStack_emitOrDelete : (s.emitOrDeleteBlock b).bcStack = s.bcStack := by
  unfold SGState.emitOrDeleteBlock
  by_cases h : s.predEmpty b <;> simp [h]

@[simp] theorem bcStack_allocSlot : ((s.allocSlot).2).bcStack = s.bcStack := rfl

@[simp] theorem bcStack_pushBC (id bd cd : Nat) :
    (s.pushBC id bd cd).bcStack = (id, bd, cd) :: s.bcStack := rfl

@[simp] theorem bcStack_popBC : (s.popBC).bcStack = s.bcStack.tail := rfl

@[simp] theorem diags_updateBlock (f : List Inst → List Inst) :
    (s.updateBlock b f).diags = s.diags := rfl

@[simp] theorem diags_appendTo : (s.appendTo b i).diags = s.diags := rfl

@[simp] theorem diags_prependTo : (s.prependTo b i).diags = s.diags := rfl

@[simp] theorem diags_appendInst : (s.appendInst i).diags = s.diags := by
  cases h : s.insPt <;> simp [SGState.appendInst, h]

@[simp] theorem diags_create : ((s.createBasicBlock).2).diags = s.diags := rfl

@[simp] theorem diags_createBranch : (s.createBranch d).diags = s.diags := by
  simp [SGState.createBranch, SGState.clearIP]

@[simp] theorem diags_createCondBranch : (s.createCondBranch c d).diags = s.diags := by
  simp [SGState.createCondBranch, SGState.clearIP]

end BasicLemmas

/-! ## Lookup and counting lemmas -/

section ListLevel

variable {l : List (Nat × List Inst)} {b c : Nat} {i : Inst} {f : List Inst → List Inst}

theorem mem_fst_of_cons {p : Nat × List Inst} {rest : List (Nat × List Inst)}
    (h : b ∈ ((p :: rest).map (·.1))) (hp : p.1 ≠ b) : b ∈ rest.map (·.1) := by
  rcases List.mem_map.1 h with ⟨q, hq, hqb⟩
  rcases List.mem_cons.1 hq with hq | hq
  · exact absurd (hq ▸ hqb) hp
  · exact List.mem_map.2 ⟨q, hq, hqb⟩

theorem lookupD_updL_ne (h : c ≠ b) : lookupD (updL l b f) c = lookupD l c := by
  induction l with
  | nil => rfl
  | cons p rest ih =>
    by_cases hp : p.1 = b
    · simp [updL, lookupD, hp, Ne.symm h, ih]
    · by_cases hc : p.1 = c <;> simp [updL, lookupD, hp, hc, ih, h]

theorem lookupD_updL_self (h : b ∈ l.map (·.1)) :
    lookupD (updL l b f) b = f (lookupD l b) := by
  induction l with
  | nil => simp at h
  | cons p rest ih =>
    by_cases hp : p.1 = b
    · simp [updL, lookupD, hp]
    · simp [updL, lookupD, hp, ih (mem_fst_of_cons h hp)]

theorem updL_eq_of_notMem (h : b ∉ l.map (·.1)) : updL l b f = l := by
  induction l with
  | nil => rfl
  | cons p rest ih =>
    simp only [List.map_cons, List.mem_cons] at h
    push_neg at h
    simp [updL, Ne.symm h.1, ih h.2]

theorem lookupD_append_notMem (h : b ∉ l.map (·.1)) (l2 : List (Nat × List Inst)) :
    lookupD (l ++ l2) b = lookupD l2 b := by
  induction l with
  | nil => rfl
  | cons p rest ih =>
    simp only [List.map_cons, List.mem_cons] at h
    push_neg at h
    simp [lookupD, Ne.symm h.1, ih h.2]

theorem lookupD_append_mem (h : b ∈ l.map (·.1)) (l2 : List (Nat × List Inst)) :
    lookupD (l ++ l2) b = lookupD l b := by
  induction l with
  | nil => simp at h
  | cons p rest ih =>
    by_cases hp : p.1 = b
    · simp [lookupD, hp]
    · simp [lookupD, hp, ih (mem_fst_of_cons h hp)]

theorem lookupD_eq_nil_of_notMem (h : b ∉ l.map (·.1)) : lookupD l b = [] := by
  induction l with
  | nil => rfl
  | cons p rest ih =>
    simp only [List.map_cons, List.mem_cons] at h
    push_neg at h
    simp [lookupD, Ne.symm h.1, ih h.2]

theorem lookupD_filter_ne (h : c ≠ b) :
    lookupD (l.filter (fun p => p.1 ≠ b)) c = lookupD l c := by
  induction l with
  | nil => rfl
  | cons p rest ih =>
    by_cases hp : p.1 = b
    · have hpc : p.1 ≠ c := by
        intro hc
        exact h (hc ▸ hp ▸ rfl)
      rw [List.filter_cons, if_neg (by simp [hp]), lookupD, if_neg hpc, ih]
    · rw [List.filter_cons, if_pos (by simp [hp])]
      by_cases hc : p.1 = c
      · rw [lookupD, if_pos hc, lookupD, if_pos hc]
      · rw [lookupD, if_neg hc, lookupD, if_neg hc, ih]

theorem lookupD_filter_self :
    lookupD (l.filter (fun p => p.1 ≠ b)) b = [] := by
  apply lookupD_eq_nil_of_notMem
  intro h
  rcases List.mem_map.1 h with ⟨q, hq, hqb⟩
  have := List.of_mem_filter hq
  simp [hqb] at this

theorem ciL_nil : ciL [] i = 0 := rfl

theorem ciL_cons {p : Nat × List Inst} : ciL (p :: l) i = p.2.count i + ciL l i := by
  simp [ciL]

theorem ciL_append (l2 : List (Nat × List Inst)) :
    ciL (l ++ l2) i = ciL l i + ciL l2 i := by
  simp [ciL]

theorem ciL_updL_append (hnd : (l.map (·.1)).Nodup) (j : Inst) :
    ciL (updL l b (fun il => il ++ [j])) i =
      ciL l i + (if b ∈ l.map (·.1) then (if j = i then 1 else 0) else 0) := by
  induction l with
  | nil => simp [updL, ciL]
  | cons p rest ih =>
    simp only [List.map_cons, List.nodup_cons] at hnd
    by_cases hp : p.1 = b
    · have hb : b ∉ rest.map (·.1) := hp ▸ hnd.1
      rw [updL, if_pos hp, updL_eq_of_notMem hb, ciL_cons, ciL_cons]
      simp [List.count_append, hp, List.count_singleton]
      by_cases hj : j = i <;> simp [hj, beq_iff_eq] <;> omega
    · rw [updL, if_neg hp, ciL_cons, ciL_cons, ih hnd.2]
      have hfst : (b ∈ (p :: rest).map (·.1)) ↔ (b ∈ rest.map (·.1)) := by
        simp only [List.map_cons, List.mem_cons]
        constructor
        · rintro (h | h)
          · exact absurd h.symm hp
          · exact h
        · exact Or.inr
      by_cases hb : b ∈ rest.map (·.1) <;> simp [hb, hfst] <;> omega

theorem ciL_updL_prepend (hnd : (l.map (·.1)).Nodup) (j : Inst) :
    ciL (updL l b (fun il => j :: il)) i =
      ciL l i + (if b ∈ l.map (·.1) then (if j = i then 1 else 0) else 0) := by
  induction l with
  | nil => simp [updL, ciL]
  | cons p rest ih =>
    simp only [List.map_cons, List.nodup_cons] at hnd
    by_cases hp : p.1 = b
    · have hb : b ∉ rest.map (·.1) := hp ▸ hnd.1
      rw [updL, if_pos hp, updL_eq_of_notMem hb, ciL_cons, ciL_cons]
      simp [List.count_cons, hp]
      by_cases hj : j = i <;> simp [hj, beq_iff_eq] <;> omega
    · rw [updL, if_neg hp, ciL_cons, ciL_cons, ih hnd.2]
      have hfst : (b ∈ (p :: rest).map (·.1)) ↔ (b ∈ rest.map (·.1)) := by
        simp only [List.map_cons, List.mem_cons]
        constructor
        · rintro (h | h)
          · exact absurd h.symm hp
          · exact h
        · exact Or.inr
      by_cases hb : b ∈ rest.map (·.1) <;> simp [hb, hfst] <;> omega

theorem ciL_filter_of_nil (hnd : (l.map (·.1)).Nodup) (hnil : lookupD l b = []) :
    ciL (l.filter (fun p => p.1 ≠ b)) i = ciL l i := by
  induction l with
  | nil => rfl
  | cons p rest ih =>
    simp only [List.map_cons, List.nodup_cons] at hnd
    by_cases hp : p.1 = b
    · have hb : b ∉ rest.map (·.1) := hp ▸ hnd.1
      have hrest : rest.filter (fun p => p.1 ≠ b) = rest := by
        apply List.filter_eq_self.2
        intro q hq
        simp only [ne_eq, decide_eq_true_eq]
        intro hqb
        exact hb (List.mem_map.2 ⟨q, hq, hqb⟩)
      rw [lookupD, if_pos hp] at hnil
      rw [List.filter_cons, if_neg (by simp [hp])]
      rw [hrest, ciL_cons, hnil]
      simp
    · rw [lookupD, if_neg hp] at hnil
      rw [List.filter_cons, if_pos (by simp [hp]), ciL_cons, ciL_cons,
        ih hnd.2 hnil]

theorem blockHits_cons (j : Inst) (l1 : List Inst) :
    blockHits (j :: l1) b = instHits j b + blockHits l1 b := by
  simp [blockHits]

theorem blockHits_append (l1 l2 : List Inst) :
    blockHits (l1 ++ l2) b = blockHits l1 b + blockHits l2 b := by
  simp [blockHits]

theorem tcL_nil : tcL [] b = 0 := rfl

theorem tcL_cons {p : Nat × List Inst} : tcL (p :: l) b = blockHits p.2 b + tcL l b := by
  simp [tcL]

theorem tcL_append (l2 : List (Nat × List Inst)) :
    tcL (l ++ l2) b = tcL l b + tcL l2 b := by
  simp [tcL]

theorem tcL_updL_append (hnd : (l.map (·.1)).Nodup) (j : Inst) :
    tcL (updL l c (fun il => il ++ [j])) b =
      tcL l b + (if c ∈ l.map (·.1) then instHits j b else 0) := by
  induction l with
  | nil => simp [updL, tcL]
  | cons p rest ih =>
    simp only [List.map_cons, List.nodup_cons] at hnd
    by_cases hp : p.1 = c
    · have hb : c ∉ rest.map (·.1) := hp ▸ hnd.1
      rw [updL, if_pos hp, updL_eq_of_notMem hb, tcL_cons, tcL_cons,
        blockHits_append]
      simp [hp, blockHits]
      omega
    · rw [updL, if_neg hp, tcL_cons, tcL_cons, ih hnd.2]
      have hfst : (c ∈ (p :: rest).map (·.1)) ↔ (c ∈ rest.map (·.1)) := by
        simp only [List.map_cons, List.mem_cons]
        constructor
        · rintro (h | h)
          · exact absurd h.symm hp
          · exact h
        · exact Or.inr
      by_cases hb : c ∈ rest.map (·.1) <;> simp [hb, hfst] <;> omega

theorem tcL_updL_prepend (hnd : (l.map (·.1)).Nodup) (j : Inst) :
    tcL (updL l c (fun il => j :: il)) b =
      tcL l b + (if c ∈ l.map (·.1) then instHits j b else 0) := by
  induction l with
  | nil => simp [updL, tcL]
  | cons p rest ih =>
    simp only [List.map_cons, List.nodup_cons] at hnd
    by_cases hp : p.1 = c
    · have hb : c ∉ rest.map (·.1) := hp ▸ hnd.1
      rw [updL, if_pos hp, updL_eq_of_notMem hb, tcL_cons, tcL_cons,
        blockHits_cons]
      simp [hp]
      omega
    · rw [updL, if_neg hp, tcL_cons, tcL_cons, ih hnd.2]
      have hfst : (c ∈ (p :: rest).map (·.1)) ↔ (c ∈ rest.map (·.1)) := by
        simp only [List.map_cons, List.mem_cons]
        constructor
        · rintro (h | h)
          · exact absurd h.symm hp
          · exact h
        · exact Or.inr
      by_cases hb : c ∈ rest.map (·.1) <;> simp [hb, hfst] <;> omega

theorem tcL_filter_of_nil (hnd : (l.map (·.1)).Nodup) (hnil : lookupD l c = []) :
    tcL (l.filter (fun p => p.1 ≠ c)) b = tcL l b := by
  induction l with
  | nil => rfl
  | cons p rest ih =>
    simp only [List.map_cons, List.nodup_cons] at hnd
    by_cases hp : p.1 = c
    · have hb : c ∉ rest.map (·.1) := hp ▸ hnd.1
      have hrest : rest.filter (fun p => p.1 ≠ c) = rest := by
        apply List.filter_eq_self.2
        intro q hq
        simp only [ne_eq, decide_eq_true_eq]
        intro hqb
        exact hb (List.mem_map.2 ⟨q, hq, hqb⟩)
      rw [lookupD, if_pos hp] at hnil
      rw [List.filter_cons, if_neg (by simp [hp])]
      rw [hrest, tcL_cons, hnil]
      simp [blockHits]
    · rw [lookupD, if_neg hp] at hnil
      rw [List.filter_cons, if_pos (by simp [hp]), tcL_cons, tcL_cons,
        ih hnd.2 hnil]

end ListLevel

/-! ## State-level lemmas about block contents and counts -/

section StateLevel

variable {s : SGState} {b c : Nat} {i j : Inst} {k : Nat}

theorem getBlockD_appendTo_self (h : b ∈ s.ids) :
    (s.appendTo b i).getBlockD b = s.getBlockD b ++ [i] :=
  lookupD_updL_self h

theorem getBlockD_appendTo_ne (h : c ≠ b) :
    (s.appendTo b i).getBlockD c = s.getBlockD c :=
  lookupD_updL_ne h

theorem getBlockD_prependTo_self (h : b ∈ s.ids) :
    (s.prependTo b i).getBlockD b = i :: s.getBlockD b :=
  lookupD_updL_self h

theorem getBlockD_prependTo_ne (h : c ≠ b) :
    (s.prependTo b i).getBlockD c = s.getBlockD c :=
  lookupD_updL_ne h

@[simp] theorem getBlockD_create :
    ((s.createBasicBlock).2).getBlockD c = s.getBlockD c := by
  by_cases h : c ∈ s.ids
  · exact lookupD_append_mem h _
  · rw [show ((s.createBasicBlock).2).getBlockD c =
        lookupD (s.blocks ++ [(s.nextId, [])]) c from rfl,
      lookupD_append_notMem h, SGState.getBlockD, lookupD_eq_nil_of_notMem h]
    by_cases hc : c = s.nextId <;> simp [lookupD, hc]

theorem getBlockD_erase :
    (s.eraseBlock b).getBlockD c = if c = b then [] else s.getBlockD c := by
  by_cases h : c = b
  · rw [if_pos h]
    subst h
    exact lookupD_filter_self
  · rw [if_neg h]
    exact lookupD_filter_ne h

@[simp] theorem getBlockD_emitBlockNoBr :
    (s.emitBlockNoBr b).getBlockD c = s.getBlockD c := rfl

@[simp] theorem getBlockD_clearIP : (s.clearIP).getBlockD c = s.getBlockD c := rfl

@[simp] theorem getBlockD_pushBC (id bd cd : Nat) :
    (s.pushBC id bd cd).getBlockD c = s.getBlockD c := rfl

@[simp] theorem getBlockD_popBC : (s.popBC).getBlockD c = s.getBlockD c := rfl

@[simp] theorem getBlockD_allocSlot : ((s.allocSlot).2).getBlockD c = s.getBlockD c := rfl

theorem getBlockD_appendInst_ne (h : s.insPt ≠ some c) :
    (s.appendInst i).getBlockD c = s.getBlockD c := by
  cases hip : s.insPt with
  | none => simp [SGState.appendInst, hip]
  | some b2 =>
    have : c ≠ b2 := fun hc => h (by rw [hip, hc])
    simp [SGState.appendInst, hip, getBlockD_appendTo_ne this]

theorem getBlockD_appendInst_self (hip : s.insPt = some b) (h : b ∈ s.ids) :
    (s.appendInst i).getBlockD b = s.getBlockD b ++ [i] := by
  simp [SGState.appendInst, hip, getBlockD_appendTo_self h]

theorem getBlockD_createBranch_ne (h : s.insPt ≠ some c) :
    (s.createBranch b).getBlockD c = s.getBlockD c := by
  simp [SGState.createBranch, getBlockD_appendInst_ne h]

theorem getBlockD_createBranch_self (hip : s.insPt = some b) (h : b ∈ s.ids) :
    (s.createBranch c).getBlockD b = s.getBlockD b ++ [.br c] := by
  simp [SGState.createBranch, getBlockD_appendInst_self hip h]

theorem getBlockD_createCondBranch_ne (h : s.insPt ≠ some c) (t f : Nat) :
    (s.createCondBranch t f).getBlockD c = s.getBlockD c := by
  simp [SGState.createCondBranch, getBlockD_appendInst_ne h]

theorem getBlockD_createCondBranch_self (hip : s.insPt = some b) (h : b ∈ s.ids)
    (t f : Nat) :
    (s.createCondBranch t f).getBlockD b = s.getBlockD b ++ [.condBr t f] := by
  simp [SGState.createCondBranch, getBlockD_appendInst_self hip h]

theorem targetCount_appendTo (hnd : s.ids.Nodup) :
    (s.appendTo c i).targetCount b =
      s.targetCount b + (if c ∈ s.ids then instHits i b else 0) :=
  tcL_updL_append hnd i

theorem targetCount_prependTo (hnd : s.ids.Nodup) :
    (s.prependTo c i).targetCount b =
      s.targetCount b + (if c ∈ s.ids then instHits i b else 0) :=
  tcL_updL_prepend hnd i

@[simp] theorem targetCount_create :
    ((s.createBasicBlock).2).targetCount b = s.targetCount b := by
  show tcL (s.blocks ++ [(s.nextId, [])]) b = tcL s.blocks b
  rw [tcL_append]
  simp [tcL, blockHits]

theorem targetCount_erase_of_nil (hnd : s.ids.Nodup) (hnil : s.getBlockD c = []) :
    (s.eraseBlock c).targetCount b = s.targetCount b :=
  tcL_filter_of_nil hnd hnil

@[simp] theorem targetCount_emitBlockNoBr :
    (s.emitBlockNoBr c).targetCount b = s.targetCount b := rfl

@[simp] theorem targetCount_clearIP : (s.clearIP).targetCount b = s.targetCount b := rfl

@[simp] theorem targetCount_pushBC (id bd cd : Nat) :
    (s.pushBC id bd cd).targetCount b = s.targetCount b := rfl

@[simp] theorem targetCount_popBC : (s.popBC).targetCount b = s.targetCount b := rfl

@[simp] theorem targetCount_allocSlot :
    ((s.allocSlot).2).targetCount b = s.targetCount b := rfl

theorem targetCount_appendInst (hnd : s.ids.Nodup) (hwfip : ∀ b2, s.insPt = some b2 → b2 ∈ s.ids) :
    (s.appendInst i).targetCount b =
      s.targetCount b + (if s.insPt.isSome then instHits i b else 0) := by
  cases hip : s.insPt with
  | none => simp [SGState.appendInst, hip]
  | some b2 =>
    simp [SGState.appendInst, hip, targetCount_appendTo hnd, hwfip b2 hip]

theorem destroyCount_appendTo (hnd : s.ids.Nodup) :
    (s.appendTo c j).destroyCount k =
      s.destroyCount k + (if c ∈ s.ids then (if j = .destroyAddr k then 1 else 0) else 0) :=
  ciL_updL_append hnd j

theorem destroyCount_prependTo (hnd : s.ids.Nodup) :
    (s.prependTo c j).destroyCount k =
      s.destroyCount k + (if c ∈ s.ids then (if j = .destroyAddr k then 1 else 0) else 0) :=
  ciL_updL_prepend hnd j

@[simp] theorem destroyCount_create :
    ((s.createBasicBlock).2).destroyCount k = s.destroyCount k := by
  show ciL (s.blocks ++ [(s.nextId, [])]) _ = ciL s.blocks _
  rw [ciL_append]
  simp [ciL]

theorem destroyCount_erase_of_nil (hnd : s.ids.Nodup) (hnil : s.getBlockD c = []) :
    (s.eraseBlock c).destroyCount k = s.destroyCount k :=
  ciL_filter_of_nil hnd hnil

@[simp] theorem destroyCount_emitBlockNoBr :
    (s.emitBlockNoBr c).destroyCount k = s.destroyCount k := rfl

@[simp] theorem destroyCount_clearIP :
    (s.clearIP).destroyCount k = s.destroyCount k := rfl

@[simp] theorem destroyCount_pushBC (id bd cd : Nat) :
    (s.pushBC id bd cd).destroyCount k = s.destroyCount k := rfl

@[simp] theorem destroyCount_popBC : (s.popBC).destroyCount k = s.destroyCount k := rfl

@[simp] theorem destroyCount_allocSlot :
    ((s.allocSlot).2).destroyCount k = s.destroyCount k := rfl

theorem destroyCount_appendInst (hnd : s.ids.Nodup)
    (hwfip : ∀ b2, s.insPt = some b2 → b2 ∈ s.ids) :
    (s.appendInst j).destroyCount k =
      s.destroyCount k +
        (if s.insPt.isSome then (if j = .destroyAddr k then 1 else 0) else 0) := by
  cases hip : s.insPt with
  | none => simp [SGState.appendInst, hip]
  | some b2 =>
    simp [SGState.appendInst, hip, destroyCount_appendTo hnd, hwfip b2 hip]

theorem allocCount_appendTo (hnd : s.ids.Nodup) :
    (s.appendTo c j).allocCount k =
      s.allocCount k + (if c ∈ s.ids then (if j = .allocStack k then 1 else 0) else 0) :=
  ciL_updL_append hnd j

theorem allocCount_prependTo (hnd : s.ids.Nodup) :
    (s.prependTo c j).allocCount k =
      s.allocCount k + (if c ∈ s.ids then (if j = .allocStack k then 1 else 0) else 0) :=
  ciL_updL_prepend hnd j

@[simp] theorem allocCount_create :
    ((s.createBasicBlock).2).allocCount k = s.allocCount k := by
  show ciL (s.blocks ++ [(s.nextId, [])]) _ = ciL s.blocks _
  rw [ciL_append]
  simp [ciL]

theorem allocCount_erase_of_nil (hnd : s.ids.Nodup) (hnil : s.getBlockD c = []) :
    (s.eraseBlock c).allocCount k = s.allocCount k :=
  ciL_filter_of_nil hnd hnil

@[simp] theorem allocCount_emitBlockNoBr :
    (s.emitBlockNoBr c).allocCount k = s.allocCount k := rfl

@[simp] theorem allocCount_clearIP : (s.clearIP).allocCount k = s.allocCount k := rfl

@[simp] theorem allocCount_pushBC (id bd cd : Nat) :
    (s.pushBC id bd cd).allocCount k = s.allocCount k := rfl

@[simp] theorem allocCount_popBC : (s.popBC).allocCount k = s.allocCount k := rfl

@[simp] theorem allocCount_allocSlot :
    ((s.allocSlot).2).allocCount k = s.allocCount k := rfl

theorem allocCount_appendInst (hnd : s.ids.Nodup)
    (hwfip : ∀ b2, s.insPt = some b2 → b2 ∈ s.ids) :
    (s.appendInst j).allocCount k =
      s.allocCount k +
        (if s.insPt.isSome then (if j = .allocStack k then 1 else 0) else 0) := by
  cases hip : s.insPt with
  | none => simp [SGState.appendInst, hip]
  | some b2 =>
    simp [SGState.appendInst, hip, allocCount_appendTo hnd, hwfip b2 hip]

end StateLevel

/-! ## Well-formedness lemmas -/

section WFLemmas

variable {s : SGState} {b c d : Nat} {i : Inst} {k : Nat}

theorem instsBounded_iff {l : List Inst} {n m : Nat} :
    instsBounded l n m = true ↔
      ∀ i ∈ l, (∀ t ∈ i.targets, t < n) ∧
        (∀ k2, i = Inst.destroyAddr k2 ∨ i = Inst.allocStack k2 → k2 < m) := by
  unfold instsBounded
  rw [List.all_eq_true]
  constructor
  · intro h i hi
    have := h i hi
    rw [Bool.and_eq_true] at this
    refine ⟨?_, ?_⟩
    · intro t ht
      have := this.1
      rw [List.all_eq_true] at this
      simpa using this t ht
    · intro k2 hk2
      have h2 := this.2
      rcases hk2 with hk2 | hk2 <;> subst hk2 <;> simpa using h2
  · intro h i hi
    rw [Bool.and_eq_true]
    refine ⟨?_, ?_⟩
    · rw [List.all_eq_true]
      intro t ht
      simpa using (h i hi).1 t ht
    · cases i with
      | destroyAddr k2 => simpa using (h _ hi).2 k2 (Or.inl rfl)
      | allocStack k2 => simpa using (h _ hi).2 k2 (Or.inr rfl)
      | other => rfl
      | br d2 => rfl
      | condBr t2 f2 => rfl

theorem instsBounded_append {l1 l2 : List Inst} {n m : Nat} :
    instsBounded (l1 ++ l2) n m = true ↔
      (instsBounded l1 n m = true ∧ instsBounded l2 n m = true) := by
  simp [instsBounded_iff]
  constructor
  · intro h
    exact ⟨fun i hi => h i (Or.inl hi), fun i hi => h i (Or.inr hi)⟩
  · rintro ⟨h1, h2⟩ i hi
    rcases hi with hi | hi
    · exact h1 i hi
    · exact h2 i hi

theorem instsBounded_mono {l : List Inst} {n m n2 m2 : Nat}
    (h : instsBounded l n m = true) (hn : n ≤ n2) (hm : m ≤ m2) :
    instsBounded l n2 m2 = true := by
  rw [instsBounded_iff] at h ⊢
  intro i hi
  exact ⟨fun t ht => lt_of_lt_of_le ((h i hi).1 t ht) hn,
    fun k2 hk2 => lt_of_lt_of_le ((h i hi).2 k2 hk2) hm⟩

theorem WFb_iff : WFb s = true ↔
    s.ids.Nodup ∧
    (∀ p ∈ s.blocks, p.1 < s.nextId ∧ instsBounded p.2 s.nextId s.nextSlot = true) ∧
    (∀ b2, s.insPt = some b2 → b2 ∈ s.ids) ∧
    (∀ e ∈ s.bcStack, e.2.1 < s.nextId ∧ e.2.2 < s.nextId) ∧
    s.returnDest < s.nextId := by
  unfold WFb
  simp only [Bool.and_eq_true, List.all_eq_true, decide_eq_true_eq]
  constructor
  · rintro ⟨⟨⟨⟨hnd, hbl⟩, hip⟩, hst⟩, hrd⟩
    refine ⟨hnd, hbl, ?_, hst, hrd⟩
    intro b2 hb2
    rw [hb2] at hip
    simpa using hip
  · rintro ⟨hnd, hbl, hip, hst, hrd⟩
    refine ⟨⟨⟨⟨hnd, hbl⟩, ?_⟩, hst⟩, hrd⟩
    cases hips : s.insPt with
    | none => rfl
    | some b2 => simpa using hip b2 hips

theorem wf_nodup (h : WFb s = true) : s.ids.Nodup := (WFb_iff.1 h).1

theorem wf_block_lt (h : WFb s = true) (hb : b ∈ s.ids) : b < s.nextId := by
  rcases List.mem_map.1 hb with ⟨p, hp, hpb⟩
  exact hpb ▸ ((WFb_iff.1 h).2.1 p hp).1

theorem wf_insPt_mem (h : WFb s = true) (hip : s.insPt = some b) : b ∈ s.ids :=
  (WFb_iff.1 h).2.2.1 b hip

theorem wf_insPt_lt (h : WFb s = true) (hip : s.insPt = some b) : b < s.nextId :=
  wf_block_lt h (wf_insPt_mem h hip)

theorem wf_stack_lt (h : WFb s = true) {e : Nat × Nat × Nat} (he : e ∈ s.bcStack) :
    e.2.1 < s.nextId ∧ e.2.2 < s.nextId :=
  (WFb_iff.1 h).2.2.2.1 e he

theorem wf_rdest_lt (h : WFb s = true) : s.returnDest < s.nextId :=
  (WFb_iff.1 h).2.2.2.2

theorem wf_nextId_notMem (h : WFb s = true) : s.nextId ∉ s.ids := by
  intro hmem
  exact absurd (wf_block_lt h hmem) (lt_irrefl _)

theorem blockHits_eq_zero {l : List Inst} {n m : Nat}
    (h : instsBounded l n m = true) (hb : n ≤ b) : blockHits l b = 0 := by
  rw [instsBounded_iff] at h
  induction l with
  | nil => rfl
  | cons i rest ih =>
    rw [blockHits_cons]
    have h1 : instHits i b = 0 := by
      apply List.count_eq_zero_of_not_mem
      intro hmem
      exact absurd (lt_of_lt_of_le ((h i (List.mem_cons_self i rest)).1 b hmem) hb)
        (lt_irrefl _)
    rw [h1, ih (fun j hj => h j (List.mem_cons_of_mem i hj))]

theorem wf_targetCount_big (h : WFb s = true) (hb : s.nextId ≤ b) :
    s.targetCount b = 0 := by
  have hbl := (WFb_iff.1 h).2.1
  show tcL s.blocks b = 0
  rw [tcL]
  rw [List.sum_eq_zero]
  intro x hx
  rcases List.mem_map.1 hx with ⟨p, hp, hpx⟩
  rw [← hpx]
  exact blockHits_eq_zero (hbl p hp).2 hb

theorem wf_predEmpty_big (h : WFb s = true) (hb : s.nextId ≤ b) :
    s.predEmpty b = true := by
  simp [SGState.predEmpty, wf_targetCount_big h hb]

theorem count_eq_zero_bounded {l : List Inst} {n m : Nat}
    (h : instsBounded l n m = true) (hk : m ≤ k) :
    l.count (Inst.destroyAddr k) = 0 ∧ l.count (Inst.allocStack k) = 0 := by
  rw [instsBounded_iff] at h
  constructor <;> (apply List.count_eq_zero_of_not_mem; intro hmem)
  · exact absurd (lt_of_lt_of_le ((h _ hmem).2 k (Or.inl rfl)) hk) (lt_irrefl _)
  · exact absurd (lt_of_lt_of_le ((h _ hmem).2 k (Or.inr rfl)) hk) (lt_irrefl _)

theorem wf_destroyCount_big (h : WFb s = true) (hk : s.nextSlot ≤ k) :
    s.destroyCount k = 0 := by
  have hbl := (WFb_iff.1 h).2.1
  show ciL s.blocks _ = 0
  rw [ciL, List.sum_eq_zero]
  intro x hx
  rcases List.mem_map.1 hx with ⟨p, hp, hpx⟩
  rw [← hpx]
  exact (count_eq_zero_bounded (hbl p hp).2 hk).1

theorem wf_allocCount_big (h : WFb s = true) (hk : s.nextSlot ≤ k) :
    s.allocCount k = 0 := by
  have hbl := (WFb_iff.1 h).2.1
  show ciL s.blocks _ = 0
  rw [ciL, List.sum_eq_zero]
  intro x hx
  rcases List.mem_map.1 hx with ⟨p, hp, hpx⟩
  rw [← hpx]
  exact (count_eq_zero_bounded (hbl p hp).2 hk).2

theorem mem_updL {l : List (Nat × List Inst)} {f : List Inst → List Inst}
    {p2 : Nat × List Inst} (h : p2 ∈ updL l b f) :
    ∃ p ∈ l, p2 = if p.1 = b then (p.1, f p.2) else p := by
  induction l with
  | nil => simp [updL] at h
  | cons q rest ih =>
    rw [updL] at h
    rcases List.mem_cons.1 h with h | h
    · exact ⟨q, List.mem_cons_self q rest, h⟩
    · rcases ih h with ⟨p, hp, hpe⟩
      exact ⟨p, List.mem_cons_of_mem q hp, hpe⟩

theorem WFb_appendTo (h : WFb s = true)
    (hbd : instsBounded [i] s.nextId s.nextSlot = true) :
    WFb (s.appendTo b i) = true := by
  rcases WFb_iff.1 h with ⟨hnd, hbl, hip, hst, hrd⟩
  rw [WFb_iff]
  refine ⟨by simpa using hnd, ?_, ?_, by simpa using hst, by simpa using hrd⟩
  · intro p hp
    rcases mem_updL hp with ⟨q, hq, hqe⟩
    by_cases hqb : q.1 = b
    · rw [hqe, if_pos hqb]
      exact ⟨(hbl q hq).1, instsBounded_append.2 ⟨(hbl q hq).2, by simpa using hbd⟩⟩
    · rw [hqe, if_neg hqb]
      exact hbl q hq
  · intro b2 hb2
    simp only [insPt_appendTo] at hb2
    simpa using hip b2 hb2

theorem WFb_prependTo (h : WFb s = true)
    (hbd : instsBounded [i] s.nextId s.nextSlot = true) :
    WFb (s.prependTo b i) = true := by
  rcases WFb_iff.1 h with ⟨hnd, hbl, hip, hst, hrd⟩
  rw [WFb_iff]
  refine ⟨by simpa using hnd, ?_, ?_, by simpa using hst, by simpa using hrd⟩
  · intro p hp
    rcases mem_updL hp with ⟨q, hq, hqe⟩
    by_cases hqb : q.1 = b
    · rw [hqe, if_pos hqb]
      refine ⟨(hbl q hq).1, ?_⟩
      have : (i :: q.2) = [i] ++ q.2 := rfl
      rw [this]
      exact instsBounded_append.2 ⟨by simpa using hbd, (hbl q hq).2⟩
    · rw [hqe, if_neg hqb]
      exact hbl q hq
  · intro b2 hb2
    simp only [insPt_prependTo] at hb2
    simpa using hip b2 hb2

theorem WFb_appendInst (h : WFb s = true)
    (hbd : instsBounded [i] s.nextId s.nextSlot = true) :
    WFb (s.appendInst i) = true := by
  cases hip : s.insPt with
  | none => simpa [SGState.appendInst, hip] using h
  | some b2 => simpa [SGState.appendInst, hip] using WFb_appendTo h hbd

theorem WFb_create (h : WFb s = true) : WFb ((s.createBasicBlock).2) = true := by
  rcases WFb_iff.1 h with ⟨hnd, hbl, hip, hst, hrd⟩
  rw [WFb_iff]
  refine ⟨?_, ?_, ?_, ?_, ?_⟩
  · rw [ids_create]
    rw [List.nodup_append]
    exact ⟨hnd, List.nodup_singleton _, by
      intro a ha hb2
      rcases List.mem_singleton.1 hb2 with rfl
      exact wf_nextId_notMem h ha⟩
  · intro p hp
    rcases List.mem_append.1 hp with hp | hp
    · exact ⟨Nat.lt_succ_of_lt (hbl p hp).1,
        instsBounded_mono (hbl p hp).2 (Nat.le_succ _) le_rfl⟩
    · rcases List.mem_singleton.1 hp with rfl
      exact ⟨Nat.lt_succ_self _, rfl⟩
  · intro b2 hb2
    simp only [insPt_create] at hb2
    rw [ids_create]
    exact List.mem_append_left _ (hip b2 hb2)
  · intro e he
    simp only [bcStack_create] at he
    exact ⟨Nat.lt_succ_of_lt (hst e he).1, Nat.lt_succ_of_lt (hst e he).2⟩
  · simpa using Nat.lt_succ_of_lt hrd

theorem map_fst_filter_ne {l : List (Nat × List Inst)} :
    ((l.filter (fun p => p.1 ≠ b)).map (·.1)) = (l.map (·.1)).filter (· ≠ b) := by
  induction l with
  | nil => rfl
  | cons p rest ih =>
    by_cases hp : p.1 = b
    · rw [List.filter_cons, if_neg (by simp [hp]), List.map_cons, List.filter_cons,
        if_neg (by simp [hp]), ih]
    · rw [List.filter_cons, if_pos (by simp [hp]), List.map_cons, List.map_cons,
        List.filter_cons, if_pos (by simp [hp]), ih]

theorem WFb_erase (h : WFb s = true) (hip : s.insPt ≠ some b) :
    WFb (s.eraseBlock b) = true := by
  rcases WFb_iff.1 h with ⟨hnd, hbl, hip2, hst, hrd⟩
  rw [WFb_iff]
  refine ⟨?_, ?_, ?_, by simpa using hst, by simpa using hrd⟩
  · show ((s.blocks.filter _).map (·.1)).Nodup
    rw [map_fst_filter_ne]
    exact hnd.filter _
  · intro p hp
    exact hbl p (List.mem_of_mem_filter hp)
  · intro b2 hb2
    simp only [insPt_eraseBlock] at hb2
    have hne : b2 ≠ b := fun he => hip (he ▸ hb2)
    rw [show (s.eraseBlock b).ids = (s.eraseBlock b).ids from rfl]
    exact mem_ids_erase.2 ⟨hip2 b2 hb2, hne⟩

theorem WFb_clearIP (h : WFb s = true) : WFb (s.clearIP) = true := by
  rcases WFb_iff.1 h with ⟨hnd, hbl, hip, hst, hrd⟩
  rw [WFb_iff]
  exact ⟨hnd, hbl, by simp [SGState.clearIP], hst, hrd⟩

theorem WFb_emitBlockNoBr (h : WFb s = true) (hb : b ∈ s.ids) :
    WFb (s.emitBlockNoBr b) = true := by
  rcases WFb_iff.1 h with ⟨hnd, hbl, hip, hst, hrd⟩
  rw [WFb_iff]
  refine ⟨hnd, hbl, ?_, hst, hrd⟩
  intro b2 hb2
  simp only [SGState.emitBlockNoBr] at hb2
  cases hb2
  exact hb

theorem WFb_createBranch (h : WFb s = true) (hd : d < s.nextId) :
    WFb (s.createBranch d) = true := by
  apply WFb_clearIP
  apply WFb_appendInst h
  simp [instsBounded, Inst.targets, hd]

theorem WFb_createCondBranch (h : WFb s = true) (ht : c < s.nextId)
    (hf : d < s.nextId) : WFb (s.createCondBranch c d) = true := by
  apply WFb_clearIP
  apply WFb_appendInst h
  simp [instsBounded, Inst.targets, ht, hf]

theorem WFb_emitBlockBr (h : WFb s = true) (hb : b ∈ s.ids) :
    WFb (s.emitBlockBr b) = true := by
  unfold SGState.emitBlockBr
  by_cases hip : s.insPt.isSome
  · rw [if_pos hip]
    apply WFb_emitBlockNoBr _ (by simpa using hb)
    exact WFb_createBranch h (wf_block_lt h hb)
  · rw [if_neg hip]
    exact WFb_emitBlockNoBr h hb

theorem WFb_pushBC (h : WFb s = true) (hbd : b < s.nextId) (hcd : c < s.nextId)
    (id : Nat) : WFb (s.pushBC id b c) = true := by
  rcases WFb_iff.1 h with ⟨hnd, hbl, hip, hst, hrd⟩
  rw [WFb_iff]
  refine ⟨hnd, hbl, hip, ?_, hrd⟩
  intro e he
  simp only [bcStack_pushBC] at he
  rcases List.mem_cons.1 he with rfl | he
  · exact ⟨hbd, hcd⟩
  · exact hst e he

theorem WFb_popBC (h : WFb s = true) : WFb (s.popBC) = true := by
  rcases WFb_iff.1 h with ⟨hnd, hbl, hip, hst, hrd⟩
  rw [WFb_iff]
  refine ⟨hnd, hbl, hip, ?_, hrd⟩
  intro e he
  simp only [bcStack_popBC] at he
  exact hst e (List.mem_of_mem_tail he)

theorem WFb_allocSlot (h : WFb s = true) : WFb ((s.allocSlot).2) = true := by
  rcases WFb_iff.1 h with ⟨hnd, hbl, hip, hst, hrd⟩
  rw [WFb_iff]
  refine ⟨hnd, ?_, hip, hst, hrd⟩
  intro p hp
  exact ⟨(hbl p hp).1, instsBounded_mono (hbl p hp).2 le_rfl (Nat.le_succ _)⟩

theorem WFb_emitOrDelete (h : WFb s = true) (hb : b ∈ s.ids)
    (hip : s.insPt ≠ some b) : WFb (s.emitOrDeleteBlock b) = true := by
  unfold SGState.emitOrDeleteBlock
  by_cases hpe : s.predEmpty b
  · rw [if_pos hpe]
    exact WFb_erase h hip
  · rw [if_neg hpe]
    exact WFb_emitBlockBr h hb

end WFLemmas

/-! ## The break/continue destination stack is construct-local -/

section StackLemmas

variable {s : SGState}

@[simp] theorem bcStack_buffers (cond : List CondElt) :
    ((emitConditionalBindingBuffers cond s).2).bcStack = s.bcStack := by
  induction cond generalizing s with
  | nil => rfl
  | cons e rest ih =>
    cases e with
    | boolean => simpa [emitConditionalBindingBuffers] using ih
    | binding => simp [emitConditionalBindingBuffers, ih]

@[simp] theorem bcStack_escGo (cond : List CondElt) (bufs cbs : List Nat) :
    ((escGo cond bufs cbs s).2).bcStack = s.bcStack := by
  induction cond generalizing bufs cbs s with
  | nil => rfl
  | cons e rest ih =>
    cases e with
    | boolean => simp [escGo, ih]
    | binding =>
      simp only [escGo]
      split <;> simp [ih]

@[simp] theorem bcStack_emitStmtCondition (cond : List CondElt) (bufs : List Nat) :
    ((emitStmtCondition cond bufs s).2).bcStack = s.bcStack := by
  simp [emitStmtCondition]

@[simp] theorem bcStack_patternBindings (bufs : List Nat) :
    (emitPatternBindingsM bufs s).bcStack = s.bcStack := by
  induction bufs generalizing s with
  | nil => rfl
  | cons b rest ih => simp [emitPatternBindingsM] at ih ⊢; rw [ih]; simp

@[simp] theorem bcStack_emitAll (cbs : List Nat) :
    (emitAll cbs s).bcStack = s.bcStack := by
  induction cbs generalizing s with
  | nil => rfl
  | cons b rest ih => simp [emitAll] at ih ⊢; rw [ih]; rfl

@[simp] theorem bcStack_emitConditionV (h1 h2 : Bool) :
    ((emitConditionV h1 h2 s).2).bcStack = s.bcStack := by
  unfold emitConditionV
  cases h1 <;> cases h2 <;> simp

@[simp] theorem bcStack_emitConditionE (h1 h2 : Bool) :
    ((emitConditionE h1 h2 s).2).bcStack = s.bcStack := by
  simp [emitConditionE]

@[simp] theorem bcStack_condEnterTrue (c : CondRec) :
    (condEnterTrue c s).bcStack = s.bcStack := by
  unfold condEnterTrue
  cases c.trueBB <;> simp

@[simp] theorem bcStack_condExitTrue (c : CondRec) :
    (condExitTrue c s).bcStack = s.bcStack := by
  unfold condExitTrue
  by_cases h : s.insPt.isNone
  · simp [h]
  · cases c.contBB <;> simp [h]

@[simp] theorem bcStack_condComplete (c : CondRec) :
    (condComplete c s).bcStack = s.bcStack := by
  unfold condComplete
  cases c.contBB with
  | none => rfl
  | some cb =>
    by_cases h : s.predEmpty cb <;> simp [h, SGState.clearIP]

@[simp] theorem bcStack_ifPre (cond : List CondElt) :
    ((ifPre cond s).2).bcStack = s.bcStack := by
  simp [ifPre]

@[simp] theorem bcStack_ifNoElseFinish (cbs : List Nat) :
    (ifNoElseFinish cbs s).bcStack = s.bcStack := by
  simp only [ifNoElseFinish]
  split
  · split <;> simp
  · simp

@[simp] theorem bcStack_ifElseMid (cbs : List Nat) :
    ((ifElseMid cbs s).2).bcStack = s.bcStack := by
  simp only [ifElseMid]
  split <;> simp

@[simp] theorem bcStack_ifElseFinish (contBB : Nat) :
    (ifElseFinish contBB s).bcStack = s.bcStack := by
  unfold ifElseFinish
  by_cases h : s.insPt.isSome <;>
    first
    | (rw [if_pos h]
       by_cases h2 : (s.createBranch contBB).predEmpty contBB <;> simp [h2])
    | (rw [if_neg h]
       by_cases h2 : s.predEmpty contBB <;> simp [h2])

@[simp] theorem bcStack_whilePre (id : Nat) (cond : List CondElt) :
    ((whilePre id cond s).2.2).bcStack =
      (id, ((whilePre id cond s).2.1).headD 0, (whilePre id cond s).1) :: s.bcStack := by
  simp [whilePre]

@[simp] theorem bcStack_whilePost (loopBB : Nat) (cbs : List Nat) :
    (whilePost loopBB cbs s).bcStack = s.bcStack.tail := by
  unfold whilePost
  by_cases h : s.insPt.isSome <;> simp [h]

@[simp] theorem bcStack_doWhilePre (id : Nat) :
    ((doWhilePre id s).2.2.2).bcStack =
      (id, (doWhilePre id s).2.1, (doWhilePre id s).2.2.1) :: s.bcStack := by
  simp [doWhilePre]

@[simp] theorem bcStack_doWhileCondStep (loopBB : Nat) :
    (doWhileCondStep loopBB s).bcStack = s.bcStack := by
  simp only [doWhileCondStep]
  split <;> simp

@[simp] theorem bcStack_doWhilePost (loopBB endBB condBB : Nat) :
    (doWhilePost loopBB endBB condBB s).bcStack = s.bcStack.tail := by
  simp only [doWhilePost]
  split <;> simp

@[simp] theorem bcStack_forInit (hasInit : Bool) :
    (forInit hasInit s).bcStack = s.bcStack := by
  unfold forInit
  cases hasInit <;> simp

@[simp] theorem bcStack_forPre (id : Nat) (hasCond : Bool) :
    ((forPre id hasCond s).2.2.2.2).bcStack =
      (id, (forPre id hasCond s).2.2.1, (forPre id hasCond s).2.1) :: s.bcStack := by
  unfold forPre
  cases hasCond <;> simp

@[simp] theorem bcStack_forPost (loopBB incBB endBB : Nat) (cond : CondRec)
    (hasIncr : Bool) :
    (forPost loopBB incBB endBB cond hasIncr s).bcStack = s.bcStack.tail := by
  simp only [forPost]
  split <;> split <;> simp

@[simp] theorem bcStack_forSkipBody (endBB : Nat) (cond : CondRec) :
    (forSkipBody endBB cond s).bcStack = s.bcStack.tail := by
  simp [forSkipBody]

@[simp] theorem bcStack_forEachPre (id : Nat) :
    ((forEachPre id s).2.2.2.2).bcStack =
      (id, (forEachPre id s).2.2.1, (forEachPre id s).2.1) :: s.bcStack := by
  simp [forEachPre]

@[simp] theorem bcStack_forEachBodyEntry (cond : CondRec) :
    (forEachBodyEntry cond s).bcStack = s.bcStack := by
  simp [forEachBodyEntry]

@[simp] theorem bcStack_forEachPost (loopBB endBB : Nat) (cond : CondRec) :
    (forEachPost loopBB endBB cond s).bcStack = s.bcStack.tail := by
  unfold forEachPost
  by_cases h : s.insPt.isSome <;> simp [h]

/-- Lowering any statement restores the break/continue destination stack, and
the brace-element loop never changes it. -/
theorem visit_stack_pair :
    (∀ t s, (visitStmt t s).bcStack = s.bcStack) ∧
    (∀ l k s, (visitBraceElts l k s).bcStack = s.bcStack) := by
  apply visitStmt.mutual_induct
    (motive_1 := fun t s => (visitStmt t s).bcStack = s.bcStack)
    (motive_2 := fun l k s => (visitBraceElts l k s).bcStack = s.bcStack)
  · intro elts s ih
    simpa [visitStmt] using ih
  · intro s; simp [visitStmt]
  · intro s; simp [visitStmt]
  · intro s; simp [visitStmt]
  · intro s; simp [visitStmt]
  · intro tgt s b c hf
    simp [visitStmt, hf]
  · intro tgt s hf
    simp [visitStmt, hf]
  · intro tgt s b c hf
    simp [visitStmt, hf]
  · intro tgt s hf
    simp [visitStmt, hf]
  · intro cond th s cbs s1 hpre ih
    have hs1 : s1.bcStack = s.bcStack := by
      have := bcStack_ifPre (s := s) cond
      rw [hpre] at this
      exact this
    simp [visitStmt, hpre, ih, hs1]
  · intro cond th el s cbs s1 hpre contBB s2 hmid ih1 ih2
    have hs1 : s1.bcStack = s.bcStack := by
      have := bcStack_ifPre (s := s) cond
      rw [hpre] at this
      exact this
    have hs2 : s2.bcStack = (visitStmt th s1).bcStack := by
      have := bcStack_ifElseMid (s := visitStmt th s1) cbs
      rw [hmid] at this
      exact this
    simp [visitStmt, hpre, hmid, ih2, hs2, ih1, hs1]
  · intro id cond body s loopBB cbs sb hpre ih
    have hsb : sb.bcStack = (id, cbs.headD 0, loopBB) :: s.bcStack := by
      have := bcStack_whilePre (s := s) id cond
      rw [hpre] at this
      exact this
    simp [visitStmt, hpre, ih, hsb]
  · intro id body s loopBB endBB condBB sb hpre ih
    have hsb : sb.bcStack = (id, endBB, condBB) :: s.bcStack := by
      have := bcStack_doWhilePre (s := s) id
      rw [hpre] at this
      exact this
    simp [visitStmt, hpre, ih, hsb]
  · intro id hasInit hasCond hasIncr body s s0 hip
    simp only [visitStmt]
    rw [if_pos hip]
    simp
  · intro id hasInit hasCond hasIncr body s s0 hip loopBB incBB endBB cond sb hpre htrue ih
    have hsb : sb.bcStack = (id, endBB, incBB) :: s0.bcStack := by
      have := bcStack_forPre (s := s0) id hasCond
      rw [hpre] at this
      exact this
    simp only [visitStmt]
    rw [if_neg hip, hpre]
    simp only [htrue, if_pos]
    simp [ih, hsb, bcStack_condEnterTrue]
    exact bcStack_forInit hasInit
  · intro id hasInit hasCond hasIncr body s s0 hip loopBB incBB endBB cond sb hpre hfalse
    have hsb : sb.bcStack = (id, endBB, incBB) :: s0.bcStack := by
      have := bcStack_forPre (s := s0) id hasCond
      rw [hpre] at this
      exact this
    simp only [visitStmt]
    rw [if_neg hip, hpre]
    simp [hfalse, hsb]
    exact bcStack_forInit hasInit
  · intro id body s s0 hip
    simp only [visitStmt]
    rw [if_pos hip]
    simp
  · intro id body s s0 hip nextBuf loopBB endBB cond sb hpre htrue ih
    have hsb : sb.bcStack = (id, endBB, loopBB) :: s0.bcStack := by
      have := bcStack_forEachPre (s := s0) id
      rw [hpre] at this
      exact this
    simp only [visitStmt]
    rw [if_neg hip, hpre]
    simp only [htrue, if_pos]
    simp [ih, hsb]
    exact bcStack_appendInst
  · intro id body s s0 hip nextBuf loopBB endBB cond sb hpre hfalse
    have hsb : sb.bcStack = (id, endBB, loopBB) :: s0.bcStack := by
      have := bcStack_forEachPre (s := s0) id
      rw [hpre] at this
      exact this
    simp only [visitStmt]
    rw [if_neg hip, hpre]
    simp [hfalse, hsb]
    exact bcStack_appendInst
  · intro k s
    simp [visitBraceElts]
  · intro e rest stype s hcfg ih
    simpa [visitBraceElts, hcfg] using ih
  · intro e rest stype s hcfg hipv ih1 ih2
    simp [visitBraceElts, hcfg, hipv, ih2, ih1]
  · intro e rest stype s hcfg hipv
    simp [visitBraceElts, hcfg, hipv]

/-- `visitStmt` restores the break/continue destination stack. -/
theorem visit_stack (t : Stmt) (s : SGState) :
    (visitStmt t s).bcStack = s.bcStack :=
  visit_stack_pair.1 t s

/-- `visitBraceElts` never changes the break/continue destination stack. -/
theorem visitBraceElts_stack (l : List Stmt) (k : Nat) (s : SGState) :
    (visitBraceElts l k s).bcStack = s.bcStack :=
  visit_stack_pair.2 l k s

end StackLemmas

theorem Ext.refl {s : SGState} : Ext s s := by
  intro hwf
  exact {
    nid := le_rfl
    rdest := rfl
    nslot := le_rfl
    keep := fun b hb => hb
    frozen := fun b _ _ => rfl
    tgt := fun b _ _ _ => rfl
    sdests := fun e he => Or.inl he
    dcount := fun k _ => rfl
    acount := fun k _ => rfl
    ip := Or.inr (Or.inl rfl)
    wf := hwf }

theorem Ext.trans {s t u : SGState} (h1 : Ext s t) (h2 : Ext t u) : Ext s u := by
  intro hwf
  have c1 := h1 hwf
  have c2 := h2 c1.wf
  refine {
    nid := le_trans c1.nid c2.nid
    rdest := c2.rdest.trans c1.rdest
    nslot := le_trans c1.nslot c2.nslot
    keep := fun b hb => c2.keep b (c1.keep b hb)
    frozen := ?_
    tgt := ?_
    sdests := ?_
    dcount := fun k hk => (c2.dcount k (lt_of_lt_of_le hk c1.nslot)).trans (c1.dcount k hk)
    acount := fun k hk => (c2.acount k (lt_of_lt_of_le hk c1.nslot)).trans (c1.acount k hk)
    ip := ?_
    wf := c2.wf }
  · intro b hb hip
    have hblt : b < s.nextId := wf_block_lt hwf hb
    have htip : t.insPt ≠ some b := by
      rcases c1.ip with h | h | ⟨b2, hb2, hge, _⟩
      · rw [h]; exact fun hc => Option.noConfusion hc
      · rw [h]; exact hip
      · rw [hb2]
        intro hc
        cases Option.some.injEq .. ▸ hc with
        | refl => exact absurd hblt (not_lt_of_le hge)
    exact (c2.frozen b (c1.keep b hb) htip).trans (c1.frozen b hb hip)
  · intro b hlt hst hrd
    have h2t : u.targetCount b = t.targetCount b := by
      apply c2.tgt b (lt_of_lt_of_le hlt c1.nid)
      · intro e he
        rcases c1.sdests e he with he2 | ⟨h1d, h2d⟩
        · exact hst e he2
        · constructor
          · intro hc
            rw [hc] at hlt
            exact absurd hlt (not_lt_of_le h1d)
          · intro hc
            rw [hc] at hlt
            exact absurd hlt (not_lt_of_le h2d)
      · rw [c1.rdest]
        exact hrd
    exact h2t.trans (c1.tgt b hlt hst hrd)
  · intro e he
    rcases c2.sdests e he with he2 | ⟨h1d, h2d⟩
    · exact c1.sdests e he2
    · exact Or.inr ⟨le_trans c1.nid h1d, le_trans c1.nid h2d⟩
  · rcases c2.ip with h | h | ⟨b, hb, hge, hmem⟩
    · exact Or.inl h
    · rw [h]
      rcases c1.ip with h1 | h1 | ⟨b, hb1, hge1, hmem1⟩
      · exact Or.inl h1
      · exact Or.inr (Or.inl h1)
      · exact Or.inr (Or.inr ⟨b, hb1, hge1, c2.keep b hmem1⟩)
    · exact Or.inr (Or.inr ⟨b, hb, le_trans c1.nid hge, hmem⟩)

section ExtSteps

variable {s t : SGState} {b c d k : Nat}

@[simp] theorem instHits_other : instHits Inst.other b = 0 := rfl

@[simp] theorem instHits_alloc : instHits (Inst.allocStack k) b = 0 := rfl

@[simp] theorem instHits_destroy : instHits (Inst.destroyAddr k) b = 0 := rfl

theorem instHits_br : instHits (Inst.br d) b = if d = b then 1 else 0 := by
  by_cases h : d = b <;> simp [instHits, Inst.targets, List.count_cons, h]

theorem instHits_condBr (t2 f2 : Nat) :
    instHits (Inst.condBr t2 f2) b =
      (if t2 = b then 1 else 0) + (if f2 = b then 1 else 0) := by
  by_cases h1 : t2 = b <;> by_cases h2 : f2 = b <;>
    simp [instHits, Inst.targets, List.count_cons, h1, h2]

theorem instHits_br_self : instHits (Inst.br d) d = 1 := by
  simp [instHits_br]

/-- A well-formed state treats a branch target that is admissible and
protected as distinct; helper for the target-count bookkeeping. -/
theorem admTgt_ne {s : SGState} {b d : Nat} (hadm : admTgt s d) (hlt : b < s.nextId)
    (hst : ∀ e ∈ s.bcStack, b ≠ e.2.1 ∧ b ≠ e.2.2) (hrd : b ≠ s.returnDest) :
    d ≠ b := by
  rcases hadm with h | ⟨e, he, h⟩ | h
  · intro hc
    rw [hc] at h
    exact absurd hlt (not_lt_of_le h)
  · intro hc
    rcases h with h | h
    · exact (hst e he).1 (hc ▸ h)
    · exact (hst e he).2 (hc ▸ h)
  · intro hc
    exact hrd (hc ▸ h)

theorem Ext.other (h : Ext s t) : Ext s (t.appendInst .other) := by
  intro hwf
  have c := h hwf
  have hndt := wf_nodup c.wf
  have hipt : ∀ b2, t.insPt = some b2 → b2 ∈ t.ids := fun b2 hb2 => wf_insPt_mem c.wf hb2
  refine {
    nid := by simpa using c.nid
    rdest := by simpa using c.rdest
    nslot := by simpa using c.nslot
    keep := fun b hb => by simpa using c.keep b hb
    frozen := ?_
    tgt := ?_
    sdests := fun e he => c.sdests e (by simpa using he)
    dcount := ?_
    acount := ?_
    ip := ?_
    wf := WFb_appendInst c.wf (by rfl) }
  · intro b hb hip
    have hblt : b < s.nextId := wf_block_lt hwf hb
    have htip : t.insPt ≠ some b := by
      rcases c.ip with h2 | h2 | ⟨b2, hb2, hge, _⟩
      · rw [h2]; exact fun hc => Option.noConfusion hc
      · rw [h2]; exact hip
      · rw [hb2]
        intro hc
        cases hc
        exact absurd hblt (not_lt_of_le hge)
    rw [getBlockD_appendInst_ne htip]
    exact c.frozen b hb hip
  · intro b hlt hst hrd
    rw [targetCount_appendInst hndt hipt]
    simp
    exact c.tgt b hlt hst hrd
  · intro k2 hk2
    rw [destroyCount_appendInst hndt hipt]
    simp
    exact c.dcount k2 hk2
  · intro k2 hk2
    rw [allocCount_appendInst hndt hipt]
    simp
    exact c.acount k2 hk2
  · rcases c.ip with h2 | h2 | ⟨b2, hb2, hge, hmem⟩
    · exact Or.inl (by simpa using h2)
    · exact Or.inr (Or.inl (by simpa using h2))
    · exact Or.inr (Or.inr ⟨b2, by simpa using hb2, hge, by simpa using hmem⟩)

theorem Ext.alloc (h : Ext s t) (hk1 : s.nextSlot ≤ k) (hk2 : k < t.nextSlot) :
    Ext s (t.appendInst (.allocStack k)) := by
  intro hwf
  have c := h hwf
  have hndt := wf_nodup c.wf
  have hipt : ∀ b2, t.insPt = some b2 → b2 ∈ t.ids := fun b2 hb2 => wf_insPt_mem c.wf hb2
  refine {
    nid := by simpa using c.nid
    rdest := by simpa using c.rdest
    nslot := by simpa using c.nslot
    keep := fun b hb => by simpa using c.keep b hb
    frozen := ?_
    tgt := ?_
    sdests := fun e he => c.sdests e (by simpa using he)
    dcount := ?_
    acount := ?_
    ip := ?_
    wf := WFb_appendInst c.wf (by simp [instsBounded, Inst.targets, hk2]) }
  · intro b hb hip
    have hblt : b < s.nextId := wf_block_lt hwf hb
    have htip : t.insPt ≠ some b := by
      rcases c.ip with h2 | h2 | ⟨b2, hb2, hge, _⟩
      · rw [h2]; exact fun hc => Option.noConfusion hc
      · rw [h2]; exact hip
      · rw [hb2]
        intro hc
        cases hc
        exact absurd hblt (not_lt_of_le hge)
    rw [getBlockD_appendInst_ne htip]
    exact c.frozen b hb hip
  · intro b hlt hst hrd
    rw [targetCount_appendInst hndt hipt]
    simp
    exact c.tgt b hlt hst hrd
  · intro k2 hk2b
    rw [destroyCount_appendInst hndt hipt]
    simp
    exact c.dcount k2 hk2b
  · intro k2 hk2b
    rw [allocCount_appendInst hndt hipt]
    have : (Inst.allocStack k = Inst.allocStack k2) = False := by
      simp only [Inst.allocStack.injEq, eq_iff_iff, iff_false]
      intro hc
      rw [hc] at hk1
      exact absurd (lt_of_lt_of_le hk2b hk1) (lt_irrefl _)
    simp [this]
    exact c.acount k2 hk2b
  · rcases c.ip with h2 | h2 | ⟨b2, hb2, hge, hmem⟩
    · exact Or.inl (by simpa using h2)
    · exact Or.inr (Or.inl (by simpa using h2))
    · exact Or.inr (Or.inr ⟨b2, by simpa using hb2, hge, by simpa using hmem⟩)

theorem Ext.newBlock (h : Ext s t) : Ext s ((t.createBasicBlock).2) := by
  intro hwf
  have c := h hwf
  refine {
    nid := by simp; exact le_trans c.nid (Nat.le_succ _)
    rdest := by simpa using c.rdest
    nslot := by simpa using c.nslot
    keep := fun b hb => by
      rw [ids_create]
      exact List.mem_append_left _ (c.keep b hb)
    frozen := fun b hb hip => by
      rw [getBlockD_create]
      exact c.frozen b hb hip
    tgt := fun b hlt hst hrd => by
      rw [targetCount_create]
      exact c.tgt b hlt hst hrd
    sdests := fun e he => c.sdests e (by simpa using he)
    dcount := fun k2 hk2 => by
      rw [destroyCount_create]
      exact c.dcount k2 hk2
    acount := fun k2 hk2 => by
      rw [allocCount_create]
      exact c.acount k2 hk2
    ip := ?_
    wf := WFb_create c.wf }
  rcases c.ip with h2 | h2 | ⟨b2, hb2, hge, hmem⟩
  · exact Or.inl (by simpa using h2)
  · exact Or.inr (Or.inl (by simpa using h2))
  · refine Or.inr (Or.inr ⟨b2, by simpa using hb2, hge, ?_⟩)
    rw [ids_create]
    exact List.mem_append_left _ hmem

theorem Ext.clearIP2 (h : Ext s t) : Ext s (t.clearIP) := by
  intro hwf
  have c := h hwf
  exact {
    nid := c.nid
    rdest := c.rdest
    nslot := c.nslot
    keep := c.keep
    frozen := c.frozen
    tgt := c.tgt
    sdests := c.sdests
    dcount := c.dcount
    acount := c.acount
    ip := Or.inl rfl
    wf := WFb_clearIP c.wf }

theorem Ext.branch (h : Ext s t) (hadm : admTgt s d) (hd : d < t.nextId) :
    Ext s (t.createBranch d) := by
  intro hwf
  have c := h hwf
  have c2 : ExtC s (t.appendInst (.br d)) := by
    have hndt := wf_nodup c.wf
    have hipt : ∀ b2, t.insPt = some b2 → b2 ∈ t.ids := fun b2 hb2 => wf_insPt_mem c.wf hb2
    refine {
      nid := by simpa using c.nid
      rdest := by simpa using c.rdest
      nslot := by simpa using c.nslot
      keep := fun b hb => by simpa using c.keep b hb
      frozen := ?_
      tgt := ?_
      sdests := fun e he => c.sdests e (by simpa using he)
      dcount := ?_
      acount := ?_
      ip := ?_
      wf := WFb_appendInst c.wf (by simp [instsBounded, Inst.targets, hd]) }
    · intro b hb hip
      have hblt : b < s.nextId := wf_block_lt hwf hb
      have htip : t.insPt ≠ some b := by
        rcases c.ip with h2 | h2 | ⟨b2, hb2, hge, _⟩
        · rw [h2]; exact fun hc => Option.noConfusion hc
        · rw [h2]; exact hip
        · rw [hb2]
          intro hc
          cases hc
          exact absurd hblt (not_lt_of_le hge)
      rw [getBlockD_appendInst_ne htip]
      exact c.frozen b hb hip
    · intro b hlt hst hrd
      rw [targetCount_appendInst hndt hipt]
      rw [instHits_br, if_neg (admTgt_ne hadm hlt hst hrd)]
      simp
      exact c.tgt b hlt hst hrd
    · intro k2 hk2
      rw [destroyCount_appendInst hndt hipt]
      simp
      exact c.dcount k2 hk2
    · intro k2 hk2
      rw [allocCount_appendInst hndt hipt]
      simp
      exact c.acount k2 hk2
    · rcases c.ip with h2 | h2 | ⟨b2, hb2, hge, hmem⟩
      · exact Or.inl (by simpa using h2)
      · exact Or.inr (Or.inl (by simpa using h2))
      · exact Or.inr (Or.inr ⟨b2, by simpa using hb2, hge, by simpa using hmem⟩)
  have : Ext s (t.appendInst (.br d)) := fun _ => c2
  exact (this.trans (Ext.clearIP2 Ext.refl)) hwf

theorem Ext.condBr (h : Ext s t) (hadm1 : admTgt s c) (hadm2 : admTgt s d)
    (hc : c < t.nextId) (hd : d < t.nextId) :
    Ext s (t.createCondBranch c d) := by
  intro hwf
  have cc := h hwf
  have c2 : ExtC s (t.appendInst (.condBr c d)) := by
    have hndt := wf_nodup cc.wf
    have hipt : ∀ b2, t.insPt = some b2 → b2 ∈ t.ids := fun b2 hb2 => wf_insPt_mem cc.wf hb2
    refine {
      nid := by simpa using cc.nid
      rdest := by simpa using cc.rdest
      nslot := by simpa using cc.nslot
      keep := fun b hb => by simpa using cc.keep b hb
      frozen := ?_
      tgt := ?_
      sdests := fun e he => cc.sdests e (by simpa using he)
      dcount := ?_
      acount := ?_
      ip := ?_
      wf := WFb_appendInst cc.wf (by simp [instsBounded, Inst.targets, hc, hd]) }
    · intro b hb hip
      have hblt : b < s.nextId := wf_block_lt hwf hb
      have htip : t.insPt ≠ some b := by
        rcases cc.ip with h2 | h2 | ⟨b2, hb2, hge, _⟩
        · rw [h2]; exact fun hcon => Option.noConfusion hcon
        · rw [h2]; exact hip
        · rw [hb2]
          intro hcon
          cases hcon
          exact absurd hblt (not_lt_of_le hge)
      rw [getBlockD_appendInst_ne htip]
      exact cc.frozen b hb hip
    · intro b hlt hst hrd
      rw [targetCount_appendInst hndt hipt]
      rw [instHits_condBr, if_neg (admTgt_ne hadm1 hlt hst hrd),
        if_neg (admTgt_ne hadm2 hlt hst hrd)]
      simp
      exact cc.tgt b hlt hst hrd
    · intro k2 hk2
      rw [destroyCount_appendInst hndt hipt]
      simp
      exact cc.dcount k2 hk2
    · intro k2 hk2
      rw [allocCount_appendInst hndt hipt]
      simp
      exact cc.acount k2 hk2
    · rcases cc.ip with h2 | h2 | ⟨b2, hb2, hge, hmem⟩
      · exact Or.inl (by simpa using h2)
      · exact Or.inr (Or.inl (by simpa using h2))
      · exact Or.inr (Or.inr ⟨b2, by simpa using hb2, hge, by simpa using hmem⟩)
  have h3 : Ext s (t.appendInst (.condBr c d)) := fun _ => c2
  exact (h3.trans (Ext.clearIP2 Ext.refl)) hwf

theorem Ext.destroy (h : Ext s t) (hb : s.nextId ≤ b) (hk1 : s.nextSlot ≤ k)
    (hk2 : k < t.nextSlot) : Ext s (t.prependTo b (.destroyAddr k)) := by
  intro hwf
  have c := h hwf
  have hndt := wf_nodup c.wf
  refine {
    nid := by simpa using c.nid
    rdest := by simpa using c.rdest
    nslot := by simpa using c.nslot
    keep := fun b2 hb2 => by simpa using c.keep b2 hb2
    frozen := ?_
    tgt := ?_
    sdests := fun e he => c.sdests e (by simpa using he)
    dcount := ?_
    acount := ?_
    ip := ?_
    wf := WFb_prependTo c.wf (by simp [instsBounded, Inst.targets, hk2]) }
  · intro b2 hb2 hip
    have hblt : b2 < s.nextId := wf_block_lt hwf hb2
    have hne : b2 ≠ b := by
      intro hc
      rw [hc] at hblt
      exact absurd hblt (not_lt_of_le hb)
    rw [getBlockD_prependTo_ne hne]
    exact c.frozen b2 hb2 hip
  · intro b2 hlt hst hrd
    rw [targetCount_prependTo hndt]
    simp
    exact c.tgt b2 hlt hst hrd
  · intro k2 hk2b
    rw [destroyCount_prependTo hndt]
    have : (Inst.destroyAddr k = Inst.destroyAddr k2) = False := by
      simp only [Inst.destroyAddr.injEq, eq_iff_iff, iff_false]
      intro hcon
      rw [hcon] at hk1
      exact absurd (lt_of_lt_of_le hk2b hk1) (lt_irrefl _)
    simp [this]
    exact c.dcount k2 hk2b
  · intro k2 hk2b
    rw [allocCount_prependTo hndt]
    simp
    exact c.acount k2 hk2b
  · rcases c.ip with h2 | h2 | ⟨b2, hb2, hge, hmem⟩
    · exact Or.inl (by simpa using h2)
    · exact Or.inr (Or.inl (by simpa using h2))
    · exact Or.inr (Or.inr ⟨b2, by simpa using hb2, hge, by simpa using hmem⟩)

theorem Ext.brTo (h : Ext s t) (hb : s.nextId ≤ b) (hadm : admTgt s d)
    (hd : d < t.nextId) : Ext s (t.appendTo b (.br d)) := by
  intro hwf
  have c := h hwf
  have hndt := wf_nodup c.wf
  refine {
    nid := by simpa using c.nid
    rdest := by simpa using c.rdest
    nslot := by simpa using c.nslot
    keep := fun b2 hb2 => by simpa using c.keep b2 hb2
    frozen := ?_
    tgt := ?_
    sdests := fun e he => c.sdests e (by simpa using he)
    dcount := ?_
    acount := ?_
    ip := ?_
    wf := WFb_appendTo c.wf (by simp [instsBounded, Inst.targets, hd]) }
  · intro b2 hb2 hip
    have hblt : b2 < s.nextId := wf_block_lt hwf hb2
    have hne : b2 ≠ b := by
      intro hc
      rw [hc] at hblt
      exact absurd hblt (not_lt_of_le hb)
    rw [getBlockD_appendTo_ne hne]
    exact c.frozen b2 hb2 hip
  · intro b2 hlt hst hrd
    rw [targetCount_appendTo hndt]
    rw [instHits_br, if_neg (admTgt_ne hadm hlt hst hrd)]
    simp
    exact c.tgt b2 hlt hst hrd
  · intro k2 hk2b
    rw [destroyCount_appendTo hndt]
    simp
    exact c.dcount k2 hk2b
  · intro k2 hk2b
    rw [allocCount_appendTo hndt]
    simp
    exact c.acount k2 hk2b
  · rcases c.ip with h2 | h2 | ⟨b2, hb2, hge, hmem⟩
    · exact Or.inl (by simpa using h2)
    · exact Or.inr (Or.inl (by simpa using h2))
    · exact Or.inr (Or.inr ⟨b2, by simpa using hb2, hge, by simpa using hmem⟩)

theorem Ext.emitNoBr (h : Ext s t) (hmem : b ∈ t.ids)
    (hbp : s.nextId ≤ b ∨ s.insPt = some b) : Ext s (t.emitBlockNoBr b) := by
  intro hwf
  have c := h hwf
  refine {
    nid := by simpa using c.nid
    rdest := by simpa using c.rdest
    nslot := by simpa using c.nslot
    keep := fun b2 hb2 => by simpa using c.keep b2 hb2
    frozen := fun b2 hb2 hip => by
      rw [getBlockD_emitBlockNoBr]
      exact c.frozen b2 hb2 hip
    tgt := fun b2 hlt hst hrd => by
      rw [targetCount_emitBlockNoBr]
      exact c.tgt b2 hlt hst hrd
    sdests := fun e he => c.sdests e (by simpa using he)
    dcount := fun k2 hk2 => by
      rw [destroyCount_emitBlockNoBr]
      exact c.dcount k2 hk2
    acount := fun k2 hk2 => by
      rw [allocCount_emitBlockNoBr]
      exact c.acount k2 hk2
    ip := ?_
    wf := WFb_emitBlockNoBr c.wf hmem }
  rcases hbp with hbp | hbp
  · exact Or.inr (Or.inr ⟨b, rfl, hbp, by simpa using hmem⟩)
  · exact Or.inr (Or.inl (by simp [hbp]))

theorem Ext.emitBr (h : Ext s t) (hmem : b ∈ t.ids) (hb : s.nextId ≤ b) :
    Ext s (t.emitBlockBr b) := by
  have hstep : Ext s (t.emitBlockBr b) := by
    intro hwf
    have c := h hwf
    have hd : b < t.nextId := wf_block_lt c.wf hmem
    unfold SGState.emitBlockBr
    by_cases hip : t.insPt.isSome
    · rw [if_pos hip]
      exact (((h.branch (Or.inl hb) hd)).emitNoBr (by simpa using hmem)
        (Or.inl hb)) hwf
    · rw [if_neg hip]
      exact (h.emitNoBr hmem (Or.inl hb)) hwf
  exact hstep

theorem Ext.erase (h : Ext s t) (hb : s.nextId ≤ b) (hnil : t.getBlockD b = [])
    (hip : t.insPt ≠ some b) : Ext s (t.eraseBlock b) := by
  intro hwf
  have c := h hwf
  have hndt := wf_nodup c.wf
  refine {
    nid := by simpa using c.nid
    rdest := by simpa using c.rdest
    nslot := by simpa using c.nslot
    keep := ?_
    frozen := ?_
    tgt := ?_
    sdests := fun e he => c.sdests e (by simpa using he)
    dcount := ?_
    acount := ?_
    ip := ?_
    wf := WFb_erase c.wf hip }
  · intro b2 hb2
    have hblt : b2 < s.nextId := wf_block_lt hwf hb2
    have hne : b2 ≠ b := by
      intro hc
      rw [hc] at hblt
      exact absurd hblt (not_lt_of_le hb)
    exact mem_ids_erase.2 ⟨c.keep b2 hb2, hne⟩
  · intro b2 hb2 hip2
    have hblt : b2 < s.nextId := wf_block_lt hwf hb2
    have hne : b2 ≠ b := by
      intro hc
      rw [hc] at hblt
      exact absurd hblt (not_lt_of_le hb)
    rw [getBlockD_erase, if_neg hne]
    exact c.frozen b2 hb2 hip2
  · intro b2 hlt hst hrd
    rw [targetCount_erase_of_nil hndt hnil]
    exact c.tgt b2 hlt hst hrd
  · intro k2 hk2
    rw [destroyCount_erase_of_nil hndt hnil]
    exact c.dcount k2 hk2
  · intro k2 hk2
    rw [allocCount_erase_of_nil hndt hnil]
    exact c.acount k2 hk2
  · rcases c.ip with h2 | h2 | ⟨b2, hb2, hge, hmem⟩
    · exact Or.inl (by simpa using h2)
    · exact Or.inr (Or.inl (by simpa using h2))
    · refine Or.inr (Or.inr ⟨b2, by simpa using hb2, hge, ?_⟩)
      have hne : b2 ≠ b := by
        intro hc
        rw [hc] at hb2
        exact hip hb2
      exact mem_ids_erase.2 ⟨hmem, hne⟩

theorem Ext.emitOrDelete (h : Ext s t) (hmem : b ∈ t.ids) (hb : s.nextId ≤ b)
    (hnil : t.getBlockD b = []) (hip : t.insPt ≠ some b) :
    Ext s (t.emitOrDeleteBlock b) := by
  unfold SGState.emitOrDeleteBlock
  by_cases hpe : t.predEmpty b
  · rw [if_pos hpe]
    exact h.erase hb hnil hip
  · rw [if_neg hpe]
    exact h.emitBr hmem hb

theorem Ext.push (h : Ext s t) (hbd : s.nextId ≤ bd) (hcd : s.nextId ≤ cd)
    (hbd2 : bd < t.nextId) (hcd2 : cd < t.nextId) (id : Nat) :
    Ext s (t.pushBC id bd cd) := by
  intro hwf
  have c := h hwf
  refine {
    nid := by simpa using c.nid
    rdest := by simpa using c.rdest
    nslot := by simpa using c.nslot
    keep := fun b2 hb2 => by simpa using c.keep b2 hb2
    frozen := fun b2 hb2 hip => by
      rw [getBlockD_pushBC]
      exact c.frozen b2 hb2 hip
    tgt := fun b2 hlt hst hrd => by
      rw [targetCount_pushBC]
      exact c.tgt b2 hlt hst hrd
    sdests := ?_
    dcount := fun k2 hk2 => by
      rw [destroyCount_pushBC]
      exact c.dcount k2 hk2
    acount := fun k2 hk2 => by
      rw [allocCount_pushBC]
      exact c.acount k2 hk2
    ip := ?_
    wf := WFb_pushBC c.wf hbd2 hcd2 id }
  · intro e he
    simp only [bcStack_pushBC] at he
    rcases List.mem_cons.1 he with rfl | he
    · exact Or.inr ⟨hbd, hcd⟩
    · exact c.sdests e he
  · rcases c.ip with h2 | h2 | ⟨b2, hb2, hge, hmem⟩
    · exact Or.inl (by simpa using h2)
    · exact Or.inr (Or.inl (by simpa using h2))
    · exact Or.inr (Or.inr ⟨b2, by simpa using hb2, hge, by simpa using hmem⟩)

theorem Ext.pop (h : Ext s t) : Ext s (t.popBC) := by
  intro hwf
  have c := h hwf
  refine {
    nid := by simpa using c.nid
    rdest := by simpa using c.rdest
    nslot := by simpa using c.nslot
    keep := fun b2 hb2 => by simpa using c.keep b2 hb2
    frozen := fun b2 hb2 hip => by
      rw [getBlockD_popBC]
      exact c.frozen b2 hb2 hip
    tgt := fun b2 hlt hst hrd => by
      rw [targetCount_popBC]
      exact c.tgt b2 hlt hst hrd
    sdests := fun e he => by
      simp only [bcStack_popBC] at he
      exact c.sdests e (List.mem_of_mem_tail he)
    dcount := fun k2 hk2 => by
      rw [destroyCount_popBC]
      exact c.dcount k2 hk2
    acount := fun k2 hk2 => by
      rw [allocCount_popBC]
      exact c.acount k2 hk2
    ip := ?_
    wf := WFb_popBC c.wf }
  rcases c.ip with h2 | h2 | ⟨b2, hb2, hge, hmem⟩
  · exact Or.inl (by simpa using h2)
  · exact Or.inr (Or.inl (by simpa using h2))
  · exact Or.inr (Or.inr ⟨b2, by simpa using hb2, hge, by simpa using hmem⟩)

theorem Ext.slot (h : Ext s t) : Ext s ((t.allocSlot).2) := by
  intro hwf
  have c := h hwf
  refine {
    nid := by simpa using c.nid
    rdest := by simpa using c.rdest
    nslot := by simp; exact le_trans c.nslot (Nat.le_succ _)
    keep := fun b2 hb2 => by simpa using c.keep b2 hb2
    frozen := fun b2 hb2 hip => by
      rw [getBlockD_allocSlot]
      exact c.frozen b2 hb2 hip
    tgt := fun b2 hlt hst hrd => by
      rw [targetCount_allocSlot]
      exact c.tgt b2 hlt hst hrd
    sdests := fun e he => c.sdests e (by simpa using he)
    dcount := fun k2 hk2 => by
      rw [destroyCount_allocSlot]
      exact c.dcount k2 hk2
    acount := fun k2 hk2 => by
      rw [allocCount_allocSlot]
      exact c.acount k2 hk2
    ip := ?_
    wf := WFb_allocSlot c.wf }
  rcases c.ip with h2 | h2 | ⟨b2, hb2, hge, hmem⟩
  · exact Or.inl (by simpa using h2)
  · exact Or.inr (Or.inl (by simpa using h2))
  · exact Or.inr (Or.inr ⟨b2, by simpa using hb2, hge, by simpa using hmem⟩)

theorem Ext.diag (h : Ext s t) (dl : List Diag) :
    Ext s { t with diags := dl } := by
  intro hwf
  have c := h hwf
  exact {
    nid := c.nid
    rdest := c.rdest
    nslot := c.nslot
    keep := c.keep
    frozen := c.frozen
    tgt := c.tgt
    sdests := c.sdests
    dcount := c.dcount
    acount := c.acount
    ip := c.ip
    wf := c.wf }

end ExtSteps

/-! ## Composite lemmas about the condition-lowering helpers -/

section CompositeLemmas

variable {s t : SGState} {b c d k : Nat}

@[simp] theorem nextId_buffers (cond : List CondElt) :
    ((emitConditionalBindingBuffers cond s).2).nextId = s.nextId := by
  induction cond generalizing s with
  | nil => rfl
  | cons e rest ih =>
    cases e with
    | boolean => simp [emitConditionalBindingBuffers, ih]
    | binding => simp [emitConditionalBindingBuffers, ih]

@[simp] theorem ids_buffers (cond : List CondElt) :
    ((emitConditionalBindingBuffers cond s).2).ids = s.ids := by
  induction cond generalizing s with
  | nil => rfl
  | cons e rest ih =>
    cases e with
    | boolean => simp [emitConditionalBindingBuffers, ih]
    | binding => simp [emitConditionalBindingBuffers, ih]

@[simp] theorem insPt_buffers (cond : List CondElt) :
    ((emitConditionalBindingBuffers cond s).2).insPt = s.insPt := by
  induction cond generalizing s with
  | nil => rfl
  | cons e rest ih =>
    cases e with
    | boolean => simp [emitConditionalBindingBuffers, ih]
    | binding => simp [emitConditionalBindingBuffers, ih]

@[simp] theorem nextSlot_buffers (cond : List CondElt) :
    ((emitConditionalBindingBuffers cond s).2).nextSlot = s.nextSlot + countB cond := by
  induction cond generalizing s with
  | nil => rfl
  | cons e rest ih =>
    cases e with
    | boolean => simp [emitConditionalBindingBuffers, countB, ih]
    | binding =>
      simp [emitConditionalBindingBuffers, countB, ih]
      omega

@[simp] theorem buffers_fst (cond : List CondElt) :
    (emitConditionalBindingBuffers cond s).1 = List.range' s.nextSlot (countB cond) := by
  induction cond generalizing s with
  | nil => rfl
  | cons e rest ih =>
    cases e with
    | boolean => simp [emitConditionalBindingBuffers, countB, ih]
    | binding =>
      simp [emitConditionalBindingBuffers, countB, ih, List.range'_succ]

theorem buffers_ext (cond : List CondElt) (h : Ext s t)
    (hslot : s.nextSlot ≤ t.nextSlot) :
    Ext s ((emitConditionalBindingBuffers cond t).2) := by
  induction cond generalizing t with
  | nil => exact h
  | cons e rest ih =>
    cases e with
    | boolean => exact ih h hslot
    | binding =>
      rw [emitConditionalBindingBuffers]
      refine ih ((h.slot).alloc ?_ ?_) ?_
      · simpa using hslot
      · simp
      · simp
        omega

@[simp] theorem insPt_patternBindings (bufs : List Nat) :
    (emitPatternBindingsM bufs s).insPt = s.insPt := by
  induction bufs generalizing s with
  | nil => rfl
  | cons b2 rest ih => simp [emitPatternBindingsM] at ih ⊢; rw [ih]; simp

@[simp] theorem ids_patternBindings (bufs : List Nat) :
    (emitPatternBindingsM bufs s).ids = s.ids := by
  induction bufs generalizing s with
  | nil => rfl
  | cons b2 rest ih => simp [emitPatternBindingsM] at ih ⊢; rw [ih]; simp

@[simp] theorem nextId_patternBindings (bufs : List Nat) :
    (emitPatternBindingsM bufs s).nextId = s.nextId := by
  induction bufs generalizing s with
  | nil => rfl
  | cons b2 rest ih => simp [emitPatternBindingsM] at ih ⊢; rw [ih]; simp

@[simp] theorem nextSlot_patternBindings (bufs : List Nat) :
    (emitPatternBindingsM bufs s).nextSlot = s.nextSlot := by
  induction bufs generalizing s with
  | nil => rfl
  | cons b2 rest ih => simp [emitPatternBindingsM] at ih ⊢; rw [ih]; simp

theorem patternBindings_ext (bufs : List Nat) (h : Ext s t) :
    Ext s (emitPatternBindingsM bufs t) := by
  induction bufs generalizing t with
  | nil => exact h
  | cons b2 rest ih =>
    rw [show emitPatternBindingsM (b2 :: rest) t =
      emitPatternBindingsM rest (t.appendInst .other) from rfl]
    exact ih h.other

@[simp] theorem blocks_emitAll (cbs : List Nat) :
    (emitAll cbs s).blocks = s.blocks := by
  induction cbs generalizing s with
  | nil => rfl
  | cons b2 rest ih => simp [emitAll] at ih ⊢; rw [ih]; rfl

@[simp] theorem nextId_emitAll (cbs : List Nat) :
    (emitAll cbs s).nextId = s.nextId := by
  induction cbs generalizing s with
  | nil => rfl
  | cons b2 rest ih => simp [emitAll] at ih ⊢; rw [ih]; rfl

@[simp] theorem nextSlot_emitAll (cbs : List Nat) :
    (emitAll cbs s).nextSlot = s.nextSlot := by
  induction cbs generalizing s with
  | nil => rfl
  | cons b2 rest ih => simp [emitAll] at ih ⊢; rw [ih]; rfl

@[simp] theorem returnDest_emitAll (cbs : List Nat) :
    (emitAll cbs s).returnDest = s.returnDest := by
  induction cbs generalizing s with
  | nil => rfl
  | cons b2 rest ih => simp [emitAll] at ih ⊢; rw [ih]; rfl

@[simp] theorem diags_emitAll (cbs : List Nat) :
    (emitAll cbs s).diags = s.diags := by
  induction cbs generalizing s with
  | nil => rfl
  | cons b2 rest ih => simp [emitAll] at ih ⊢; rw [ih]; rfl

theorem getBlockD_emitAll (cbs : List Nat) :
    (emitAll cbs s).getBlockD c = s.getBlockD c := by
  show lookupD (emitAll cbs s).blocks c = lookupD s.blocks c
  rw [blocks_emitAll]

theorem ids_emitAll (cbs : List Nat) : (emitAll cbs s).ids = s.ids := by
  show ((emitAll cbs s).blocks).map _ = _
  rw [blocks_emitAll]
  rfl

theorem insPt_emitAll_cons (b2 : Nat) (cbs : List Nat) :
    (emitAll (b2 :: cbs) s).insPt = some ((b2 :: cbs).getLastD 0) := by
  induction cbs generalizing s b2 with
  | nil => rfl
  | cons b3 rest ih =>
    rw [show emitAll (b2 :: b3 :: rest) s = emitAll (b3 :: rest) (s.emitBlockNoBr b2)
      from rfl, ih]
    simp

theorem emitAll_ext (cbs : List Nat) (h : Ext s t)
    (hcbs : ∀ c2 ∈ cbs, s.nextId ≤ c2 ∧ c2 ∈ t.ids) : Ext s (emitAll cbs t) := by
  induction cbs generalizing t with
  | nil => exact h
  | cons b2 rest ih =>
    rw [show emitAll (b2 :: rest) t = emitAll rest (t.emitBlockNoBr b2) from rfl]
    refine ih (h.emitNoBr (hcbs b2 (List.mem_cons_self b2 rest)).2
      (Or.inl (hcbs b2 (List.mem_cons_self b2 rest)).1)) ?_
    intro c2 hc2
    exact ⟨(hcbs c2 (List.mem_cons_of_mem b2 hc2)).1, by
      simpa using (hcbs c2 (List.mem_cons_of_mem b2 hc2)).2⟩

theorem getLastD_mem {l : List Nat} (h : l ≠ []) (d : Nat) : l.getLastD d ∈ l := by
  induction l with
  | nil => exact absurd rfl h
  | cons a rest ih =>
    cases hr : rest with
    | nil => simp [List.getLastD]
    | cons b2 rest2 =>
      rw [List.getLastD_cons]
      rw [hr] at ih
      exact List.mem_cons_of_mem a (by simpa [List.getLastD_cons] using ih (by simp))

theorem headD_mem {l : List Nat} (h : l ≠ []) (d : Nat) : l.headD d ∈ l := by
  cases l with
  | nil => exact absurd rfl h
  | cons a rest => simp

/-- The loop of `emitStmtCondition` is an admissible extension: the cleanup
blocks it returns are fresh blocks of the result, the list is never empty,
and the insertion point ends outside the cleanup chain. -/
theorem escGo_ext (cond : List CondElt) (bufs cbs : List Nat) {s t : SGState}
    (hwf : WFb s = true) (h : Ext s t)
    (hbufs : ∀ k2 ∈ bufs, s.nextSlot ≤ k2 ∧ k2 < t.nextSlot)
    (hlen : countB cond ≤ bufs.length)
    (hcbs : ∀ c2 ∈ cbs, s.nextId ≤ c2 ∧ c2 ∈ t.ids)
    (hne : cbs ≠ [])
    (hipn : ∀ ip2, t.insPt = some ip2 → ip2 ∉ cbs) :
    Ext s ((escGo cond bufs cbs t).2) ∧
    (∀ c2 ∈ (escGo cond bufs cbs t).1,
      s.nextId ≤ c2 ∧ c2 ∈ ((escGo cond bufs cbs t).2).ids) ∧
    (escGo cond bufs cbs t).1 ≠ [] ∧
    (∀ ip2, ((escGo cond bufs cbs t).2).insPt = some ip2 →
      ip2 ∉ (escGo cond bufs cbs t).1) := by
  induction cond generalizing bufs cbs t with
  | nil =>
    refine ⟨h, ?_, by rw [escGo]; simpa using hne, ?_⟩
    · intro c2 hc2
      rw [escGo] at hc2 ⊢
      exact hcbs c2 (List.mem_reverse.1 hc2)
    · intro ip2 hip2
      rw [escGo] at hip2 ⊢
      rw [List.mem_reverse]
      exact hipn ip2 hip2
  | cons e rest ih =>
    have hc0 := h hwf
    have hwt := hc0.wf
    have hnid := hc0.nid
    have hlast := hcbs _ (getLastD_mem hne 0)
    have hlastlt : cbs.getLastD 0 < t.nextId := wf_block_lt hwt hlast.2
    cases e with
    | boolean =>
      set t1 := (t.appendInst .other) with ht1
      set t4 := (((t1.createBasicBlock).2).createCondBranch
          ((t1.createBasicBlock).1) (cbs.getLastD 0)).emitBlockNoBr
          ((t1.createBasicBlock).1) with ht4
      have hstep : escGo (CondElt.boolean :: rest) bufs cbs t =
          escGo rest bufs cbs t4 := rfl
      rw [hstep]
      have ht1n : t1.nextId = t.nextId := by rw [ht1]; simp
      have hfst : (t1.createBasicBlock).1 = t.nextId := by
        rw [create_fst, ht1n]
      have h4 : Ext s t4 := by
        rw [ht4, hfst]
        refine (((h.other).newBlock).condBr (Or.inl hnid) (Or.inl hlast.1)
          ?_ ?_).emitNoBr ?_ (Or.inl hnid)
        · rw [nextId_create, ht1n]; omega
        · rw [nextId_create, ht1n]; omega
        · simp [ht1]
      have ht4ids : t4.ids = t.ids ++ [t.nextId] := by
        rw [ht4]
        simp [ht1]
      have ht4slot : t4.nextSlot = t.nextSlot := by
        rw [ht4]
        simp [ht1]
      have ht4ip : t4.insPt = some t.nextId := by
        rw [ht4, hfst]
        rfl
      refine ih bufs cbs h4 ?_ (by simpa [countB] using hlen) ?_ hne ?_
      · intro k2 hk2
        rw [ht4slot]
        exact hbufs k2 hk2
      · intro c2 hc2
        refine ⟨(hcbs c2 hc2).1, ?_⟩
        rw [ht4ids]
        exact List.mem_append_left _ (hcbs c2 hc2).2
      · intro ip2 hip2
        rw [ht4ip] at hip2
        cases hip2
        intro hcon
        exact absurd (wf_block_lt hwt (hcbs _ hcon).2) (lt_irrefl _)
    | binding =>
      have hbne : bufs ≠ [] := by
        intro hcon
        rw [hcon] at hlen
        simp [countB] at hlen
      have hbuf := hbufs _ (headD_mem hbne 0)
      set t2 := ((t.appendInst .other).appendInst .other) with ht2
      have ht2n : t2.nextId = t.nextId := by rw [ht2]; simp
      have ht2slot : t2.nextSlot = t.nextSlot := by rw [ht2]; simp
      have ht2ids : t2.ids = t.ids := by rw [ht2]; simp
      have h2 : Ext s t2 := (h.other).other
      set t3p := t2.prependTo (cbs.getLastD 0) (.destroyAddr (bufs.headD 0)) with ht3p
      set t6 := (((t3p.createBasicBlock).2).createCondBranch
          ((t3p.createBasicBlock).1) (cbs.getLastD 0)).emitBlockNoBr
          ((t3p.createBasicBlock).1) with ht6
      set fd := (t2.createBasicBlock).1 with hfd
      set t3 := ((t2.createBasicBlock).2).appendTo fd (.br (cbs.getLastD 0)) with ht3
      set t4 := t3.prependTo fd (.destroyAddr (bufs.headD 0)) with ht4
      set t7 := (((t4.createBasicBlock).2).createCondBranch
          ((t4.createBasicBlock).1) ((cbs ++ [fd]).getLastD 0)).emitBlockNoBr
          ((t4.createBasicBlock).1) with ht7
      have hunfold : escGo (CondElt.binding :: rest) bufs cbs t =
          if t2.predEmpty (cbs.getLastD 0) = true
          then escGo rest bufs.tail cbs t6
          else escGo rest bufs.tail (cbs ++ [fd]) t7 := rfl
      by_cases hpe : t2.predEmpty (cbs.getLastD 0) = true
      · rw [hunfold, if_pos hpe]
        have ht3pn : t3p.nextId = t.nextId := by rw [ht3p]; simp [ht2n]
        have hfst3 : (t3p.createBasicBlock).1 = t.nextId := by
          rw [create_fst, ht3pn]
        have h3 : Ext s t3p := by
          rw [ht3p]
          refine h2.destroy hlast.1 hbuf.1 ?_
          rw [ht2slot]
          exact hbuf.2
        have h6 : Ext s t6 := by
          rw [ht6, hfst3]
          refine (((h3.newBlock).condBr (Or.inl hnid) (Or.inl hlast.1)
            ?_ ?_).emitNoBr ?_ (Or.inl hnid))
          · rw [nextId_create, ht3pn]; omega
          · rw [nextId_create, ht3pn]; omega
          · simp [ht3p, ht2, ht3pn]
        have ht6ids : t6.ids = t.ids ++ [t.nextId] := by
          rw [ht6]
          simp [ht3p, ht2, ht3pn]
        have ht6slot : t6.nextSlot = t.nextSlot := by
          rw [ht6]
          simp [ht3p, ht2]
        have ht6ip : t6.insPt = some t.nextId := by
          rw [ht6, hfst3]
          rfl
        refine ih bufs.tail cbs h6 ?_ ?_ ?_ hne ?_
        · intro k2 hk2
          rw [ht6slot]
          exact hbufs k2 (List.mem_of_mem_tail hk2)
        · cases bufs with
          | nil => exact absurd rfl hbne
          | cons bh bt =>
            simp [countB] at hlen ⊢
            omega
        · intro c2 hc2
          refine ⟨(hcbs c2 hc2).1, ?_⟩
          rw [ht6ids]
          exact List.mem_append_left _ (hcbs c2 hc2).2
        · intro ip2 hip2
          rw [ht6ip] at hip2
          cases hip2
          intro hcon
          exact absurd (wf_block_lt hwt (hcbs _ hcon).2) (lt_irrefl _)
      · rw [hunfold, if_neg hpe]
        have hfde : fd = t.nextId := by rw [hfd, create_fst, ht2n]
        have ht3n : t3.nextId = t.nextId + 1 := by rw [ht3]; simp [ht2n]
        have ht3slot : t3.nextSlot = t.nextSlot := by rw [ht3]; simp [ht2slot]
        have ht4n : t4.nextId = t.nextId + 1 := by rw [ht4]; simp [ht3n]
        have ht4slot : t4.nextSlot = t.nextSlot := by rw [ht4]; simp [ht3slot]
        have ht4ids : t4.ids = t.ids ++ [t.nextId] := by
          rw [ht4, ht3]
          simp [ht2, hfde, ht2n]
        have hfst4 : (t4.createBasicBlock).1 = t.nextId + 1 := by
          rw [create_fst, ht4n]
        have h4 : Ext s t4 := by
          rw [ht4, ht3]
          refine ((h2.newBlock).brTo ?_ (Or.inl hlast.1) ?_).destroy ?_ hbuf.1 ?_
          · rw [hfde]; exact hnid
          · rw [nextId_create, ht2n]; omega
          · rw [hfde]; exact hnid
          · rw [nextSlot_appendTo, nextSlot_create, ht2slot]
            exact hbuf.2
        have hlastapp : ((cbs ++ [fd]).getLastD 0) = fd := by
          simp [List.getLastD_concat]
        have h7 : Ext s t7 := by
          rw [ht7, hfst4, hlastapp]
          refine (((h4.newBlock).condBr (Or.inl ?_) (Or.inl ?_)
            ?_ ?_).emitNoBr ?_ (Or.inl ?_))
          · omega
          · rw [hfde]; exact hnid
          · rw [nextId_create, ht4n]; omega
          · rw [nextId_create, ht4n, hfde]; omega
          · simp [ht4n]
          · omega
        have ht7ids : t7.ids = t4.ids ++ [t.nextId + 1] := by
          rw [ht7]
          simp [ht4n]
        have ht7slot : t7.nextSlot = t.nextSlot := by
          rw [ht7]
          simp [ht4slot]
        have ht7ip : t7.insPt = some (t.nextId + 1) := by
          rw [ht7, hfst4]
          rfl
        refine ih bufs.tail (cbs ++ [fd]) h7 ?_ ?_ ?_ (by simp) ?_
        · intro k2 hk2
          rw [ht7slot]
          exact hbufs k2 (List.mem_of_mem_tail hk2)
        · cases bufs with
          | nil => exact absurd rfl hbne
          | cons bh bt =>
            simp [countB] at hlen ⊢
            omega
        · intro c2 hc2
          rcases List.mem_append.1 hc2 with hc2 | hc2
          · refine ⟨(hcbs c2 hc2).1, ?_⟩
            rw [ht7ids, ht4ids]
            exact List.mem_append_left _ (List.mem_append_left _ (hcbs c2 hc2).2)
          · rcases List.mem_singleton.1 hc2 with rfl
            refine ⟨by rw [hfde]; exact hnid, ?_⟩
            rw [ht7ids, ht4ids, hfde]
            exact List.mem_append_left _
              (List.mem_append_right _ (List.mem_singleton.2 rfl))
        · intro ip2 hip2
          rw [ht7ip] at hip2
          cases hip2
          intro hcon
          rcases List.mem_append.1 hcon with hcon | hcon
          · have := wf_block_lt hwt (hcbs _ hcon).2
            omega
          · rcases List.mem_singleton.1 hcon with hcon
            rw [hfde] at hcon
            omega

/-- `emitStmtCondition` is an admissible extension whose cleanup blocks are
fresh, non-empty as a list, and disjoint from the final insertion point. -/
theorem emitStmtCondition_ext (cond : List CondElt) (bufs : List Nat)
    {s t : SGState} (hwf : WFb s = true) (h : Ext s t)
    (hbufs : ∀ k2 ∈ bufs, s.nextSlot ≤ k2 ∧ k2 < t.nextSlot)
    (hlen : countB cond ≤ bufs.length) :
    Ext s ((emitStmtCondition cond bufs t).2) ∧
    (∀ c2 ∈ (emitStmtCondition cond bufs t).1,
      s.nextId ≤ c2 ∧ c2 ∈ ((emitStmtCondition cond bufs t).2).ids) ∧
    (emitStmtCondition cond bufs t).1 ≠ [] ∧
    (∀ ip2, ((emitStmtCondition cond bufs t).2).insPt = some ip2 →
      ip2 ∉ (emitStmtCondition cond bufs t).1) := by
  have hstep : emitStmtCondition cond bufs t =
      escGo cond bufs [(t.createBasicBlock).1] (t.createBasicBlock).2 := rfl
  rw [hstep]
  have hc := h hwf
  refine escGo_ext cond bufs _ hwf (h.newBlock) ?_ hlen ?_ (by simp) ?_
  · intro k2 hk2
    have := hbufs k2 hk2
    exact ⟨this.1, by simpa using this.2⟩
  · intro c2 hc2
    rcases List.mem_singleton.1 hc2 with rfl
    rw [create_fst, ids_create]
    exact ⟨hc.nid, List.mem_append_right _ (List.mem_singleton.2 rfl)⟩
  · intro ip2 hip2
    simp only [insPt_create] at hip2
    intro hcon
    rcases List.mem_singleton.1 hcon with rfl
    rcases hc.ip with h2 | h2 | ⟨b2, hb2, hge, hmem⟩
    · rw [h2] at hip2; exact Option.noConfusion hip2
    · rw [h2] at hip2
      have hx := wf_insPt_lt hwf hip2
      rw [create_fst] at hx
      exact absurd hx (not_lt_of_le hc.nid)
    · rw [hb2] at hip2
      cases hip2
      have := wf_block_lt hc.wf hmem
      simp at this

/-- `emitConditionV` is an admissible extension; the record's blocks are the
two (or three) fresh blocks, and the insertion point ends cleared. -/
theorem emitConditionV_ext (hasF invertV : Bool) {s t : SGState} (h : Ext s t)
    (hwf : WFb s = true) :
    Ext s ((emitConditionV hasF invertV t).2) := by
  have hc := h hwf
  have hnid := hc.nid
  unfold emitConditionV
  cases hasF with
  | false =>
    cases invertV with
    | false =>
      refine ((h.newBlock).newBlock).condBr (Or.inl ?_) (Or.inl ?_) ?_ ?_ <;>
        simp <;> omega
    | true =>
      refine ((h.newBlock).newBlock).condBr (Or.inl ?_) (Or.inl ?_) ?_ ?_ <;>
        simp <;> omega
  | true =>
    cases invertV with
    | false =>
      refine (((h.newBlock).newBlock).newBlock).condBr (Or.inl ?_) (Or.inl ?_)
          ?_ ?_ <;> simp <;> omega
    | true =>
      refine (((h.newBlock).newBlock).newBlock).condBr (Or.inl ?_) (Or.inl ?_)
          ?_ ?_ <;> simp <;> omega

theorem emitConditionE_ext (hasF invertV : Bool) {s t : SGState} (h : Ext s t)
    (hwf : WFb s = true) :
    Ext s ((emitConditionE hasF invertV t).2) := by
  unfold emitConditionE
  exact emitConditionV_ext hasF invertV (h.other) hwf

/-- The record returned by `emitConditionV` names only fresh blocks. -/
theorem emitConditionV_rec (hasF invertV : Bool) (t : SGState) :
    (emitConditionV hasF invertV t).1.contBB = some t.nextId ∧
    (emitConditionV hasF invertV t).1.trueBB = some (t.nextId + 1) ∧
    (emitConditionV hasF invertV t).1.falseBB =
      (if hasF then some (t.nextId + 2) else none) := by
  cases hasF <;> cases invertV <;> simp [emitConditionV]

theorem condEnterTrue_ext {s t : SGState} (cond : CondRec) (h : Ext s t)
    (hwf : WFb s = true)
    (hc : cond.trueBB = none ∨
      ∃ tb, cond.trueBB = some tb ∧ s.nextId ≤ tb ∧ tb ∈ t.ids) :
    Ext s (condEnterTrue cond t) := by
  unfold condEnterTrue
  rcases hc with hc | ⟨tb, hc, hge, hmem⟩
  · rw [hc]
    exact h
  · rw [hc]
    exact h.emitNoBr hmem (Or.inl hge)

theorem condExitTrue_ext {s t : SGState} (cond : CondRec) (h : Ext s t)
    (hwf : WFb s = true)
    (hc : cond.contBB = none ∨
      ∃ cb, cond.contBB = some cb ∧ s.nextId ≤ cb ∧ cb < t.nextId) :
    Ext s (condExitTrue cond t) := by
  unfold condExitTrue
  by_cases hip : t.insPt.isNone
  · rw [if_pos hip]
    exact h
  · rw [if_neg hip]
    rcases hc with hc | ⟨cb, hc, hge, hlt⟩
    · rw [hc]
      exact h
    · rw [hc]
      exact h.branch (Or.inl hge) hlt

theorem condComplete_ext {s t : SGState} (cond : CondRec) (h : Ext s t)
    (hwf : WFb s = true)
    (hc : cond.contBB = none ∨
      ∃ cb, cond.contBB = some cb ∧ s.nextId ≤ cb ∧ cb ∈ t.ids ∧
        t.getBlockD cb = [] ∧ t.insPt ≠ some cb) :
    Ext s (condComplete cond t) := by
  unfold condComplete
  rcases hc with hc | ⟨cb, hc, hge, hmem, hnil, hip⟩
  · rw [hc]
    exact h
  · rw [hc]
    show Ext s (if t.predEmpty cb = true then (t.eraseBlock cb).clearIP
      else t.emitBlockNoBr cb)
    by_cases hpe : t.predEmpty cb = true
    · rw [if_pos hpe]
      exact (h.erase hge hnil hip).clearIP2
    · rw [if_neg hpe]
      exact h.emitNoBr hmem (Or.inl hge)

end CompositeLemmas

/-! ## Stage-level lemmas for the statement visitors -/

section StageLemmas

variable {s t u : SGState} {b c d k : Nat}

/-- A block of the base state away from its insertion point keeps its
contents through an admissible extension. -/
theorem ext_frozen_nil (c : ExtC s t) (hmem : b ∈ s.ids)
    (hip : s.insPt ≠ some b) (hnil : s.getBlockD b = []) :
    t.getBlockD b = [] := by
  rw [c.frozen b hmem hip]
  exact hnil

/-- Through an admissible extension the insertion point never returns to an
old block it was not in. -/
theorem ext_ip_ne (c : ExtC s t) (hb : b < s.nextId)
    (hip : s.insPt ≠ some b) : t.insPt ≠ some b := by
  rcases c.ip with h | h | ⟨b2, hb2, hge, _⟩
  · rw [h]
    exact fun hc => Option.noConfusion hc
  · rw [h]
    exact hip
  · rw [hb2]
    intro hc
    have := Option.some.inj hc
    omega

/-- A fresh id has no block contents in a well-formed state. -/
theorem wf_getBlockD_big (h : WFb t = true) (hb : t.nextId ≤ b) :
    t.getBlockD b = [] := by
  by_cases hm : b ∈ t.ids
  · have := wf_block_lt h hm
    omega
  · exact lookupD_eq_nil_of_notMem hm

/-- The loop of `emitStmtCondition` only grows the block-id frontier and
never removes a block. -/
theorem escGo_mono (cond : List CondElt) (bufs cbs : List Nat) (t : SGState) :
    t.nextId ≤ ((escGo cond bufs cbs t).2).nextId ∧
    (∀ b, b ∈ t.ids → b ∈ ((escGo cond bufs cbs t).2).ids) := by
  induction cond generalizing bufs cbs t with
  | nil => exact ⟨le_rfl, fun b hb => hb⟩
  | cons e rest ih =>
    cases e with
    | boolean =>
      set t1 := (t.appendInst .other) with ht1
      set t4 := (((t1.createBasicBlock).2).createCondBranch
          ((t1.createBasicBlock).1) (cbs.getLastD 0)).emitBlockNoBr
          ((t1.createBasicBlock).1) with ht4
      have hstep : escGo (CondElt.boolean :: rest) bufs cbs t =
          escGo rest bufs cbs t4 := rfl
      rw [hstep]
      have ht4n : t4.nextId = t.nextId + 1 := by rw [ht4]; simp [ht1]
      have ht4ids : t4.ids = t.ids ++ [t.nextId] := by rw [ht4]; simp [ht1]
      refine ⟨le_trans (by omega) (ht4n ▸ (ih bufs cbs t4).1), ?_⟩
      intro b hb
      exact (ih bufs cbs t4).2 b (by rw [ht4ids]; exact List.mem_append_left _ hb)
    | binding =>
      set t2 := ((t.appendInst .other).appendInst .other) with ht2
      set t3p := t2.prependTo (cbs.getLastD 0) (.destroyAddr (bufs.headD 0)) with ht3p
      set t6 := (((t3p.createBasicBlock).2).createCondBranch
          ((t3p.createBasicBlock).1) (cbs.getLastD 0)).emitBlockNoBr
          ((t3p.createBasicBlock).1) with ht6
      set fd := (t2.createBasicBlock).1 with hfd
      set t3 := ((t2.createBasicBlock).2).appendTo fd (.br (cbs.getLastD 0)) with ht3
      set t4 := t3.prependTo fd (.destroyAddr (bufs.headD 0)) with ht4
      set t7 := (((t4.createBasicBlock).2).createCondBranch
          ((t4.createBasicBlock).1) ((cbs ++ [fd]).getLastD 0)).emitBlockNoBr
          ((t4.createBasicBlock).1) with ht7
      have hunfold : escGo (CondElt.binding :: rest) bufs cbs t =
          if t2.predEmpty (cbs.getLastD 0) = true
          then escGo rest bufs.tail cbs t6
          else escGo rest bufs.tail (cbs ++ [fd]) t7 := rfl
      rw [hunfold]
      by_cases hpe : t2.predEmpty (cbs.getLastD 0) = true
      · rw [if_pos hpe]
        have ht6n : t6.nextId = t.nextId + 1 := by rw [ht6]; simp [ht3p, ht2]
        have ht6ids : t6.ids = t.ids ++ [t.nextId] := by
          rw [ht6]; simp [ht3p, ht2]
        refine ⟨le_trans (by omega) (ht6n ▸ (ih bufs.tail cbs t6).1), ?_⟩
        intro b hb
        exact (ih bufs.tail cbs t6).2 b
          (by rw [ht6ids]; exact List.mem_append_left _ hb)
      · rw [if_neg hpe]
        have ht7n : t7.nextId = t.nextId + 2 := by
          rw [ht7]; simp [ht4, ht3, ht2]
        have ht7ids : t7.ids = (t.ids ++ [t.nextId]) ++ [t.nextId + 1] := by
          rw [ht7, ht4, ht3]; simp [ht2, hfd]
        refine ⟨le_trans (by omega) (ht7n ▸ (ih bufs.tail (cbs ++ [fd]) t7).1), ?_⟩
        intro b hb
        refine (ih bufs.tail (cbs ++ [fd]) t7).2 b ?_
        rw [ht7ids]
        exact List.mem_append_left _ (List.mem_append_left _ hb)

/-- `emitStmtCondition` only grows the block-id frontier. -/
theorem emitStmtCondition_mono (cond : List CondElt) (bufs : List Nat)
    (t : SGState) :
    t.nextId ≤ ((emitStmtCondition cond bufs t).2).nextId ∧
    (∀ b, b ∈ t.ids → b ∈ ((emitStmtCondition cond bufs t).2).ids) := by
  have hstep : emitStmtCondition cond bufs t =
      escGo cond bufs [(t.createBasicBlock).1] (t.createBasicBlock).2 := rfl
  rw [hstep]
  have h := escGo_mono cond bufs [(t.createBasicBlock).1] (t.createBasicBlock).2
  refine ⟨le_trans (by simp) h.1, ?_⟩
  intro b hb
  exact h.2 b (by simp [hb])

theorem WFb_other (hwt : WFb t = true) : WFb (t.appendInst .other) = true :=
  WFb_appendInst hwt (by simp [instsBounded, Inst.targets])

theorem insPt_emitConditionV (hasF invertV : Bool) (t : SGState) :
    ((emitConditionV hasF invertV t).2).insPt = none := by
  cases hasF <;> cases invertV <;> rfl

theorem nextId_emitConditionV (hasF invertV : Bool) (t : SGState) :
    ((emitConditionV hasF invertV t).2).nextId =
      t.nextId + (if hasF then 3 else 2) := by
  cases hasF <;> cases invertV <;> simp [emitConditionV]

theorem nextSlot_emitConditionV (hasF invertV : Bool) (t : SGState) :
    ((emitConditionV hasF invertV t).2).nextSlot = t.nextSlot := by
  cases hasF <;> cases invertV <;> simp [emitConditionV]

theorem ids_emitConditionV (hasF invertV : Bool) (t : SGState) :
    ((emitConditionV hasF invertV t).2).ids =
      t.ids ++ if hasF then [t.nextId, t.nextId + 1, t.nextId + 2]
               else [t.nextId, t.nextId + 1] := by
  cases hasF <;> cases invertV <;> simp [emitConditionV]

theorem getBlockD_emitConditionV_old (hasF invertV : Bool)
    (hip : t.insPt ≠ some b) :
    ((emitConditionV hasF invertV t).2).getBlockD b = t.getBlockD b := by
  have h2 : ∀ (u : SGState) (i : Inst), u.insPt = t.insPt →
      (u.appendInst i).getBlockD b = u.getBlockD b := by
    intro u i hu
    exact getBlockD_appendInst_ne (by rw [hu]; exact hip)
  cases hasF <;> cases invertV <;>
    simp [emitConditionV, SGState.createCondBranch] <;>
    rw [h2 _ _ (by simp)] <;> simp

theorem getBlockD_emitConditionV_fresh (hasF invertV : Bool)
    (hwt : WFb t = true) (hb : t.nextId ≤ b) :
    ((emitConditionV hasF invertV t).2).getBlockD b = [] := by
  have hip : t.insPt ≠ some b := by
    intro hc
    have := wf_insPt_lt hwt hc
    omega
  rw [getBlockD_emitConditionV_old hasF invertV hip]
  exact wf_getBlockD_big hwt hb

theorem targetCount_emitConditionV_cont (invertV : Bool) (hwt : WFb t = true)
    (hips : t.insPt.isSome = true) :
    ((emitConditionV false invertV t).2).targetCount t.nextId =
      t.targetCount t.nextId + 1 := by
  have hw2 : WFb (((t.createBasicBlock).2).createBasicBlock).2 = true :=
    WFb_create (WFb_create hwt)
  have hnd2 := wf_nodup hw2
  have hip2 : ∀ b2, (((t.createBasicBlock).2).createBasicBlock).2.insPt = some b2 →
      b2 ∈ (((t.createBasicBlock).2).createBasicBlock).2.ids := fun b2 hb2 =>
    wf_insPt_mem hw2 hb2
  cases invertV <;>
    simp [emitConditionV, SGState.createCondBranch,
      targetCount_appendInst hnd2 hip2, instHits_condBr, hips]

theorem predEmpty_emitConditionV_cont (invertV : Bool) (hwt : WFb t = true)
    (hips : t.insPt.isSome = true) :
    ((emitConditionV false invertV t).2).predEmpty t.nextId = false := by
  have h := targetCount_emitConditionV_cont invertV hwt hips
  unfold SGState.predEmpty
  rw [h]
  simp

theorem insPt_emitConditionE (hasF invertV : Bool) (t : SGState) :
    ((emitConditionE hasF invertV t).2).insPt = none :=
  insPt_emitConditionV hasF invertV _

theorem nextId_emitConditionE (hasF invertV : Bool) (t : SGState) :
    ((emitConditionE hasF invertV t).2).nextId =
      t.nextId + (if hasF then 3 else 2) := by
  unfold emitConditionE
  rw [nextId_emitConditionV]
  simp

theorem nextSlot_emitConditionE (hasF invertV : Bool) (t : SGState) :
    ((emitConditionE hasF invertV t).2).nextSlot = t.nextSlot := by
  unfold emitConditionE
  rw [nextSlot_emitConditionV]
  simp

theorem ids_emitConditionE (hasF invertV : Bool) (t : SGState) :
    ((emitConditionE hasF invertV t).2).ids =
      t.ids ++ if hasF then [t.nextId, t.nextId + 1, t.nextId + 2]
               else [t.nextId, t.nextId + 1] := by
  unfold emitConditionE
  rw [ids_emitConditionV]
  simp

theorem getBlockD_emitConditionE_old (hasF invertV : Bool)
    (hip : t.insPt ≠ some b) :
    ((emitConditionE hasF invertV t).2).getBlockD b = t.getBlockD b := by
  unfold emitConditionE
  rw [getBlockD_emitConditionV_old hasF invertV (by simpa using hip)]
  exact getBlockD_appendInst_ne hip

theorem getBlockD_emitConditionE_fresh (hasF invertV : Bool)
    (hwt : WFb t = true) (hb : t.nextId ≤ b) :
    ((emitConditionE hasF invertV t).2).getBlockD b = [] := by
  unfold emitConditionE
  exact getBlockD_emitConditionV_fresh hasF invertV (WFb_other hwt) (by simpa using hb)

theorem predEmpty_emitConditionE_cont (invertV : Bool) (hwt : WFb t = true)
    (hips : t.insPt.isSome = true) :
    ((emitConditionE false invertV t).2).predEmpty t.nextId = false := by
  unfold emitConditionE
  have h1 := predEmpty_emitConditionV_cont invertV (WFb_other hwt)
    (by simpa using hips)
  simpa using h1

theorem blocks_condEnterTrue (cond : CondRec) (t : SGState) :
    (condEnterTrue cond t).blocks = t.blocks := by
  unfold condEnterTrue
  cases cond.trueBB <;> rfl

theorem getBlockD_condEnterTrue (cond : CondRec) :
    (condEnterTrue cond t).getBlockD b = t.getBlockD b := by
  show lookupD _ _ = _
  rw [blocks_condEnterTrue]
  rfl

theorem ids_condEnterTrue (cond : CondRec) :
    (condEnterTrue cond t).ids = t.ids := by
  show ((condEnterTrue cond t).blocks).map _ = _
  rw [blocks_condEnterTrue]
  rfl

theorem nextId_condEnterTrue (cond : CondRec) :
    (condEnterTrue cond t).nextId = t.nextId := by
  unfold condEnterTrue
  cases cond.trueBB <;> rfl

theorem targetCount_condEnterTrue (cond : CondRec) :
    (condEnterTrue cond t).targetCount b = t.targetCount b := by
  show tcL _ _ = _
  rw [blocks_condEnterTrue]
  rfl

theorem insPt_condEnterTrue_some {cond : CondRec} {tb : Nat}
    (h : cond.trueBB = some tb) :
    (condEnterTrue cond t).insPt = some tb := by
  unfold condEnterTrue
  rw [h]
  rfl

theorem condExitTrue_of_none (cond : CondRec) (h : t.insPt = none) :
    condExitTrue cond t = t := by
  unfold condExitTrue
  rw [h]
  rfl

theorem targetCount_emitConditionE_cont (invertV : Bool) (hwt : WFb t = true)
    (hips : t.insPt.isSome = true) :
    ((emitConditionE false invertV t).2).targetCount t.nextId =
      t.targetCount t.nextId + 1 := by
  unfold emitConditionE
  have h := targetCount_emitConditionV_cont invertV (WFb_other hwt)
    (by simpa using hips)
  rw [show (t.appendInst .other).nextId = t.nextId from by simp] at h
  have h2 : (t.appendInst .other).targetCount t.nextId =
      t.targetCount t.nextId := by
    rw [targetCount_appendInst (wf_nodup hwt) (fun b2 hb2 => wf_insPt_mem hwt hb2)]
    simp
  rw [h, h2]

theorem getBlockD_emitConditionV_self_ff {p : Nat} (hip : t.insPt = some p)
    (hmem : p ∈ t.ids) :
    ((emitConditionV false false t).2).getBlockD p =
      t.getBlockD p ++ [.condBr (t.nextId + 1) t.nextId] := by
  have hstep : (emitConditionV false false t).2 =
      (((t.createBasicBlock).2).createBasicBlock).2.createCondBranch
        ((((t.createBasicBlock).2).createBasicBlock)).1 ((t.createBasicBlock)).1 := rfl
  rw [hstep]
  rw [getBlockD_createCondBranch_self (by simpa using hip) (by simp [hmem])]
  simp

theorem getBlockD_emitConditionE_self_ff {p : Nat} (hip : t.insPt = some p)
    (hmem : p ∈ t.ids) :
    ((emitConditionE false false t).2).getBlockD p =
      t.getBlockD p ++ [.other, .condBr (t.nextId + 1) t.nextId] := by
  unfold emitConditionE
  rw [getBlockD_emitConditionV_self_ff (by simpa using hip) (by simpa using hmem)]
  rw [getBlockD_appendInst_self hip hmem]
  simp

theorem getBlockD_emitOrDelete_ne (hne : b ≠ c) (hip : t.insPt ≠ some b) :
    (t.emitOrDeleteBlock c).getBlockD b = t.getBlockD b := by
  unfold SGState.emitOrDeleteBlock SGState.emitBlockBr
  by_cases hpe : t.predEmpty c = true
  · rw [if_pos hpe, getBlockD_erase, if_neg hne]
  · rw [if_neg hpe]
    by_cases hips : t.insPt.isSome
    · rw [if_pos hips]
      simp [getBlockD_createBranch_ne hip]
    · rw [if_neg hips]
      rfl

theorem mem_ids_emitOrDelete (hmem : b ∈ t.ids) (hne : b ≠ c) :
    b ∈ (t.emitOrDeleteBlock c).ids := by
  unfold SGState.emitOrDeleteBlock
  by_cases hpe : t.predEmpty c = true
  · rw [if_pos hpe]
    exact mem_ids_erase.2 ⟨hmem, hne⟩
  · rw [if_neg hpe]
    simpa using hmem

theorem insPt_emitOrDelete_ne (hip : t.insPt ≠ some b) (hne : c ≠ b) :
    (t.emitOrDeleteBlock c).insPt ≠ some b := by
  unfold SGState.emitOrDeleteBlock SGState.emitBlockBr
  by_cases hpe : t.predEmpty c = true
  · rw [if_pos hpe]
    exact hip
  · rw [if_neg hpe]
    by_cases hips : t.insPt.isSome <;> simp [hips, hne]

/-- The condition step of do-while, unrolled: the merge block of the
condition becomes the insertion point (the conditional branch always targets
it, so it is never erased), old blocks away from the insertion point are
untouched, the true block holds exactly the branch back to the loop header,
and the block at the insertion point receives the condition evaluation and
the conditional branch whose false edge is the merge block. -/
theorem doWhileCondStep_facts (loopBB : Nat) (hwt : WFb t = true)
    (hips : t.insPt.isSome = true) :
    (doWhileCondStep loopBB t).insPt = some t.nextId ∧
    (∀ b, b ∈ t.ids → b ∈ (doWhileCondStep loopBB t).ids) ∧
    (∀ b, b < t.nextId → t.insPt ≠ some b →
      (doWhileCondStep loopBB t).getBlockD b = t.getBlockD b) ∧
    (doWhileCondStep loopBB t).getBlockD (t.nextId + 1) = [.br loopBB] ∧
    (∀ p0, t.insPt = some p0 → p0 ∈ t.ids →
      (doWhileCondStep loopBB t).getBlockD p0 =
        t.getBlockD p0 ++ [.other, .condBr (t.nextId + 1) t.nextId]) := by
  have hrec := emitConditionV_rec false false (t.appendInst .other)
  have hcont : (emitConditionE false false t).1.contBB = some t.nextId := by
    rw [show (emitConditionE false false t).1 =
      (emitConditionV false false (t.appendInst .other)).1 from rfl, hrec.1]
    simp
  have htrue : (emitConditionE false false t).1.trueBB = some (t.nextId + 1) := by
    rw [show (emitConditionE false false t).1 =
      (emitConditionV false false (t.appendInst .other)).1 from rfl, hrec.2.1]
    simp
  set u := (emitConditionE false false t).2 with hu
  have hwu : WFb u = true :=
    ((emitConditionE_ext false false Ext.refl hwt) hwt).wf
  have hun : u.nextId = t.nextId + 2 := by
    rw [hu, nextId_emitConditionE]
    simp
  have huids : u.ids = t.ids ++ [t.nextId, t.nextId + 1] := by
    rw [hu, ids_emitConditionE]
    simp
  set s1 := condEnterTrue (emitConditionE false false t).1 u with hs1
  have hs1ip : s1.insPt = some (t.nextId + 1) := insPt_condEnterTrue_some htrue
  have hs1ids : s1.ids = u.ids := ids_condEnterTrue _
  have hs1some : s1.insPt.isSome = true := by rw [hs1ip]; rfl
  have hunfold : doWhileCondStep loopBB t =
      condComplete (emitConditionE false false t).1
        (condExitTrue (emitConditionE false false t).1
          (if s1.insPt.isSome then s1.createBranch loopBB else s1)) := rfl
  rw [hunfold, if_pos hs1some]
  set s2 := s1.createBranch loopBB with hs2
  have hs2ip : s2.insPt = none := by rw [hs2]; simp
  rw [condExitTrue_of_none _ hs2ip]
  have hnds1 : s1.ids.Nodup := by
    rw [hs1ids]
    exact wf_nodup hwu
  have hips1 : ∀ b2, s1.insPt = some b2 → b2 ∈ s1.ids := by
    intro b2 hb2
    rw [hs1ip] at hb2
    cases hb2
    rw [hs1ids, huids]
    simp
  have htc1 : s1.targetCount t.nextId = t.targetCount t.nextId + 1 := by
    rw [hs1, targetCount_condEnterTrue, hu]
    exact targetCount_emitConditionE_cont false hwt hips
  have htc2 : s2.targetCount t.nextId = s1.targetCount t.nextId +
      (if s1.insPt.isSome then instHits (.br loopBB) t.nextId else 0) := by
    rw [hs2]
    show ((s1.appendInst _).clearIP).targetCount _ = _
    rw [targetCount_clearIP, targetCount_appendInst hnds1 hips1]
  have hne0 : s2.targetCount t.nextId ≠ 0 := by
    rw [htc2, htc1]
    omega
  have hpe : s2.predEmpty t.nextId = false := by
    unfold SGState.predEmpty
    cases h0 : s2.targetCount t.nextId with
    | zero => exact absurd h0 hne0
    | succ n => rfl
  have hcompl : condComplete (emitConditionE false false t).1 s2 =
      s2.emitBlockNoBr t.nextId := by
    unfold condComplete
    rw [hcont]
    show (if s2.predEmpty t.nextId = true then (s2.eraseBlock t.nextId).clearIP
      else s2.emitBlockNoBr t.nextId) = _
    rw [hpe]
    rfl
  rw [hcompl]
  have hs2ids : s2.ids = s1.ids := by rw [hs2]; simp
  refine ⟨rfl, ?_, ?_, ?_, ?_⟩
  · intro b hb
    show b ∈ s2.ids
    rw [hs2ids, hs1ids, huids]
    exact List.mem_append_left _ hb
  · intro b hlt hip
    have hne1 : s1.insPt ≠ some b := by
      rw [hs1ip]
      intro hc
      have := Option.some.inj hc
      omega
    show s2.getBlockD b = t.getBlockD b
    rw [hs2, getBlockD_createBranch_ne hne1]
    rw [hs1, getBlockD_condEnterTrue, hu]
    exact getBlockD_emitConditionE_old false false hip
  · show s2.getBlockD (t.nextId + 1) = [.br loopBB]
    rw [hs2, getBlockD_createBranch_self hs1ip (by rw [hs1ids, huids]; simp)]
    rw [hs1, getBlockD_condEnterTrue, hu,
      getBlockD_emitConditionE_fresh false false hwt (by omega)]
    rfl
  · intro p0 hp0 hp0m
    have hplt : p0 < t.nextId := wf_block_lt hwt hp0m
    have hne1 : s1.insPt ≠ some p0 := by
      rw [hs1ip]
      intro hc
      have := Option.some.inj hc
      omega
    show s2.getBlockD p0 = _
    rw [hs2, getBlockD_createBranch_ne hne1]
    rw [hs1, getBlockD_condEnterTrue, hu]
    exact getBlockD_emitConditionE_self_ff hp0 hp0m

theorem doWhileCondStep_ext (loopBB : Nat) (h : Ext s t)
    (hwf : WFb s = true) (hadm : admTgt s loopBB) (hmem : loopBB ∈ t.ids) :
    Ext s (doWhileCondStep loopBB t) := by
  have c := h hwf
  have hwt := c.wf
  have hnid := c.nid
  have hrec := emitConditionV_rec false false (t.appendInst .other)
  have hcont : (emitConditionE false false t).1.contBB = some t.nextId := by
    rw [show (emitConditionE false false t).1 =
      (emitConditionV false false (t.appendInst .other)).1 from rfl, hrec.1]
    simp
  have htrue : (emitConditionE false false t).1.trueBB = some (t.nextId + 1) := by
    rw [show (emitConditionE false false t).1 =
      (emitConditionV false false (t.appendInst .other)).1 from rfl, hrec.2.1]
    simp
  have hE : Ext s (emitConditionE false false t).2 :=
    emitConditionE_ext false false h hwf
  have h1 : Ext s (condEnterTrue (emitConditionE false false t).1
      (emitConditionE false false t).2) := by
    refine condEnterTrue_ext _ hE hwf (Or.inr ⟨t.nextId + 1, htrue, by omega, ?_⟩)
    rw [ids_emitConditionE]
    simp
  have hs1ip : (condEnterTrue (emitConditionE false false t).1
      (emitConditionE false false t).2).insPt = some (t.nextId + 1) :=
    insPt_condEnterTrue_some htrue
  have hunfold : doWhileCondStep loopBB t =
      condComplete (emitConditionE false false t).1
        (condExitTrue (emitConditionE false false t).1
          (if (condEnterTrue (emitConditionE false false t).1
                (emitConditionE false false t).2).insPt.isSome
           then (condEnterTrue (emitConditionE false false t).1
                (emitConditionE false false t).2).createBranch loopBB
           else condEnterTrue (emitConditionE false false t).1
                (emitConditionE false false t).2)) := rfl
  rw [hunfold, if_pos (by rw [hs1ip]; rfl)]
  have hlt : loopBB < t.nextId := wf_block_lt hwt hmem
  have h2 : Ext s ((condEnterTrue (emitConditionE false false t).1
      (emitConditionE false false t).2).createBranch loopBB) := by
    refine h1.branch hadm ?_
    rw [nextId_condEnterTrue, nextId_emitConditionE]
    simp
    omega
  rw [condExitTrue_of_none _ (by simp)]
  refine condComplete_ext _ h2 hwf (Or.inr ⟨t.nextId, hcont, by omega, ?_, ?_, ?_⟩)
  · rw [ids_createBranch, ids_condEnterTrue, ids_emitConditionE]
    simp
  · rw [getBlockD_createBranch_ne (by rw [hs1ip]; simp)]
    rw [getBlockD_condEnterTrue]
    exact getBlockD_emitConditionE_fresh false false hwt le_rfl
  · simp

theorem doWhilePost_ext {loopBB endBB condBB : Nat}
    (h : Ext s t) (hwf : WFb s = true)
    (hadm : admTgt s loopBB) (hloopmem : loopBB ∈ t.ids)
    (hlnec : loopBB ≠ condBB)
    (hcge : s.nextId ≤ condBB) (hcmem : condBB ∈ t.ids)
    (hcnil : t.getBlockD condBB = []) (hcip : t.insPt ≠ some condBB)
    (hege : s.nextId ≤ endBB) (hemem : endBB ∈ t.ids)
    (henil : t.getBlockD endBB = []) (heip : t.insPt ≠ some endBB)
    (hnec : endBB ≠ condBB) :
    Ext s (doWhilePost loopBB endBB condBB t) := by
  have c := h hwf
  have hwt := c.wf
  set t1 := t.emitOrDeleteBlock condBB with ht1
  have hunfold2 : doWhilePost loopBB endBB condBB t =
      (((if t1.insPt.isSome then doWhileCondStep loopBB t1
         else t1).emitOrDeleteBlock endBB)).popBC := rfl
  rw [hunfold2]
  have h1 : Ext s t1 := h.emitOrDelete hcmem hcge hcnil hcip
  have hw1 : WFb t1 = true := (h1 hwf).wf
  have hemem1 : endBB ∈ t1.ids := mem_ids_emitOrDelete hemem hnec
  have henil1 : t1.getBlockD endBB = [] := by
    rw [ht1, getBlockD_emitOrDelete_ne hnec heip]
    exact henil
  have heip1 : t1.insPt ≠ some endBB := insPt_emitOrDelete_ne heip hnec.symm
  by_cases hips : t1.insPt.isSome
  · rw [if_pos hips]
    obtain ⟨hf1, hf2, hf3, hf4, hf5⟩ := doWhileCondStep_facts loopBB hw1 hips
    have hloopmem1 : loopBB ∈ t1.ids := mem_ids_emitOrDelete hloopmem hlnec
    have h2 : Ext s (doWhileCondStep loopBB t1) :=
      doWhileCondStep_ext loopBB h1 hwf hadm hloopmem1
    have hemem2 : endBB ∈ (doWhileCondStep loopBB t1).ids := hf2 endBB hemem1
    have henil2 : (doWhileCondStep loopBB t1).getBlockD endBB = [] := by
      rw [hf3 endBB (wf_block_lt hw1 hemem1) heip1]
      exact henil1
    have heip2 : (doWhileCondStep loopBB t1).insPt ≠ some endBB := by
      rw [hf1]
      intro hc2
      have := Option.some.inj hc2
      have := wf_block_lt hw1 hemem1
      omega
    exact (h2.emitOrDelete hemem2 hege henil2 heip2).pop
  · rw [if_neg hips]
    exact (h1.emitOrDelete hemem1 hege henil1 heip1).pop

theorem getBlockD_emitBlockBr_ne (hip : t.insPt ≠ some b) :
    (t.emitBlockBr c).getBlockD b = t.getBlockD b := by
  unfold SGState.emitBlockBr
  by_cases hips : t.insPt.isSome
  · rw [if_pos hips]
    simp [getBlockD_createBranch_ne hip]
  · rw [if_neg hips]
    rfl

/-- `doWhilePre`, unrolled: the loop header, end and condition-test blocks
are the next three fresh ids, the insertion point falls through into the
loop header, the end and condition-test blocks are created empty, and the
break/continue entry (end, condition-test) is pushed. -/
theorem doWhilePre_facts (id : Nat) (hwf : WFb s = true) :
    (doWhilePre id s).1 = s.nextId ∧
    (doWhilePre id s).2.1 = s.nextId + 1 ∧
    (doWhilePre id s).2.2.1 = s.nextId + 2 ∧
    ((doWhilePre id s).2.2.2).insPt = some s.nextId ∧
    ((doWhilePre id s).2.2.2).nextId = s.nextId + 3 ∧
    ((doWhilePre id s).2.2.2).ids =
      s.ids ++ [s.nextId, s.nextId + 1, s.nextId + 2] ∧
    ((doWhilePre id s).2.2.2).getBlockD (s.nextId + 1) = [] ∧
    ((doWhilePre id s).2.2.2).getBlockD (s.nextId + 2) = [] ∧
    Ext s ((doWhilePre id s).2.2.2) := by
  have hip1 : ((s.createBasicBlock).2).insPt ≠ some (s.nextId + 1) := by
    rw [insPt_create]
    intro hc
    have := wf_insPt_lt hwf hc
    omega
  have hip2 : ((s.createBasicBlock).2).insPt ≠ some (s.nextId + 2) := by
    rw [insPt_create]
    intro hc
    have := wf_insPt_lt hwf hc
    omega
  refine ⟨rfl, by simp [doWhilePre], by simp [doWhilePre], ?_, ?_, ?_, ?_, ?_, ?_⟩
  · show ((((((s.createBasicBlock).2).emitBlockBr
      s.nextId).createBasicBlock).2.createBasicBlock).2.pushBC id _ _).insPt = _
    simp
  · simp [doWhilePre]
  · show ((((((s.createBasicBlock).2).emitBlockBr
      s.nextId).createBasicBlock).2.createBasicBlock).2.pushBC id _ _).ids = _
    simp
  · show ((((((s.createBasicBlock).2).emitBlockBr
      s.nextId).createBasicBlock).2.createBasicBlock).2.pushBC id _ _).getBlockD
        (s.nextId + 1) = []
    rw [getBlockD_pushBC, getBlockD_create, getBlockD_create,
      getBlockD_emitBlockBr_ne hip1, getBlockD_create]
    exact wf_getBlockD_big hwf (by omega)
  · show ((((((s.createBasicBlock).2).emitBlockBr
      s.nextId).createBasicBlock).2.createBasicBlock).2.pushBC id _ _).getBlockD
        (s.nextId + 2) = []
    rw [getBlockD_pushBC, getBlockD_create, getBlockD_create,
      getBlockD_emitBlockBr_ne hip2, getBlockD_create]
    exact wf_getBlockD_big hwf (by omega)
  · show Ext s ((((((s.createBasicBlock).2).emitBlockBr
      s.nextId).createBasicBlock).2.createBasicBlock).2.pushBC id _ _)
    simp only [create_fst, nextId_emitBlockBr, nextId_create]
    refine ((((Ext.refl.newBlock).emitBr (by simp) le_rfl).newBlock).newBlock).push
      (by omega) (by omega) (by simp) (by simp) id

/-- `ifPre` is an admissible extension; the returned cleanup blocks are
fresh, the list is non-empty and avoids the final insertion point. -/
theorem ifPre_ext (cond : List CondElt) (hwf : WFb s = true) :
    Ext s ((ifPre cond s).2) ∧
    (∀ c2 ∈ (ifPre cond s).1, s.nextId ≤ c2 ∧ c2 ∈ ((ifPre cond s).2).ids) ∧
    (ifPre cond s).1 ≠ [] ∧
    (∀ ip2, ((ifPre cond s).2).insPt = some ip2 → ip2 ∉ (ifPre cond s).1) := by
  have hstep1 : (ifPre cond s).1 =
      (emitStmtCondition cond (emitConditionalBindingBuffers cond s).1
        (emitConditionalBindingBuffers cond s).2).1 := rfl
  have hstep2 : (ifPre cond s).2 =
      emitPatternBindingsM (emitConditionalBindingBuffers cond s).1
        (emitStmtCondition cond (emitConditionalBindingBuffers cond s).1
          (emitConditionalBindingBuffers cond s).2).2 := rfl
  have hb : Ext s ((emitConditionalBindingBuffers cond s).2) :=
    buffers_ext cond Ext.refl le_rfl
  have hbufs : ∀ k2 ∈ (emitConditionalBindingBuffers cond s).1,
      s.nextSlot ≤ k2 ∧ k2 < ((emitConditionalBindingBuffers cond s).2).nextSlot := by
    intro k2 hk2
    rw [buffers_fst] at hk2
    rw [nextSlot_buffers]
    rw [List.mem_range'_1] at hk2
    omega
  have hlen : countB cond ≤ ((emitConditionalBindingBuffers cond s).1).length := by
    rw [buffers_fst, List.length_range']
  obtain ⟨h1, h2, h3, h4⟩ :=
    emitStmtCondition_ext cond (emitConditionalBindingBuffers cond s).1 hwf hb
      hbufs hlen
  rw [hstep1, hstep2]
  refine ⟨patternBindings_ext _ h1, ?_, h3, ?_⟩
  · intro c2 hc2
    refine ⟨(h2 c2 hc2).1, ?_⟩
    rw [ids_patternBindings]
    exact (h2 c2 hc2).2
  · intro ip2 hip2
    rw [insPt_patternBindings] at hip2
    exact h4 ip2 hip2

/-- `ifNoElseFinish` is an admissible extension when the cleanup blocks are
fresh blocks of the current state. -/
theorem ifNoElseFinish_ext {cbs : List Nat} (h : Ext s t)
    (hcbs : ∀ c2 ∈ cbs, s.nextId ≤ c2 ∧ c2 ∈ t.ids) (hne : cbs ≠ []) :
    Ext s (ifNoElseFinish cbs t) := by
  intro hwf
  have c := h hwf
  have hwt := c.wf
  have hnid := c.nid
  have hlast := hcbs _ (getLastD_mem hne 0)
  have hlastlt : cbs.getLastD 0 < t.nextId := wf_block_lt hwt hlast.2
  unfold ifNoElseFinish
  by_cases hips : t.insPt.isSome = true
  · rw [if_pos hips]
    by_cases hnil : t.getBlockD (cbs.getLastD 0) = []
    · rw [if_pos hnil]
      refine (emitAll_ext cbs ((h.branch (Or.inl hlast.1) hlastlt)) ?_) hwf
      intro c2 hc2
      exact ⟨(hcbs c2 hc2).1, by simpa using (hcbs c2 hc2).2⟩
    · rw [if_neg hnil]
      have hbr : Ext s ((((t.createBasicBlock).2).appendTo (cbs.getLastD 0)
          (.br (t.createBasicBlock).1)).createBranch
            ((cbs ++ [(t.createBasicBlock).1]).getLastD 0)) := by
        rw [List.getLastD_concat, create_fst]
        refine ((h.newBlock).brTo hlast.1 (Or.inl ?_) ?_).branch (Or.inl hnid) ?_
        · exact hnid
        · simp
        · simp
      refine (emitAll_ext (cbs ++ [(t.createBasicBlock).1]) hbr ?_) hwf
      intro c2 hc2
      rcases List.mem_append.1 hc2 with hc2 | hc2
      · exact ⟨(hcbs c2 hc2).1, by simp [(hcbs c2 hc2).2]⟩
      · rcases List.mem_singleton.1 hc2 with rfl
        refine ⟨by rw [create_fst]; exact hnid, ?_⟩
        simp
  · rw [if_neg hips]
    refine (emitAll_ext cbs h ?_) hwf
    exact hcbs

/-- `ifElseMid` is an admissible extension. -/
theorem ifElseMid_ext {cbs : List Nat} (h : Ext s t)
    (hcbs : ∀ c2 ∈ cbs, s.nextId ≤ c2 ∧ c2 ∈ t.ids) :
    Ext s ((ifElseMid cbs t).2) := by
  intro hwf
  have c := h hwf
  have hunfold : (ifElseMid cbs t).2 =
      emitAll cbs (if ((t.createBasicBlock).2).insPt.isSome
        then ((t.createBasicBlock).2).createBranch (t.createBasicBlock).1
        else (t.createBasicBlock).2) := rfl
  rw [hunfold]
  by_cases hips : ((t.createBasicBlock).2).insPt.isSome = true
  · rw [if_pos hips]
    refine (emitAll_ext cbs (((h.newBlock).branch (Or.inl c.nid) (by simp))) ?_) hwf
    intro c2 hc2
    refine ⟨(hcbs c2 hc2).1, ?_⟩
    simp [(hcbs c2 hc2).2]
  · rw [if_neg hips]
    refine (emitAll_ext cbs (h.newBlock) ?_) hwf
    intro c2 hc2
    refine ⟨(hcbs c2 hc2).1, ?_⟩
    simp [(hcbs c2 hc2).2]

/-- `ifElseMid`, unrolled: the merge block is the fresh id, created empty,
and the insertion point continues in the last cleanup block. -/
theorem ifElseMid_facts {cbs : List Nat} (hwt : WFb t = true) (hne : cbs ≠ []) :
    (ifElseMid cbs t).1 = t.nextId ∧
    ((ifElseMid cbs t).2).insPt = some (cbs.getLastD 0) ∧
    t.nextId ∈ ((ifElseMid cbs t).2).ids ∧
    ((ifElseMid cbs t).2).getBlockD t.nextId = [] ∧
    ((ifElseMid cbs t).2).nextId = t.nextId + 1 := by
  have hipne : ((t.createBasicBlock).2).insPt ≠ some t.nextId := by
    rw [insPt_create]
    intro hc
    have := wf_insPt_lt hwt hc
    omega
  refine ⟨rfl, ?_, ?_, ?_, ?_⟩
  · show (emitAll cbs _).insPt = _
    cases cbs with
    | nil => exact absurd rfl hne
    | cons b2 rest => exact insPt_emitAll_cons b2 rest
  · show t.nextId ∈ (emitAll cbs _).ids
    rw [ids_emitAll]
    by_cases hips : t.insPt.isSome = true <;> simp [hips]
  · show (emitAll cbs _).getBlockD t.nextId = []
    rw [getBlockD_emitAll]
    by_cases hips : ((t.createBasicBlock).2).insPt.isSome = true
    · rw [if_pos hips, create_fst, getBlockD_createBranch_ne hipne, getBlockD_create]
      exact wf_getBlockD_big hwt le_rfl
    · rw [if_neg hips, getBlockD_create]
      exact wf_getBlockD_big hwt le_rfl
  · show (emitAll cbs _).nextId = _
    rw [nextId_emitAll]
    by_cases hips : t.insPt.isSome = true <;> simp [hips]

/-- `ifElseFinish` is an admissible extension when the merge block is a
fresh, still-empty block away from the insertion point. -/
theorem ifElseFinish_ext {contBB : Nat} (h : Ext s t) (hge : s.nextId ≤ contBB)
    (hmem : contBB ∈ t.ids) (hnil : t.getBlockD contBB = [])
    (hip : t.insPt ≠ some contBB) :
    Ext s (ifElseFinish contBB t) := by
  intro hwf
  have c := h hwf
  have hwt := c.wf
  have hlt : contBB < t.nextId := wf_block_lt hwt hmem
  unfold ifElseFinish
  by_cases hips : t.insPt.isSome = true
  · rw [if_pos hips]
    have hbr : Ext s (t.createBranch contBB) := h.branch (Or.inl hge) hlt
    by_cases hpe : (t.createBranch contBB).predEmpty contBB = true
    · rw [if_pos hpe]
      refine (hbr.erase hge ?_ ?_) hwf
      · rw [getBlockD_createBranch_ne hip]
        exact hnil
      · simp
    · rw [if_neg hpe]
      exact (hbr.emitNoBr (by simpa using hmem) (Or.inl hge)) hwf
  · rw [if_neg hips]
    by_cases hpe : t.predEmpty contBB = true
    · rw [if_pos hpe]
      exact (h.erase hge hnil hip) hwf
    · rw [if_neg hpe]
      exact (h.emitNoBr hmem (Or.inl hge)) hwf

/-- `whilePre` is an admissible extension; the loop header is the first
fresh id and the cleanup blocks are fresh and non-empty. -/
theorem whilePre_ext (id : Nat) (cond : List CondElt) (hwf : WFb s = true) :
    Ext s ((whilePre id cond s).2.2) ∧
    (whilePre id cond s).1 = s.nextId ∧
    (∀ c2 ∈ (whilePre id cond s).2.1,
      s.nextId ≤ c2 ∧ c2 ∈ ((whilePre id cond s).2.2).ids) ∧
    (whilePre id cond s).2.1 ≠ [] ∧
    s.nextId ∈ ((whilePre id cond s).2.2).ids := by
  have hb : Ext s ((emitConditionalBindingBuffers cond s).2) :=
    buffers_ext cond Ext.refl le_rfl
  have hlb1 : (((emitConditionalBindingBuffers cond s).2).createBasicBlock).1 =
      s.nextId := by simp
  have h3 : Ext s ((((emitConditionalBindingBuffers cond s).2).createBasicBlock).2.emitBlockBr
      (((emitConditionalBindingBuffers cond s).2).createBasicBlock).1) := by
    refine (hb.newBlock).emitBr ?_ ?_
    · rw [hlb1]
      simp
    · rw [hlb1]
  have hbufs : ∀ k2 ∈ (emitConditionalBindingBuffers cond s).1,
      s.nextSlot ≤ k2 ∧
      k2 < (((((emitConditionalBindingBuffers cond s).2).createBasicBlock).2).emitBlockBr
        (((emitConditionalBindingBuffers cond s).2).createBasicBlock).1).nextSlot := by
    intro k2 hk2
    rw [buffers_fst] at hk2
    rw [List.mem_range'_1] at hk2
    simp
    omega
  have hlen : countB cond ≤ ((emitConditionalBindingBuffers cond s).1).length := by
    rw [buffers_fst, List.length_range']
  obtain ⟨h1, h2, h3b, h4⟩ := emitStmtCondition_ext cond
    (emitConditionalBindingBuffers cond s).1 hwf h3 hbufs hlen
  have hw1 : WFb (emitStmtCondition cond (emitConditionalBindingBuffers cond s).1
      ((((emitConditionalBindingBuffers cond s).2).createBasicBlock).2.emitBlockBr
        (((emitConditionalBindingBuffers cond s).2).createBasicBlock).1)).2 = true :=
    (h1 hwf).wf
  have hhead := h2 _ (headD_mem h3b 0)
  have hlbmem : (((emitConditionalBindingBuffers cond s).2).createBasicBlock).1 ∈
      (emitStmtCondition cond (emitConditionalBindingBuffers cond s).1
        ((((emitConditionalBindingBuffers cond s).2).createBasicBlock).2.emitBlockBr
          (((emitConditionalBindingBuffers cond s).2).createBasicBlock).1)).2.ids := by
    refine (emitStmtCondition_mono cond _ _).2 _ ?_
    simp
  have hpush : Ext s ((emitStmtCondition cond (emitConditionalBindingBuffers cond s).1
      ((((emitConditionalBindingBuffers cond s).2).createBasicBlock).2.emitBlockBr
        (((emitConditionalBindingBuffers cond s).2).createBasicBlock).1)).2.pushBC id
      ((emitStmtCondition cond (emitConditionalBindingBuffers cond s).1
        ((((emitConditionalBindingBuffers cond s).2).createBasicBlock).2.emitBlockBr
          (((emitConditionalBindingBuffers cond s).2).createBasicBlock).1)).1.headD 0)
      (((emitConditionalBindingBuffers cond s).2).createBasicBlock).1) := by
    refine h1.push hhead.1 ?_ (wf_block_lt hw1 hhead.2) (wf_block_lt hw1 hlbmem) id
    rw [hlb1]
  refine ⟨patternBindings_ext _ hpush, by simp [whilePre], ?_, h3b, ?_⟩
  · intro c2 hc2
    refine ⟨(h2 c2 hc2).1, ?_⟩
    show c2 ∈ (emitPatternBindingsM _ _).ids
    rw [ids_patternBindings, ids_pushBC]
    exact (h2 c2 hc2).2
  · show s.nextId ∈ (emitPatternBindingsM _ _).ids
    rw [ids_patternBindings, ids_pushBC]
    rw [← hlb1]
    exact hlbmem

/-- `whilePost` is an admissible extension. -/
theorem whilePost_ext {loopBB : Nat} {cbs : List Nat} (h : Ext s t)
    (hadm : admTgt s loopBB) (hloopmem : loopBB ∈ t.ids)
    (hcbs : ∀ c2 ∈ cbs, s.nextId ≤ c2 ∧ c2 ∈ t.ids) :
    Ext s (whilePost loopBB cbs t) := by
  intro hwf
  have c := h hwf
  unfold whilePost
  by_cases hips : t.insPt.isSome = true
  · rw [if_pos hips]
    refine (emitAll_ext cbs ((h.branch hadm (wf_block_lt c.wf hloopmem)).pop) ?_) hwf
    intro c2 hc2
    exact ⟨(hcbs c2 hc2).1, by simpa using (hcbs c2 hc2).2⟩
  · rw [if_neg hips]
    refine (emitAll_ext cbs (h.pop) ?_) hwf
    intro c2 hc2
    exact ⟨(hcbs c2 hc2).1, by simpa using (hcbs c2 hc2).2⟩

theorem forInit_ext (hasInit : Bool) : Ext s (forInit hasInit s) := by
  cases hasInit
  · exact Ext.refl
  · exact Ext.refl.other

theorem mem_ids_condComplete (cond : CondRec) (hmem : b ∈ t.ids)
    (hb : ∀ cb, cond.contBB = some cb → b ≠ cb) :
    b ∈ (condComplete cond t).ids := by
  unfold condComplete
  cases hc : cond.contBB with
  | none => exact hmem
  | some cb =>
    show b ∈ (if t.predEmpty cb = true then (t.eraseBlock cb).clearIP
      else t.emitBlockNoBr cb).ids
    by_cases hpe : t.predEmpty cb = true
    · rw [if_pos hpe]
      show b ∈ ((t.eraseBlock cb).clearIP).ids
      rw [ids_clearIP]
      exact mem_ids_erase.2 ⟨hmem, hb cb hc⟩
    · rw [if_neg hpe]
      simpa using hmem

theorem getBlockD_condComplete_ne (cond : CondRec)
    (hb : ∀ cb, cond.contBB = some cb → b ≠ cb) :
    (condComplete cond t).getBlockD b = t.getBlockD b := by
  unfold condComplete
  cases hc : cond.contBB with
  | none => rfl
  | some cb =>
    show (if t.predEmpty cb = true then (t.eraseBlock cb).clearIP
      else t.emitBlockNoBr cb).getBlockD b = _
    by_cases hpe : t.predEmpty cb = true
    · rw [if_pos hpe, getBlockD_clearIP, getBlockD_erase, if_neg (hb cb hc)]
    · rw [if_neg hpe, getBlockD_emitBlockNoBr]

theorem insPt_condComplete_ne (cond : CondRec) (hip : t.insPt ≠ some b)
    (hb : ∀ cb, cond.contBB = some cb → cb ≠ b) :
    (condComplete cond t).insPt ≠ some b := by
  unfold condComplete
  cases hc : cond.contBB with
  | none => exact hip
  | some cb =>
    show (if t.predEmpty cb = true then (t.eraseBlock cb).clearIP
      else t.emitBlockNoBr cb).insPt ≠ some b
    by_cases hpe : t.predEmpty cb = true
    · rw [if_pos hpe]
      intro hcon
      exact Option.noConfusion hcon
    · rw [if_neg hpe]
      intro hcon
      exact hb cb hc (Option.some.inj hcon)

/-- `forPost` is an admissible extension when the increment and end blocks
are fresh, still-empty blocks and the merge block of the condition (when
present) is fresh and empty as well. -/
theorem forPost_ext {loopBB incBB endBB : Nat} {cond : CondRec} (hasIncr : Bool)
    (h : Ext s t) (hwf : WFb s = true)
    (hadm : admTgt s loopBB) (hloopmem : loopBB ∈ t.ids) (hlinc : loopBB ≠ incBB)
    (hige : s.nextId ≤ incBB) (himem : incBB ∈ t.ids)
    (hinil : t.getBlockD incBB = []) (hiip : t.insPt ≠ some incBB)
    (hege : s.nextId ≤ endBB) (hemem : endBB ∈ t.ids)
    (henil : t.getBlockD endBB = []) (heip : t.insPt ≠ some endBB)
    (hnei : endBB ≠ incBB)
    (hcont : cond.contBB = none ∨ ∃ cb, cond.contBB = some cb ∧ s.nextId ≤ cb ∧
      cb ∈ t.ids ∧ t.getBlockD cb = [] ∧ t.insPt ≠ some cb ∧ cb ≠ incBB ∧
      cb ≠ endBB) :
    Ext s (forPost loopBB incBB endBB cond hasIncr t) := by
  set t1 := t.emitOrDeleteBlock incBB with ht1
  set t2 := if t1.insPt.isSome && hasIncr then t1.appendInst .other else t1 with ht2
  set t3 := if t2.insPt.isSome then t2.createBranch loopBB else t2 with ht3
  have hunfold : forPost loopBB incBB endBB cond hasIncr t =
      ((condComplete cond (condExitTrue cond t3)).emitOrDeleteBlock endBB).popBC :=
    rfl
  rw [hunfold]
  have h1 : Ext s t1 := h.emitOrDelete himem hige hinil hiip
  have hids2 : t2.ids = t1.ids := by
    rw [ht2]
    by_cases hcnd : (t1.insPt.isSome && hasIncr) = true
    · rw [if_pos hcnd]
      simp
    · rw [if_neg hcnd]
  have hip2 : t2.insPt = t1.insPt := by
    rw [ht2]
    by_cases hcnd : (t1.insPt.isSome && hasIncr) = true
    · rw [if_pos hcnd]
      simp
    · rw [if_neg hcnd]
  have h2 : Ext s t2 := by
    rw [ht2]
    by_cases hcnd : (t1.insPt.isSome && hasIncr) = true
    · rw [if_pos hcnd]
      exact h1.other
    · rw [if_neg hcnd]
      exact h1
  have hloopmem2 : loopBB ∈ t2.ids := by
    rw [hids2]
    exact mem_ids_emitOrDelete hloopmem hlinc
  have h3 : Ext s t3 := by
    rw [ht3]
    by_cases hcnd : t2.insPt.isSome = true
    · rw [if_pos hcnd]
      exact h2.branch hadm (wf_block_lt (h2 hwf).wf hloopmem2)
    · rw [if_neg hcnd]
      exact h2
  have hids3 : t3.ids = t2.ids := by
    rw [ht3]
    by_cases hcnd : t2.insPt.isSome = true
    · rw [if_pos hcnd]
      simp
    · rw [if_neg hcnd]
  have h3ip : t3.insPt = none := by
    rw [ht3]
    by_cases hcnd : t2.insPt.isSome = true
    · rw [if_pos hcnd]
      simp
    · rw [if_neg hcnd]
      cases hx : t2.insPt with
      | none => rfl
      | some v =>
        rw [hx] at hcnd
        exact absurd rfl hcnd
  rw [condExitTrue_of_none _ h3ip]
  have hgb3 : ∀ b2, b2 ≠ incBB → t.insPt ≠ some b2 → t3.getBlockD b2 = t.getBlockD b2 := by
    intro b2 hb2 hipb2
    have hg1 : t1.getBlockD b2 = t.getBlockD b2 :=
      getBlockD_emitOrDelete_ne hb2 hipb2
    have hipb1 : t1.insPt ≠ some b2 := insPt_emitOrDelete_ne hipb2 (fun hc => hb2 hc.symm)
    have hg2 : t2.getBlockD b2 = t1.getBlockD b2 := by
      rw [ht2]
      by_cases hcnd : (t1.insPt.isSome && hasIncr) = true
      · rw [if_pos hcnd]
        exact getBlockD_appendInst_ne hipb1
      · rw [if_neg hcnd]
    have hg3 : t3.getBlockD b2 = t2.getBlockD b2 := by
      rw [ht3]
      by_cases hcnd : t2.insPt.isSome = true
      · rw [if_pos hcnd]
        refine getBlockD_createBranch_ne ?_
        rw [hip2]
        exact hipb1
      · rw [if_neg hcnd]
    rw [hg3, hg2, hg1]
  have hcont3 : cond.contBB = none ∨ ∃ cb, cond.contBB = some cb ∧ s.nextId ≤ cb ∧
      cb ∈ t3.ids ∧ t3.getBlockD cb = [] ∧ t3.insPt ≠ some cb := by
    rcases hcont with hc | ⟨cb, hc, hge, hm, hn, hi, hci, hce⟩
    · exact Or.inl hc
    · refine Or.inr ⟨cb, hc, hge, ?_, ?_, ?_⟩
      · rw [hids3, hids2]
        exact mem_ids_emitOrDelete hm hci
      · rw [hgb3 cb hci hi]
        exact hn
      · rw [h3ip]
        exact fun hcon => Option.noConfusion hcon
  have h4 : Ext s (condComplete cond t3) := condComplete_ext _ h3 hwf hcont3
  have hbend : ∀ cb, cond.contBB = some cb → endBB ≠ cb := by
    intro cb hc
    rcases hcont with hc2 | ⟨cb2, hc2, _, _, _, _, _, hce2⟩
    · rw [hc] at hc2
      exact Option.noConfusion hc2
    · rw [hc] at hc2
      have := Option.some.inj hc2
      subst this
      exact hce2.symm
  have hmem4 : endBB ∈ (condComplete cond t3).ids := by
    refine mem_ids_condComplete _ ?_ hbend
    rw [hids3, hids2]
    exact mem_ids_emitOrDelete hemem hnei
  have hnil4 : (condComplete cond t3).getBlockD endBB = [] := by
    rw [getBlockD_condComplete_ne _ hbend, hgb3 endBB hnei heip]
    exact henil
  have hip4 : (condComplete cond t3).insPt ≠ some endBB := by
    refine insPt_condComplete_ne _ ?_ ?_
    · rw [h3ip]
      exact fun hcon => Option.noConfusion hcon
    · intro cb hc
      exact (hbend cb hc).symm
  exact (h4.emitOrDelete hmem4 hege hnil4 hip4).pop

/-- `forSkipBody` is an admissible extension. -/
theorem forSkipBody_ext {endBB : Nat} {cond : CondRec} (h : Ext s t)
    (hwf : WFb s = true)
    (hege : s.nextId ≤ endBB) (hemem : endBB ∈ t.ids)
    (henil : t.getBlockD endBB = []) (heip : t.insPt ≠ some endBB)
    (hcont : cond.contBB = none ∨ ∃ cb, cond.contBB = some cb ∧ s.nextId ≤ cb ∧
      cb ∈ t.ids ∧ t.getBlockD cb = [] ∧ t.insPt ≠ some cb ∧ cb ≠ endBB) :
    Ext s (forSkipBody endBB cond t) := by
  have hcont2 : cond.contBB = none ∨ ∃ cb, cond.contBB = some cb ∧ s.nextId ≤ cb ∧
      cb ∈ t.ids ∧ t.getBlockD cb = [] ∧ t.insPt ≠ some cb := by
    rcases hcont with hc | ⟨cb, hc, hge, hm, hn, hi, hce⟩
    · exact Or.inl hc
    · exact Or.inr ⟨cb, hc, hge, hm, hn, hi⟩
  have h4 : Ext s (condComplete cond t) := condComplete_ext _ h hwf hcont2
  have hbend : ∀ cb, cond.contBB = some cb → endBB ≠ cb := by
    intro cb hc
    rcases hcont with hc2 | ⟨cb2, hc2, _, _, _, _, hce2⟩
    · rw [hc] at hc2
      exact Option.noConfusion hc2
    · rw [hc] at hc2
      have := Option.some.inj hc2
      subst this
      exact hce2.symm
  refine (h4.emitOrDelete ?_ hege ?_ ?_).pop
  · exact mem_ids_condComplete _ hemem hbend
  · rw [getBlockD_condComplete_ne _ hbend]
    exact henil
  · refine insPt_condComplete_ne _ heip ?_
    intro cb hc
    exact (hbend cb hc).symm

/-- `forEachPost` is an admissible extension. -/
theorem forEachPost_ext {loopBB endBB : Nat} {cond : CondRec}
    (h : Ext s t) (hwf : WFb s = true)
    (hadm : admTgt s loopBB) (hloopmem : loopBB ∈ t.ids)
    (hege : s.nextId ≤ endBB) (hemem : endBB ∈ t.ids)
    (henil : t.getBlockD endBB = []) (heip : t.insPt ≠ some endBB)
    (hcont : cond.contBB = none ∨ ∃ cb, cond.contBB = some cb ∧ s.nextId ≤ cb ∧
      cb ∈ t.ids ∧ t.getBlockD cb = [] ∧ t.insPt ≠ some cb ∧ cb ≠ endBB) :
    Ext s (forEachPost loopBB endBB cond t) := by
  set t3 := if t.insPt.isSome then t.createBranch loopBB else t with ht3
  have hunfold : forEachPost loopBB endBB cond t =
      ((condComplete cond (condExitTrue cond t3)).emitOrDeleteBlock endBB).popBC :=
    rfl
  rw [hunfold]
  have h3 : Ext s t3 := by
    rw [ht3]
    by_cases hcnd : t.insPt.isSome = true
    · rw [if_pos hcnd]
      exact h.branch hadm (wf_block_lt (h hwf).wf hloopmem)
    · rw [if_neg hcnd]
      exact h
  have hids3 : t3.ids = t.ids := by
    rw [ht3]
    by_cases hcnd : t.insPt.isSome = true
    · rw [if_pos hcnd]
      simp
    · rw [if_neg hcnd]
  have h3ip : t3.insPt = none := by
    rw [ht3]
    by_cases hcnd : t.insPt.isSome = true
    · rw [if_pos hcnd]
      simp
    · rw [if_neg hcnd]
      cases hx : t.insPt with
      | none => rfl
      | some v =>
        rw [hx] at hcnd
        exact absurd rfl hcnd
  rw [condExitTrue_of_none _ h3ip]
  have hgb3 : ∀ b2, t.insPt ≠ some b2 → t3.getBlockD b2 = t.getBlockD b2 := by
    intro b2 hipb2
    rw [ht3]
    by_cases hcnd : t.insPt.isSome = true
    · rw [if_pos hcnd]
      exact getBlockD_createBranch_ne hipb2
    · rw [if_neg hcnd]
  have hcont3 : cond.contBB = none ∨ ∃ cb, cond.contBB = some cb ∧ s.nextId ≤ cb ∧
      cb ∈ t3.ids ∧ t3.getBlockD cb = [] ∧ t3.insPt ≠ some cb := by
    rcases hcont with hc | ⟨cb, hc, hge, hm, hn, hi, hce⟩
    · exact Or.inl hc
    · refine Or.inr ⟨cb, hc, hge, ?_, ?_, ?_⟩
      · rw [hids3]
        exact hm
      · rw [hgb3 cb hi]
        exact hn
      · rw [h3ip]
        exact fun hcon => Option.noConfusion hcon
  have h4 : Ext s (condComplete cond t3) := condComplete_ext _ h3 hwf hcont3
  have hbend : ∀ cb, cond.contBB = some cb → endBB ≠ cb := by
    intro cb hc
    rcases hcont with hc2 | ⟨cb2, hc2, _, _, _, _, hce2⟩
    · rw [hc] at hc2
      exact Option.noConfusion hc2
    · rw [hc] at hc2
      have := Option.some.inj hc2
      subst this
      exact hce2.symm
  have hmem4 : endBB ∈ (condComplete cond t3).ids := by
    refine mem_ids_condComplete _ ?_ hbend
    rw [hids3]
    exact hemem
  have hnil4 : (condComplete cond t3).getBlockD endBB = [] := by
    rw [getBlockD_condComplete_ne _ hbend, hgb3 endBB heip]
    exact henil
  have hip4 : (condComplete cond t3).insPt ≠ some endBB := by
    refine insPt_condComplete_ne _ ?_ ?_
    · rw [h3ip]
      exact fun hcon => Option.noConfusion hcon
    · intro cb hc
      exact (hbend cb hc).symm
  exact (h4.emitOrDelete hmem4 hege hnil4 hip4).pop

/-- The shared prefix of the loop lowerings: create the header, fall through
into it, create two more blocks and push a break/continue entry. -/
theorem preChain_facts (id bd cd : Nat) (hwf : WFb s = true)
    (hbd : s.nextId ≤ bd) (hbd2 : bd < s.nextId + 3)
    (hcd : s.nextId ≤ cd) (hcd2 : cd < s.nextId + 3) :
    ((((((s.createBasicBlock).2).emitBlockBr
      s.nextId).createBasicBlock).2.createBasicBlock).2.pushBC id bd cd).insPt =
        some s.nextId ∧
    ((((((s.createBasicBlock).2).emitBlockBr
      s.nextId).createBasicBlock).2.createBasicBlock).2.pushBC id bd cd).nextId =
        s.nextId + 3 ∧
    ((((((s.createBasicBlock).2).emitBlockBr
      s.nextId).createBasicBlock).2.createBasicBlock).2.pushBC id bd cd).ids =
        s.ids ++ [s.nextId, s.nextId + 1, s.nextId + 2] ∧
    ((((((s.createBasicBlock).2).emitBlockBr
      s.nextId).createBasicBlock).2.createBasicBlock).2.pushBC id bd cd).getBlockD
        (s.nextId + 1) = [] ∧
    ((((((s.createBasicBlock).2).emitBlockBr
      s.nextId).createBasicBlock).2.createBasicBlock).2.pushBC id bd cd).getBlockD
        (s.nextId + 2) = [] ∧
    Ext s ((((((s.createBasicBlock).2).emitBlockBr
      s.nextId).createBasicBlock).2.createBasicBlock).2.pushBC id bd cd) := by
  have hip1 : ((s.createBasicBlock).2).insPt ≠ some (s.nextId + 1) := by
    rw [insPt_create]
    intro hc
    have := wf_insPt_lt hwf hc
    omega
  have hip2 : ((s.createBasicBlock).2).insPt ≠ some (s.nextId + 2) := by
    rw [insPt_create]
    intro hc
    have := wf_insPt_lt hwf hc
    omega
  refine ⟨by simp, by simp, by simp, ?_, ?_, ?_⟩
  · rw [getBlockD_pushBC, getBlockD_create, getBlockD_create,
      getBlockD_emitBlockBr_ne hip1, getBlockD_create]
    exact wf_getBlockD_big hwf (by omega)
  · rw [getBlockD_pushBC, getBlockD_create, getBlockD_create,
      getBlockD_emitBlockBr_ne hip2, getBlockD_create]
    exact wf_getBlockD_big hwf (by omega)
  · refine ((((Ext.refl.newBlock).emitBr (by simp) le_rfl).newBlock).newBlock).push
      hbd hcd ?_ ?_ id
    · simp
      omega
    · simp
      omega

/-- `forPre`, unrolled: block numbering, freshness and emptiness of the
increment and end blocks, and the shape of the condition record. -/
theorem forPre_facts (id : Nat) (hasCond : Bool) (hwf : WFb s = true) :
    (forPre id hasCond s).1 = s.nextId ∧
    (forPre id hasCond s).2.1 = s.nextId + 1 ∧
    (forPre id hasCond s).2.2.1 = s.nextId + 2 ∧
    Ext s ((forPre id hasCond s).2.2.2.2) ∧
    s.nextId ∈ ((forPre id hasCond s).2.2.2.2).ids ∧
    (s.nextId + 1) ∈ ((forPre id hasCond s).2.2.2.2).ids ∧
    (s.nextId + 2) ∈ ((forPre id hasCond s).2.2.2.2).ids ∧
    ((forPre id hasCond s).2.2.2.2).getBlockD (s.nextId + 1) = [] ∧
    ((forPre id hasCond s).2.2.2.2).getBlockD (s.nextId + 2) = [] ∧
    (∃ tb, ((forPre id hasCond s).2.2.2.1).trueBB = some tb ∧
      s.nextId ≤ tb ∧ tb ∈ ((forPre id hasCond s).2.2.2.2).ids ∧
      tb ≠ s.nextId + 1 ∧ tb ≠ s.nextId + 2 ∧
      (∀ cb, ((forPre id hasCond s).2.2.2.1).contBB = some cb → tb ≠ cb)) ∧
    (((forPre id hasCond s).2.2.2.1).contBB = none ∨
      ∃ cb, ((forPre id hasCond s).2.2.2.1).contBB = some cb ∧
        s.nextId ≤ cb ∧ cb ∈ ((forPre id hasCond s).2.2.2.2).ids ∧
        ((forPre id hasCond s).2.2.2.2).getBlockD cb = [] ∧
        cb ≠ s.nextId + 1 ∧ cb ≠ s.nextId + 2) := by
  have harg1 : ((((((s.createBasicBlock).2).emitBlockBr
      s.nextId).createBasicBlock).2).createBasicBlock).1 = s.nextId + 2 := by
    simp
  have harg2 : ((((s.createBasicBlock).2).emitBlockBr
      s.nextId).createBasicBlock).1 = s.nextId + 1 := by
    simp
  obtain ⟨hc1, hc2, hc3, hc4, hc5, hc6⟩ := preChain_facts id (s.nextId + 2)
    (s.nextId + 1) hwf (by omega) (by omega) (by omega) (by omega)
  cases hasCond with
  | false =>
    have hfp2 : (forPre id false s).2.2.2.2 =
        (((((s.createBasicBlock).2).emitBlockBr
          s.nextId).createBasicBlock).2.createBasicBlock).2.pushBC id
          (s.nextId + 2) (s.nextId + 1) := by
      show (((((s.createBasicBlock).2).emitBlockBr
          s.nextId).createBasicBlock).2.createBasicBlock).2.pushBC id
          (((((((s.createBasicBlock).2).emitBlockBr
            s.nextId).createBasicBlock).2).createBasicBlock).1)
          (((((s.createBasicBlock).2).emitBlockBr
            s.nextId).createBasicBlock).1) = _
      rw [harg1, harg2]
    have hfp1 : (forPre id false s).2.2.2.1 = ⟨some s.nextId, none, none⟩ := rfl
    refine ⟨rfl, by simp [forPre], by simp [forPre], ?_, ?_, ?_, ?_, ?_, ?_, ?_,
      Or.inl ?_⟩
    · rw [hfp2]
      exact hc6
    · rw [hfp2, hc3]
      simp
    · rw [hfp2, hc3]
      simp
    · rw [hfp2, hc3]
      simp
    · rw [hfp2]
      exact hc4
    · rw [hfp2]
      exact hc5
    · refine ⟨s.nextId, ?_, le_rfl, ?_, by omega, by omega, ?_⟩
      · rw [hfp1]
      · rw [hfp2, hc3]
        simp
      · intro cb hcb
        rw [hfp1] at hcb
        exact Option.noConfusion hcb
    · rw [hfp1]
  | true =>
    have hfp2 : (forPre id true s).2.2.2.2 =
        (emitConditionE false false ((((((s.createBasicBlock).2).emitBlockBr
          s.nextId).createBasicBlock).2.createBasicBlock).2.pushBC id
          (s.nextId + 2) (s.nextId + 1))).2 := by
      show (emitConditionE false false ((((((s.createBasicBlock).2).emitBlockBr
          s.nextId).createBasicBlock).2.createBasicBlock).2.pushBC id
          (((((((s.createBasicBlock).2).emitBlockBr
            s.nextId).createBasicBlock).2).createBasicBlock).1)
          (((((s.createBasicBlock).2).emitBlockBr
            s.nextId).createBasicBlock).1))).2 = _
      rw [harg1, harg2]
    have hfp1 : (forPre id true s).2.2.2.1 =
        (emitConditionE false false ((((((s.createBasicBlock).2).emitBlockBr
          s.nextId).createBasicBlock).2.createBasicBlock).2.pushBC id
          (s.nextId + 2) (s.nextId + 1))).1 := by
      show (emitConditionE false false ((((((s.createBasicBlock).2).emitBlockBr
          s.nextId).createBasicBlock).2.createBasicBlock).2.pushBC id
          (((((((s.createBasicBlock).2).emitBlockBr
            s.nextId).createBasicBlock).2).createBasicBlock).1)
          (((((s.createBasicBlock).2).emitBlockBr
            s.nextId).createBasicBlock).1))).1 = _
      rw [harg1, harg2]
    have hwchain : WFb ((((((s.createBasicBlock).2).emitBlockBr
        s.nextId).createBasicBlock).2.createBasicBlock).2.pushBC id
        (s.nextId + 2) (s.nextId + 1)) = true := (hc6 hwf).wf
    have hrec := emitConditionV_rec false false
      (((((((s.createBasicBlock).2).emitBlockBr
        s.nextId).createBasicBlock).2.createBasicBlock).2.pushBC id
        (s.nextId + 2) (s.nextId + 1)).appendInst .other)
    have hcontE : (emitConditionE false false ((((((s.createBasicBlock).2).emitBlockBr
        s.nextId).createBasicBlock).2.createBasicBlock).2.pushBC id
        (s.nextId + 2) (s.nextId + 1))).1.contBB = some (s.nextId + 3) := by
      rw [show (emitConditionE false false ((((((s.createBasicBlock).2).emitBlockBr
          s.nextId).createBasicBlock).2.createBasicBlock).2.pushBC id
          (s.nextId + 2) (s.nextId + 1))).1 =
        (emitConditionV false false (((((((s.createBasicBlock).2).emitBlockBr
          s.nextId).createBasicBlock).2.createBasicBlock).2.pushBC id
          (s.nextId + 2) (s.nextId + 1)).appendInst .other)).1 from rfl, hrec.1]
      simp [hc2]
    have htrueE : (emitConditionE false false ((((((s.createBasicBlock).2).emitBlockBr
        s.nextId).createBasicBlock).2.createBasicBlock).2.pushBC id
        (s.nextId + 2) (s.nextId + 1))).1.trueBB = some (s.nextId + 4) := by
      rw [show (emitConditionE false false ((((((s.createBasicBlock).2).emitBlockBr
          s.nextId).createBasicBlock).2.createBasicBlock).2.pushBC id
          (s.nextId + 2) (s.nextId + 1))).1 =
        (emitConditionV false false (((((((s.createBasicBlock).2).emitBlockBr
          s.nextId).createBasicBlock).2.createBasicBlock).2.pushBC id
          (s.nextId + 2) (s.nextId + 1)).appendInst .other)).1 from rfl, hrec.2.1]
      simp [hc2]
    refine ⟨rfl, by simp [forPre], by simp [forPre], ?_, ?_, ?_, ?_, ?_, ?_,
      ?_, ?_⟩
    · rw [hfp2]
      exact emitConditionE_ext false false hc6 hwf
    · rw [hfp2, ids_emitConditionE]
      refine List.mem_append_left _ ?_
      rw [hc3]
      simp
    · rw [hfp2, ids_emitConditionE]
      refine List.mem_append_left _ ?_
      rw [hc3]
      simp
    · rw [hfp2, ids_emitConditionE]
      refine List.mem_append_left _ ?_
      rw [hc3]
      simp
    · rw [hfp2]
      rw [getBlockD_emitConditionE_old false false (by rw [hc1]; simp)]
      exact hc4
    · rw [hfp2]
      rw [getBlockD_emitConditionE_old false false (by rw [hc1]; simp)]
      exact hc5
    · refine ⟨s.nextId + 4, ?_, by omega, ?_, by omega, by omega, ?_⟩
      · rw [hfp1]
        exact htrueE
      · rw [hfp2, ids_emitConditionE]
        refine List.mem_append_right _ ?_
        rw [hc2]
        simp
      · intro cb hcb
        rw [hfp1, hcontE] at hcb
        have := Option.some.inj hcb
        omega
    · refine Or.inr ⟨s.nextId + 3, ?_, by omega, ?_, ?_, by omega, by omega⟩
      · rw [hfp1]
        exact hcontE
      · rw [hfp2, ids_emitConditionE]
        refine List.mem_append_right _ ?_
        rw [hc2]
        simp
      · rw [hfp2]
        refine getBlockD_emitConditionE_fresh false false hwchain ?_
        rw [hc2]

/-- `forEachPre`, unrolled: the shared buffer slot is the fresh slot, the
loop header and end block are the next fresh ids, the condition record names
the two condition blocks, and the whole stage extends both the initial state
and the state just after the buffer allocation. -/
theorem forEachPre_facts (id : Nat) (hwf : WFb s = true) :
    (forEachPre id s).1 = s.nextSlot ∧
    (forEachPre id s).2.1 = s.nextId ∧
    (forEachPre id s).2.2.1 = s.nextId + 1 ∧
    Ext s ((forEachPre id s).2.2.2.2) ∧
    Ext (((s.allocSlot).2).appendInst (.allocStack s.nextSlot))
      ((forEachPre id s).2.2.2.2) ∧
    s.nextId ∈ ((forEachPre id s).2.2.2.2).ids ∧
    (s.nextId + 1) ∈ ((forEachPre id s).2.2.2.2).ids ∧
    ((forEachPre id s).2.2.2.2).getBlockD (s.nextId + 1) = [] ∧
    ((forEachPre id s).2.2.2.1).trueBB = some (s.nextId + 3) ∧
    (s.nextId + 3) ∈ ((forEachPre id s).2.2.2.2).ids ∧
    ((forEachPre id s).2.2.2.1).contBB = some (s.nextId + 2) ∧
    (s.nextId + 2) ∈ ((forEachPre id s).2.2.2.2).ids ∧
    ((forEachPre id s).2.2.2.2).getBlockD (s.nextId + 2) = [] ∧
    ((forEachPre id s).2.2.2.2).insPt = none := by
  have harg0 : (((((s.allocSlot).2).appendInst
      (.allocStack s.nextSlot)).createBasicBlock)).1 = s.nextId := by
    simp
  have harg1 : ((((((s.allocSlot).2).appendInst
      (.allocStack s.nextSlot)).createBasicBlock).2.emitBlockBr
        s.nextId).createBasicBlock).1 = s.nextId + 1 := by
    simp
  have hfp2 : (forEachPre id s).2.2.2.2 =
      (emitConditionV false false (((((((((s.allocSlot).2).appendInst
        (.allocStack s.nextSlot)).createBasicBlock).2.emitBlockBr
          s.nextId).createBasicBlock).2.pushBC id (s.nextId + 1)
            s.nextId).appendInst .other).appendInst .other)).2 := by
    show (emitConditionV false false (((((((((s.allocSlot).2).appendInst
        (.allocStack s.nextSlot)).createBasicBlock).2.emitBlockBr
          ((((((s.allocSlot).2).appendInst
            (.allocStack s.nextSlot)).createBasicBlock)).1)).createBasicBlock).2.pushBC
          id (((((((s.allocSlot).2).appendInst
            (.allocStack s.nextSlot)).createBasicBlock).2.emitBlockBr
              ((((((s.allocSlot).2).appendInst
                (.allocStack s.nextSlot)).createBasicBlock)).1)).createBasicBlock).1)
          ((((((s.allocSlot).2).appendInst
            (.allocStack s.nextSlot)).createBasicBlock)).1)).appendInst
              .other).appendInst .other)).2 = _
    rw [harg0, harg1]
  have hfp1 : (forEachPre id s).2.2.2.1 =
      (emitConditionV false false (((((((((s.allocSlot).2).appendInst
        (.allocStack s.nextSlot)).createBasicBlock).2.emitBlockBr
          s.nextId).createBasicBlock).2.pushBC id (s.nextId + 1)
            s.nextId).appendInst .other).appendInst .other)).1 := by
    show (emitConditionV false false (((((((((s.allocSlot).2).appendInst
        (.allocStack s.nextSlot)).createBasicBlock).2.emitBlockBr
          ((((((s.allocSlot).2).appendInst
            (.allocStack s.nextSlot)).createBasicBlock)).1)).createBasicBlock).2.pushBC
          id (((((((s.allocSlot).2).appendInst
            (.allocStack s.nextSlot)).createBasicBlock).2.emitBlockBr
              ((((((s.allocSlot).2).appendInst
                (.allocStack s.nextSlot)).createBasicBlock)).1)).createBasicBlock).1)
          ((((((s.allocSlot).2).appendInst
            (.allocStack s.nextSlot)).createBasicBlock)).1)).appendInst
              .other).appendInst .other)).1 = _
    rw [harg0, harg1]
  set chainN := (((((((((s.allocSlot).2).appendInst
    (.allocStack s.nextSlot)).createBasicBlock).2.emitBlockBr
      s.nextId).createBasicBlock).2.pushBC id (s.nextId + 1)
        s.nextId).appendInst .other).appendInst .other) with hchainN
  have hch_ip : chainN.insPt = some s.nextId := by
    rw [hchainN]
    simp
  have hch_nid : chainN.nextId = s.nextId + 2 := by
    rw [hchainN]
    simp
  have hch_ids : chainN.ids = s.ids ++ [s.nextId, s.nextId + 1] := by
    rw [hchainN]
    simp
  have hipa : (((s.allocSlot).2).appendInst (.allocStack s.nextSlot)).insPt =
      s.insPt := by
    simp
  have hipane : ((((s.allocSlot).2).appendInst
      (.allocStack s.nextSlot)).createBasicBlock).2.insPt ≠
        some (s.nextId + 1) := by
    rw [insPt_create, hipa]
    intro hc
    have := wf_insPt_lt hwf hc
    omega
  have hipb : ((s.allocSlot).2).insPt ≠ some (s.nextId + 1) := by
    show s.insPt ≠ some (s.nextId + 1)
    intro hc
    exact absurd (wf_insPt_lt hwf hc) (by omega)
  have hch_gb1 : chainN.getBlockD (s.nextId + 1) = [] := by
    rw [hchainN]
    rw [getBlockD_appendInst_ne (by simp),
      getBlockD_appendInst_ne (by simp), getBlockD_pushBC,
      getBlockD_create, getBlockD_emitBlockBr_ne hipane, getBlockD_create,
      getBlockD_appendInst_ne hipb, getBlockD_allocSlot]
    exact wf_getBlockD_big hwf (by omega)
  have hext : Ext s chainN := by
    rw [hchainN]
    refine (((((Ext.refl.slot.alloc le_rfl (by simp)).newBlock).emitBr
      (by simp) (by simp)).newBlock).push (by omega) le_rfl ?_ ?_ id).other.other
    · simp
    · simp
      omega
  have hextm : Ext (((s.allocSlot).2).appendInst (.allocStack s.nextSlot))
      chainN := by
    rw [hchainN]
    refine ((((Ext.refl.newBlock).emitBr (by simp) (by simp)).newBlock).push
      ?_ ?_ ?_ ?_ id).other.other
    · simp
    · simp
    · simp
    · simp
      omega
  have hwchain : WFb chainN = true := (hext hwf).wf
  have hrec := emitConditionV_rec false false chainN
  have hcontV : (emitConditionV false false chainN).1.contBB =
      some (s.nextId + 2) := by
    rw [hrec.1, hch_nid]
  have htrueV : (emitConditionV false false chainN).1.trueBB =
      some (s.nextId + 3) := by
    rw [hrec.2.1, hch_nid]
  refine ⟨rfl, by simp [forEachPre], by simp [forEachPre], ?_, ?_, ?_, ?_, ?_,
    ?_, ?_, ?_, ?_, ?_, ?_⟩
  · rw [hfp2]
    exact emitConditionV_ext false false hext hwf
  · rw [hfp2]
    intro hwfm
    exact (emitConditionV_ext false false hextm hwfm) hwfm
  · rw [hfp2, ids_emitConditionV]
    refine List.mem_append_left _ ?_
    rw [hch_ids]
    simp
  · rw [hfp2, ids_emitConditionV]
    refine List.mem_append_left _ ?_
    rw [hch_ids]
    simp
  · rw [hfp2]
    rw [getBlockD_emitConditionV_old false false (by rw [hch_ip]; simp)]
    exact hch_gb1
  · rw [hfp1]
    exact htrueV
  · rw [hfp2, ids_emitConditionV]
    refine List.mem_append_right _ ?_
    rw [hch_nid]
    simp
  · rw [hfp1]
    exact hcontV
  · rw [hfp2, ids_emitConditionV]
    refine List.mem_append_right _ ?_
    rw [hch_nid]
    simp
  · rw [hfp2]
    refine getBlockD_emitConditionV_fresh false false hwchain ?_
    rw [hch_nid]
  · rw [hfp2]
    exact insPt_emitConditionV false false chainN

theorem forEachBodyEntry_ext {cond : CondRec} (h : Ext s t) (hwf : WFb s = true)
    (hc : cond.trueBB = none ∨
      ∃ tb, cond.trueBB = some tb ∧ s.nextId ≤ tb ∧ tb ∈ t.ids) :
    Ext s (forEachBodyEntry cond t) :=
  (condEnterTrue_ext _ h hwf hc).other

theorem findBC_mem {stack : List (Nat × Nat × Nat)} {tgt b c : Nat}
    (h : findBC stack tgt = some (b, c)) :
    ∃ e ∈ stack, e.2.1 = b ∧ e.2.2 = c := by
  induction stack with
  | nil => exact absurd h (by rw [findBC]; exact fun hc => Option.noConfusion hc)
  | cons e rest ih =>
    obtain ⟨id0, b0, c0⟩ := e
    rw [findBC] at h
    by_cases he : id0 = tgt
    · rw [if_pos he] at h
      have h2 := Option.some.inj h
      rw [Prod.mk.injEq] at h2
      exact ⟨(id0, b0, c0), List.mem_cons_self _ _, h2.1, h2.2⟩
    · rw [if_neg he] at h
      obtain ⟨e2, he2, hh⟩ := ih h
      exact ⟨e2, List.mem_cons_of_mem _ he2, hh⟩

/-- Every statement lowering is an admissible extension of the state it is
given: counters grow, old blocks away from the insertion point are
untouched, protected branch counts, destroy counts and alloc counts of old
slots are unchanged, and well-formedness is preserved. -/
theorem visit_ext_pair :
    (∀ t s, Ext s (visitStmt t s)) ∧
    (∀ l k s, Ext s (visitBraceElts l k s)) := by
  apply visitStmt.mutual_induct
    (motive_1 := fun t s => Ext s (visitStmt t s))
    (motive_2 := fun l k s => Ext s (visitBraceElts l k s))
  · intro elts s ih
    exact ih
  · intro s
    exact Ext.refl.other
  · intro s
    exact Ext.refl.other
  · intro s
    exact Ext.refl
  · intro s
    intro hwf
    exact (Ext.refl.other.branch (Or.inr (Or.inr rfl))
      (by simpa using wf_rdest_lt hwf)) hwf
  · intro tgt s b c hf
    intro hwf
    have hstep : visitStmt (.breakS tgt) s = s.createBranch b := by
      simp [visitStmt, hf]
    rw [hstep]
    obtain ⟨e, he, hb, hc⟩ := findBC_mem hf
    refine (Ext.refl.branch (Or.inr (Or.inl ⟨e, he, Or.inl hb.symm⟩)) ?_) hwf
    rw [← hb]
    exact (wf_stack_lt hwf he).1
  · intro tgt s hf
    have hstep : visitStmt (.breakS tgt) s = s := by
      simp [visitStmt, hf]
    rw [hstep]
    exact Ext.refl
  · intro tgt s b c hf
    intro hwf
    have hstep : visitStmt (.continueS tgt) s = s.createBranch c := by
      simp [visitStmt, hf]
    rw [hstep]
    obtain ⟨e, he, hb, hc⟩ := findBC_mem hf
    refine (Ext.refl.branch (Or.inr (Or.inl ⟨e, he, Or.inr hc.symm⟩)) ?_) hwf
    rw [← hc]
    exact (wf_stack_lt hwf he).2
  · intro tgt s hf
    have hstep : visitStmt (.continueS tgt) s = s := by
      simp [visitStmt, hf]
    rw [hstep]
    exact Ext.refl
  · -- if without else
    intro cond th s cbs s1 hpre ih
    intro hwf
    obtain ⟨hp1, hp2, hp3, hp4⟩ := ifPre_ext cond hwf
    rw [hpre] at hp1 hp2 hp3 hp4
    have hp1' : Ext s s1 := hp1
    have hwf1 : WFb s1 = true := (hp1' hwf).wf
    have hext1 : Ext s (visitStmt th s1) := Ext.trans hp1' ih
    have hc1 := ih hwf1
    have hstep : visitStmt (.ifS cond th none) s =
        ifNoElseFinish cbs (visitStmt th s1) := by
      simp [visitStmt, hpre]
    rw [hstep]
    refine (ifNoElseFinish_ext hext1 ?_ hp3) hwf
    intro c2 hc2
    exact ⟨(hp2 c2 hc2).1, hc1.keep c2 (hp2 c2 hc2).2⟩
  · -- if with else
    intro cond th el s cbs s1 hpre contBB s2 hmid ih1 ih2
    intro hwf
    obtain ⟨hp1, hp2, hp3, hp4⟩ := ifPre_ext cond hwf
    rw [hpre] at hp1 hp2 hp3 hp4
    have hp1' : Ext s s1 := hp1
    have hwf1 : WFb s1 = true := (hp1' hwf).wf
    have hext1 : Ext s (visitStmt th s1) := Ext.trans hp1' ih1
    have hwfv1 : WFb (visitStmt th s1) = true := (hext1 hwf).wf
    have hc1 := ih1 hwf1
    have hcbs1 : ∀ c2 ∈ cbs, s.nextId ≤ c2 ∧ c2 ∈ (visitStmt th s1).ids :=
      fun c2 hc2 => ⟨(hp2 c2 hc2).1, hc1.keep c2 (hp2 c2 hc2).2⟩
    have hmid_ext : Ext s s2 := by
      have := ifElseMid_ext hext1 hcbs1
      rw [hmid] at this
      exact this
    have hmf := ifElseMid_facts hwfv1 hp3
    rw [hmid] at hmf
    have hm1 : contBB = (visitStmt th s1).nextId := hmf.1
    have hm2 : s2.insPt = some (cbs.getLastD 0) := hmf.2.1
    have hm3 : (visitStmt th s1).nextId ∈ s2.ids := hmf.2.2.1
    have hm4 : s2.getBlockD ((visitStmt th s1).nextId) = [] := hmf.2.2.2.1
    have hm5 : s2.nextId = (visitStmt th s1).nextId + 1 := hmf.2.2.2.2
    have hwf2 : WFb s2 = true := (hmid_ext hwf).wf
    have hext2 : Ext s (visitStmt el s2) := Ext.trans hmid_ext ih2
    have hc2 := ih2 hwf2
    have hstep : visitStmt (.ifS cond th (some el)) s =
        ifElseFinish contBB (visitStmt el s2) := by
      simp [visitStmt, hpre, hmid]
    rw [hstep]
    have hlastlt : cbs.getLastD 0 < (visitStmt th s1).nextId :=
      wf_block_lt hwfv1 (hcbs1 _ (getLastD_mem hp3 0)).2
    have hipne2 : s2.insPt ≠ some contBB := by
      rw [hm2, hm1]
      intro hcon
      have := Option.some.inj hcon
      omega
    have hlt2 : contBB < s2.nextId := by
      rw [hm1, hm5]
      omega
    refine (ifElseFinish_ext hext2 ?_ ?_ ?_ ?_) hwf
    · rw [hm1]
      exact (hext1 hwf).nid
    · rw [hm1]
      exact hc2.keep _ hm3
    · rw [hm1]
      exact ext_frozen_nil hc2 hm3 (hm1 ▸ hipne2) hm4
    · exact ext_ip_ne hc2 hlt2 hipne2
  · -- while
    intro id cond body s loopBB cbs sb hpre ih
    intro hwf
    obtain ⟨hw1, hw2, hw3, hw4, hw5⟩ := whilePre_ext id cond hwf
    rw [hpre] at hw1 hw2 hw3 hw4 hw5
    have hw1' : Ext s sb := hw1
    have hw2' : loopBB = s.nextId := hw2
    have hwfb : WFb sb = true := (hw1' hwf).wf
    have hext1 : Ext s (visitStmt body sb) := Ext.trans hw1' ih
    have hcb := ih hwfb
    have hstep : visitStmt (.whileS id cond body) s =
        whilePost loopBB cbs (visitStmt body sb) := by
      simp [visitStmt, hpre]
    rw [hstep]
    have hmeml : loopBB ∈ sb.ids := by
      rw [hw2']
      exact hw5
    refine (whilePost_ext hext1 (Or.inl (le_of_eq hw2'.symm))
      (hcb.keep _ hmeml) ?_) hwf
    intro c2 hc2
    exact ⟨(hw3 c2 hc2).1, hcb.keep c2 (hw3 c2 hc2).2⟩
  · -- do-while
    intro id body s loopBB endBB condBB sb hpre ih
    intro hwf
    have hdf := doWhilePre_facts id hwf
    rw [hpre] at hdf
    obtain ⟨hd1, hd2, hd3, hd4, hd5, hd6, hd7, hd8, hd9⟩ := hdf
    have hd1' : loopBB = s.nextId := hd1
    have hd2' : endBB = s.nextId + 1 := hd2
    have hd3' : condBB = s.nextId + 2 := hd3
    have hd4' : sb.insPt = some s.nextId := hd4
    have hd5' : sb.nextId = s.nextId + 3 := hd5
    have hd6' : sb.ids = s.ids ++ [s.nextId, s.nextId + 1, s.nextId + 2] := hd6
    have hd7' : sb.getBlockD (s.nextId + 1) = [] := hd7
    have hd8' : sb.getBlockD (s.nextId + 2) = [] := hd8
    have hd9' : Ext s sb := hd9
    have hwfb : WFb sb = true := (hd9' hwf).wf
    have hext1 : Ext s (visitStmt body sb) := Ext.trans hd9' ih
    have hcb := ih hwfb
    have hstep : visitStmt (.doWhileS id body) s =
        doWhilePost loopBB endBB condBB (visitStmt body sb) := by
      simp [visitStmt, hpre]
    rw [hstep]
    have hmemc : condBB ∈ sb.ids := by
      rw [hd3', hd6']
      simp
    have hmeme : endBB ∈ sb.ids := by
      rw [hd2', hd6']
      simp
    have hmeml : loopBB ∈ sb.ids := by
      rw [hd1', hd6']
      simp
    have hipc : sb.insPt ≠ some condBB := by
      rw [hd4']
      intro hcon
      have := Option.some.inj hcon
      omega
    have hipe : sb.insPt ≠ some endBB := by
      rw [hd4']
      intro hcon
      have := Option.some.inj hcon
      omega
    refine (doWhilePost_ext hext1 hwf (Or.inl (le_of_eq hd1'.symm))
      (hcb.keep _ hmeml) (by omega) (by omega) (hcb.keep _ hmemc) ?_ ?_
      (by omega) (hcb.keep _ hmeme) ?_ ?_ (by omega)) hwf
    · refine ext_frozen_nil hcb hmemc hipc ?_
      rw [hd3']
      exact hd8'
    · refine ext_ip_ne hcb ?_ hipc
      exact wf_block_lt hwfb hmemc
    · refine ext_frozen_nil hcb hmeme hipe ?_
      rw [hd2']
      exact hd7'
    · refine ext_ip_ne hcb ?_ hipe
      exact wf_block_lt hwfb hmeme
  · -- for, dead entry
    intro id hasInit hasCond hasIncr body s s0 hip
    intro hwf
    have hstep : visitStmt (.forS id hasInit hasCond hasIncr body) s = s0 := by
      simp only [visitStmt]
      rw [if_pos hip]
    rw [hstep]
    exact (forInit_ext hasInit) hwf
  · -- for, with condition true edge
    intro id hasInit hasCond hasIncr body s s0 hip loopBB incBB endBB cond sb
      hpre htrue ih
    intro hwf
    have hext0 : Ext s s0 := forInit_ext hasInit
    have hwf0 : WFb s0 = true := (hext0 hwf).wf
    have hff := forPre_facts id hasCond hwf0
    rw [hpre] at hff
    obtain ⟨hf1, hf2, hf3, hf4, hf5, hf6, hf7, hf8, hf9, hf10, hf11⟩ := hff
    have hf1' : loopBB = s0.nextId := hf1
    have hf2' : incBB = s0.nextId + 1 := hf2
    have hf3' : endBB = s0.nextId + 2 := hf3
    have hf4' : Ext s0 sb := hf4
    have hf5' : s0.nextId ∈ sb.ids := hf5
    have hf6' : (s0.nextId + 1) ∈ sb.ids := hf6
    have hf7' : (s0.nextId + 2) ∈ sb.ids := hf7
    have hf8' : sb.getBlockD (s0.nextId + 1) = [] := hf8
    have hf9' : sb.getBlockD (s0.nextId + 2) = [] := hf9
    obtain ⟨tb, htb, htbge, htbmem, htbne1, htbne2, htbnc⟩ := hf10
    have htb' : cond.trueBB = some tb := htb
    have hwfsb : WFb sb = true := (hf4' hwf0).wf
    have hextE : Ext s0 (condEnterTrue cond sb) :=
      condEnterTrue_ext _ hf4' hwf0 (Or.inr ⟨tb, htb', htbge, htbmem⟩)
    have hwfE : WFb (condEnterTrue cond sb) = true := (hextE hwf0).wf
    have hextB : Ext s0 (visitStmt body (condEnterTrue cond sb)) :=
      Ext.trans hextE ih
    have hcB := ih hwfE
    have hipE : (condEnterTrue cond sb).insPt = some tb :=
      insPt_condEnterTrue_some htb'
    have hidsE : (condEnterTrue cond sb).ids = sb.ids := ids_condEnterTrue _
    have hstep : visitStmt (.forS id hasInit hasCond hasIncr body) s =
        forPost loopBB incBB endBB cond hasIncr
          (visitStmt body (condEnterTrue cond sb)) := by
      simp only [visitStmt]
      rw [if_neg hip, hpre]
      simp only [htrue, if_pos]
    rw [hstep]
    have hipEi : (condEnterTrue cond sb).insPt ≠ some incBB := by
      rw [hipE]
      intro hcon
      have := Option.some.inj hcon
      omega
    have hipEe : (condEnterTrue cond sb).insPt ≠ some endBB := by
      rw [hipE]
      intro hcon
      have := Option.some.inj hcon
      omega
    have hmemEi : incBB ∈ (condEnterTrue cond sb).ids := by
      rw [hidsE, hf2']
      exact hf6'
    have hmemEe : endBB ∈ (condEnterTrue cond sb).ids := by
      rw [hidsE, hf3']
      exact hf7'
    have hmemEl : loopBB ∈ (condEnterTrue cond sb).ids := by
      rw [hidsE, hf1']
      exact hf5'
    refine (Ext.trans hext0 (forPost_ext hasIncr hextB hwf0
      (Or.inl (le_of_eq hf1'.symm)) (hcB.keep _ hmemEl) (by omega) (by omega)
      (hcB.keep _ hmemEi) ?_ ?_ (by omega) (hcB.keep _ hmemEe) ?_ ?_
      (by omega) ?_)) hwf
    · refine ext_frozen_nil hcB hmemEi hipEi ?_
      rw [getBlockD_condEnterTrue, hf2']
      exact hf8'
    · exact ext_ip_ne hcB (wf_block_lt hwfE hmemEi) hipEi
    · refine ext_frozen_nil hcB hmemEe hipEe ?_
      rw [getBlockD_condEnterTrue, hf3']
      exact hf9'
    · exact ext_ip_ne hcB (wf_block_lt hwfE hmemEe) hipEe
    · rcases hf11 with hc | ⟨cb, hcb, hcbge, hcbmem, hcbnil, hcbne1, hcbne2⟩
      · exact Or.inl hc
      · have hcb' : cond.contBB = some cb := hcb
        have hipEc : (condEnterTrue cond sb).insPt ≠ some cb := by
          rw [hipE]
          intro hcon
          exact htbnc cb hcb' (Option.some.inj hcon)
        have hmemEc : cb ∈ (condEnterTrue cond sb).ids := by
          rw [hidsE]
          exact hcbmem
        refine Or.inr ⟨cb, hcb', hcbge, hcB.keep _ hmemEc, ?_, ?_, ?_, ?_⟩
        · refine ext_frozen_nil hcB hmemEc hipEc ?_
          rw [getBlockD_condEnterTrue]
          exact hcbnil
        · exact ext_ip_ne hcB (wf_block_lt hwfE hmemEc) hipEc
        · omega
        · omega
  · -- for, no true edge (cannot happen: the condition always has one)
    intro id hasInit hasCond hasIncr body s s0 hip loopBB incBB endBB cond sb
      hpre hfalse
    intro hwf
    have hext0 : Ext s s0 := forInit_ext hasInit
    have hwf0 : WFb s0 = true := (hext0 hwf).wf
    have hff := forPre_facts id hasCond hwf0
    rw [hpre] at hff
    obtain ⟨tb, htb, _⟩ := hff.2.2.2.2.2.2.2.2.2.1
    have htb' : cond.trueBB = some tb := htb
    exact absurd (by rw [htb']; rfl) hfalse
  · -- for-each, dead entry
    intro id body s s0 hip
    intro hwf
    have hstep : visitStmt (.forEachS id body) s = s0 := by
      simp only [visitStmt]
      rw [if_pos hip]
    rw [hstep]
    exact (Ext.refl.other) hwf
  · -- for-each, with condition true edge
    intro id body s s0 hip nextBuf loopBB endBB cond sb hpre htrue ih
    intro hwf
    have hext0 : Ext s s0 := Ext.refl.other
    have hwf0 : WFb s0 = true := (hext0 hwf).wf
    have hef := forEachPre_facts id hwf0
    rw [hpre] at hef
    obtain ⟨he1, he2, he3, he4, he5, he6, he7, he8, he9, he10, he11, he12,
      he13, he14⟩ := hef
    have he2' : loopBB = s0.nextId := he2
    have he3' : endBB = s0.nextId + 1 := he3
    have he4' : Ext s0 sb := he4
    have he6' : s0.nextId ∈ sb.ids := he6
    have he7' : (s0.nextId + 1) ∈ sb.ids := he7
    have he8' : sb.getBlockD (s0.nextId + 1) = [] := he8
    have he9' : cond.trueBB = some (s0.nextId + 3) := he9
    have he10' : (s0.nextId + 3) ∈ sb.ids := he10
    have he11' : cond.contBB = some (s0.nextId + 2) := he11
    have he12' : (s0.nextId + 2) ∈ sb.ids := he12
    have he13' : sb.getBlockD (s0.nextId + 2) = [] := he13
    have hwfsb : WFb sb = true := (he4' hwf0).wf
    have hextE : Ext s0 (forEachBodyEntry cond sb) :=
      forEachBodyEntry_ext he4' hwf0
        (Or.inr ⟨s0.nextId + 3, he9', by omega, he10'⟩)
    have hwfE : WFb (forEachBodyEntry cond sb) = true := (hextE hwf0).wf
    have hextB : Ext s0 (visitStmt body (forEachBodyEntry cond sb)) :=
      Ext.trans hextE ih
    have hcB := ih hwfE
    have hipE : (forEachBodyEntry cond sb).insPt = some (s0.nextId + 3) := by
      show ((condEnterTrue cond sb).appendInst .other).insPt = _
      rw [insPt_appendInst, insPt_condEnterTrue_some he9']
    have hidsE : (forEachBodyEntry cond sb).ids = sb.ids := by
      show ((condEnterTrue cond sb).appendInst .other).ids = _
      rw [ids_appendInst, ids_condEnterTrue]
    have hgbE : ∀ b2, b2 ≠ s0.nextId + 3 →
        (forEachBodyEntry cond sb).getBlockD b2 = sb.getBlockD b2 := by
      intro b2 hb2
      show ((condEnterTrue cond sb).appendInst .other).getBlockD b2 = _
      rw [getBlockD_appendInst_ne (by
        rw [insPt_condEnterTrue_some he9']
        intro hcon
        exact hb2 (Option.some.inj hcon).symm), getBlockD_condEnterTrue]
    have hstep : visitStmt (.forEachS id body) s =
        forEachPost loopBB endBB cond
          (visitStmt body (forEachBodyEntry cond sb)) := by
      simp only [visitStmt]
      rw [if_neg hip, hpre]
      simp only [htrue, if_pos]
    rw [hstep]
    have hipEe : (forEachBodyEntry cond sb).insPt ≠ some endBB := by
      rw [hipE]
      intro hcon
      have := Option.some.inj hcon
      omega
    have hmemEe : endBB ∈ (forEachBodyEntry cond sb).ids := by
      rw [hidsE, he3']
      exact he7'
    have hmemEl : loopBB ∈ (forEachBodyEntry cond sb).ids := by
      rw [hidsE, he2']
      exact he6'
    have hipEc : (forEachBodyEntry cond sb).insPt ≠ some (s0.nextId + 2) := by
      rw [hipE]
      intro hcon
      have := Option.some.inj hcon
      omega
    have hmemEc : (s0.nextId + 2) ∈ (forEachBodyEntry cond sb).ids := by
      rw [hidsE]
      exact he12'
    refine (Ext.trans hext0 (forEachPost_ext hextB hwf0
      (Or.inl (le_of_eq he2'.symm)) (hcB.keep _ hmemEl) (by omega)
      (hcB.keep _ hmemEe) ?_ ?_ ?_)) hwf
    · refine ext_frozen_nil hcB hmemEe hipEe ?_
      rw [hgbE endBB (by omega), he3']
      exact he8'
    · exact ext_ip_ne hcB (wf_block_lt hwfE hmemEe) hipEe
    · refine Or.inr ⟨s0.nextId + 2, he11', by omega, hcB.keep _ hmemEc,
        ?_, ?_, by omega⟩
      · refine ext_frozen_nil hcB hmemEc hipEc ?_
        rw [hgbE _ (by omega)]
        exact he13'
      · exact ext_ip_ne hcB (wf_block_lt hwfE hmemEc) hipEc
  · -- for-each, no true edge (cannot happen)
    intro id body s s0 hip nextBuf loopBB endBB cond sb hpre hfalse
    intro hwf
    have hext0 : Ext s s0 := Ext.refl.other
    have hwf0 : WFb s0 = true := (hext0 hwf).wf
    have hef := forEachPre_facts id hwf0
    rw [hpre] at hef
    have he9' : cond.trueBB = some (s0.nextId + 3) := hef.2.2.2.2.2.2.2.2.1
    exact absurd (by rw [he9']; rfl) hfalse
  · intro k s
    exact Ext.refl
  · intro e rest stype s hcfg ih
    have hstep : visitBraceElts (e :: rest) stype s =
        visitBraceElts rest stype s := by
      simp [visitBraceElts, hcfg]
    rw [hstep]
    exact ih
  · intro e rest stype s hcfg hipv ih1 ih2
    have hstep : visitBraceElts (e :: rest) stype s =
        visitBraceElts rest (updStmtType e stype) (visitStmt e s) := by
      simp [visitBraceElts, hcfg, hipv]
    rw [hstep]
    exact Ext.trans ih1 ih2
  · intro e rest stype s hcfg hipv
    have hstep : visitBraceElts (e :: rest) stype s =
        { s with diags := s.diags ++ [classifyDiag stype] } := by
      simp [visitBraceElts, hcfg, hipv]
    rw [hstep]
    exact Ext.refl.diag _

/-- `visitStmt` is an admissible extension of its input state. -/
theorem visit_ext (t : Stmt) (s : SGState) : Ext s (visitStmt t s) :=
  visit_ext_pair.1 t s

/-- `visitBraceElts` is an admissible extension of its input state. -/
theorem visitBraceElts_ext (l : List Stmt) (k : Nat) (s : SGState) :
    Ext s (visitBraceElts l k s) :=
  visit_ext_pair.2 l k s

end StageLemmas

/-! ## The cleanup-block chain of `emitStmtCondition` -/

section ChainLemmas

variable {s t : SGState} {b c d k : Nat}

theorem ChainOK.ne_nil {acc done : List Nat} (h : ChainOK s acc done) :
    acc ≠ [] := by
  cases h with
  | base0 b hb => simp
  | base1 b k hb => simp
  | step b k bs ks hprev hb => simp

theorem ChainOK.mono {acc done : List Nat} (h : ChainOK s acc done)
    (heq : ∀ cb ∈ acc, t.getBlockD cb = s.getBlockD cb) :
    ChainOK t acc done := by
  induction h with
  | base0 b hb =>
    exact ChainOK.base0 b (by rw [heq b (by simp)]; exact hb)
  | base1 b k hb =>
    exact ChainOK.base1 b k (by rw [heq b (by simp)]; exact hb)
  | step b k bs ks hprev hb ih =>
    refine ChainOK.step b k bs ks (ih ?_) ?_
    · intro cb hcb
      exact heq cb (List.mem_append_left _ hcb)
    · rw [heq b (List.mem_append_right _ (by simp))]
      exact hb

theorem ChainOK.done_nil {acc done : List Nat} (h : ChainOK s acc done)
    (hd : done = []) : ∃ b2, acc = [b2] ∧ s.getBlockD b2 = [] := by
  induction h with
  | base0 b2 hb => exact ⟨b2, rfl, hb⟩
  | base1 b2 k2 hb => exact absurd hd (by simp)
  | step b2 k2 bs ks hprev hb ih => exact absurd hd (by simp)

theorem ChainOK.nil_done_content (h : ChainOK s [b] []) :
    s.getBlockD b = [] := by
  obtain ⟨b2, hb2, hc⟩ := h.done_nil rfl
  have : b = b2 := by
    have := List.cons.injEq .. ▸ hb2
    simpa using hb2
  rw [this]
  exact hc

theorem ChainOK.blocks_trace {acc done : List Nat} (h : ChainOK s acc done) :
    chainBlocks s acc.length (acc.getLastD 0) = acc.reverse ∧
    chainTrace s acc.length (acc.getLastD 0) = done.reverse := by
  induction h with
  | base0 b hb =>
    constructor
    · simp [chainBlocks, hb]
    · simp [chainTrace, hb, destroysOf]
  | base1 b k hb =>
    constructor
    · simp [chainBlocks, hb]
    · simp [chainTrace, hb, destroysOf]
  | step b k bs ks hprev hb ih =>
    have hl : (bs ++ [b]).length = bs.length + 1 := by simp
    have hlast : (bs ++ [b]).getLastD 0 = b := List.getLastD_concat _ _ _
    rw [hl, hlast]
    constructor
    · rw [chainBlocks]
      rw [hb]
      show b :: chainBlocks s bs.length (bs.getLastD 0) = _
      rw [ih.1]
      simp
    · rw [chainTrace]
      rw [hb]
      show destroysOf [.destroyAddr k, .br (bs.getLastD 0)] ++
        chainTrace s bs.length (bs.getLastD 0) = _
      rw [ih.2]
      simp [destroysOf]

theorem destroyCount_createCondBranch (hwt : WFb s = true) (c2 d2 : Nat) :
    (s.createCondBranch c2 d2).destroyCount k = s.destroyCount k := by
  show ((s.appendInst _).clearIP).destroyCount k = _
  rw [destroyCount_clearIP,
    destroyCount_appendInst (wf_nodup hwt) (fun b2 hb2 => wf_insPt_mem hwt hb2)]
  simp

theorem destroyCount_other (hwt : WFb s = true) :
    (s.appendInst .other).destroyCount k = s.destroyCount k := by
  rw [destroyCount_appendInst (wf_nodup hwt) (fun b2 hb2 => wf_insPt_mem hwt hb2)]
  simp

theorem targetCount_other (hwt : WFb s = true) :
    (s.appendInst .other).targetCount b = s.targetCount b := by
  rw [targetCount_appendInst (wf_nodup hwt) (fun b2 hb2 => wf_insPt_mem hwt hb2)]
  simp

theorem targetCount_condBr_false (hwt : WFb s = true)
    (hips : s.insPt.isSome = true) (hne : c ≠ d) :
    (s.createCondBranch c d).targetCount d = s.targetCount d + 1 := by
  show ((s.appendInst _).clearIP).targetCount d = _
  rw [targetCount_clearIP,
    targetCount_appendInst (wf_nodup hwt) (fun b2 hb2 => wf_insPt_mem hwt hb2)]
  rw [instHits_condBr, if_neg hne, if_pos rfl, if_pos hips]

/-- The chain invariant of the `emitStmtCondition` loop: the accumulated
cleanup blocks always form a well-shaped destroy chain, the slot of every
processed binding has been destroyed exactly once, the remaining buffers are
untouched, and at the end the chain covers exactly the processed bindings in
order. -/
theorem escGo_chainInv (cond : List CondElt) (bufs acc consumed : List Nat)
    {t : SGState} (hwt : WFb t = true)
    (hip : ∃ p, t.insPt = some p ∧ p ∉ acc)
    (hlen : countB cond ≤ bufs.length)
    (hbufs : ∀ k2 ∈ bufs, k2 < t.nextSlot ∧ t.destroyCount k2 = 0)
    (hcons : ∀ k2 ∈ consumed, t.destroyCount k2 = 1)
    (hnd : (consumed ++ bufs).Nodup)
    (hacc : ∀ cb ∈ acc, cb ∈ t.ids)
    (hchain : ChainOK t acc consumed)
    (hcnt : (consumed = [] ∧ ∃ b2, acc = [b2]) ∨
      1 ≤ t.targetCount (acc.getLastD 0)) :
    ChainOK ((escGo cond bufs acc t).2) (((escGo cond bufs acc t).1).reverse)
      (consumed ++ bufs.take (countB cond)) ∧
    (∀ k2 ∈ consumed ++ bufs.take (countB cond),
      ((escGo cond bufs acc t).2).destroyCount k2 = 1) := by
  induction cond generalizing bufs acc consumed t with
  | nil =>
    have h1 : consumed ++ bufs.take (countB ([] : List CondElt)) = consumed := by
      simp [countB]
    rw [h1]
    constructor
    · show ChainOK t ((acc.reverse).reverse) consumed
      rw [List.reverse_reverse]
      exact hchain
    · intro k2 hk2
      exact hcons k2 hk2
  | cons e rest ih =>
    obtain ⟨p, hp, hpacc⟩ := hip
    have hpmem : p ∈ t.ids := wf_insPt_mem hwt hp
    have hplt : p < t.nextId := wf_insPt_lt hwt hp
    have hback : acc.getLastD 0 ∈ t.ids := hacc _ (getLastD_mem hchain.ne_nil 0)
    have hbacklt := wf_block_lt hwt hback
    have hacclt : ∀ cb ∈ acc, cb < t.nextId :=
      fun cb hcb => wf_block_lt hwt (hacc cb hcb)
    cases e with
    | boolean =>
      set t1 := (t.appendInst .other) with ht1
      set t4 := (((t1.createBasicBlock).2).createCondBranch
          ((t1.createBasicBlock).1) (acc.getLastD 0)).emitBlockNoBr
          ((t1.createBasicBlock).1) with ht4
      have hstep : escGo (CondElt.boolean :: rest) bufs acc t =
          escGo rest bufs acc t4 := rfl
      rw [hstep]
      have hw1 : WFb t1 = true := WFb_other hwt
      have ht1ip : t1.insPt = some p := by rw [ht1, insPt_appendInst, hp]
      have ht1n : t1.nextId = t.nextId := by rw [ht1]; simp
      have hwc : WFb ((t1.createBasicBlock).2) = true := WFb_create hw1
      have hw4 : WFb t4 = true := by
        rw [ht4]
        refine WFb_emitBlockNoBr (WFb_createCondBranch hwc ?_ ?_) ?_
        · rw [create_fst]
          simp [ht1n]
        · rw [nextId_create, ht1n]
          omega
        · simp
      have ht4slot : t4.nextSlot = t.nextSlot := by rw [ht4, ht1]; simp
      have ht4ids : t4.ids = t.ids ++ [t.nextId] := by rw [ht4, ht1]; simp
      have ht4ip : t4.insPt = some t.nextId := by
        rw [ht4, create_fst, ht1n]
        rfl
      have hgb : ∀ cb ∈ acc, t4.getBlockD cb = t.getBlockD cb := by
        intro cb hcb
        have hcbt : t.insPt ≠ some cb := by
          rw [hp]
          intro hcon
          exact hpacc ((Option.some.inj hcon) ▸ hcb)
        have hcb1 : t1.insPt ≠ some cb := by
          rw [ht1ip]
          intro hcon
          exact hpacc ((Option.some.inj hcon) ▸ hcb)
        have hcbc : ((t1.createBasicBlock).2).insPt ≠ some cb := by
          rw [insPt_create]
          exact hcb1
        rw [ht4, getBlockD_emitBlockNoBr, getBlockD_createCondBranch_ne hcbc,
          getBlockD_create, ht1, getBlockD_appendInst_ne hcbt]
      have hdc4 : ∀ k2, t4.destroyCount k2 = t.destroyCount k2 := by
        intro k2
        rw [ht4, destroyCount_emitBlockNoBr,
          destroyCount_createCondBranch hwc _ _, destroyCount_create, ht1,
          destroyCount_other hwt]
      have hne4 : (t1.createBasicBlock).1 ≠ acc.getLastD 0 := by
        rw [create_fst, ht1n]
        omega
      have hsome : ((t1.createBasicBlock).2).insPt.isSome = true := by
        rw [insPt_create, ht1ip]
        rfl
      have htc4 : t4.targetCount (acc.getLastD 0) =
          t.targetCount (acc.getLastD 0) + 1 := by
        rw [ht4, targetCount_emitBlockNoBr,
          targetCount_condBr_false hwc hsome hne4, targetCount_create, ht1,
          targetCount_other hwt]
      have hpn : t.nextId ∉ acc := fun hc => absurd (hacclt _ hc) (lt_irrefl _)
      exact ih bufs acc consumed hw4 ⟨t.nextId, ht4ip, hpn⟩
        (by simpa [countB] using hlen)
        (fun k2 hk2 => ⟨by rw [ht4slot]; exact (hbufs k2 hk2).1,
          by rw [hdc4]; exact (hbufs k2 hk2).2⟩)
        (fun k2 hk2 => by rw [hdc4]; exact hcons k2 hk2)
        hnd
        (fun cb hcb => by rw [ht4ids]; exact List.mem_append_left _ (hacc cb hcb))
        (hchain.mono hgb)
        (Or.inr (by rw [htc4]; omega))
    | binding =>
      have hbne : bufs ≠ [] := by
        intro hcon
        rw [hcon] at hlen
        simp [countB] at hlen
      cases bufs with
      | nil => exact absurd rfl hbne
      | cons k0 bt =>
      have hk0 := hbufs k0 (List.mem_cons_self _ _)
      set t2 := ((t.appendInst .other).appendInst .other) with ht2
      have hw2 : WFb t2 = true := by
        rw [ht2]
        exact WFb_other (WFb_other hwt)
      have ht2ip : t2.insPt = some p := by
        rw [ht2, insPt_appendInst, insPt_appendInst, hp]
      have ht2n : t2.nextId = t.nextId := by rw [ht2]; simp
      have ht2slot : t2.nextSlot = t.nextSlot := by rw [ht2]; simp
      have ht2ids : t2.ids = t.ids := by rw [ht2]; simp
      have hdc2 : ∀ k2, t2.destroyCount k2 = t.destroyCount k2 := by
        intro k2
        rw [ht2, destroyCount_other (WFb_other hwt), destroyCount_other hwt]
      have htc2 : ∀ b2, t2.targetCount b2 = t.targetCount b2 := by
        intro b2
        rw [ht2, targetCount_other (WFb_other hwt), targetCount_other hwt]
      have hgb2 : ∀ cb ∈ acc, t2.getBlockD cb = t.getBlockD cb := by
        intro cb hcb
        have hcbt : t.insPt ≠ some cb := by
          rw [hp]
          intro hcon
          exact hpacc ((Option.some.inj hcon) ▸ hcb)
        have hcbt1 : (t.appendInst .other).insPt ≠ some cb := by
          rw [insPt_appendInst]
          exact hcbt
        rw [ht2, getBlockD_appendInst_ne hcbt1, getBlockD_appendInst_ne hcbt]
      set t3p := t2.prependTo (acc.getLastD 0) (.destroyAddr ((k0 :: bt).headD 0))
        with ht3p
      set t6 := (((t3p.createBasicBlock).2).createCondBranch
          ((t3p.createBasicBlock).1) (acc.getLastD 0)).emitBlockNoBr
          ((t3p.createBasicBlock).1) with ht6
      set fd := (t2.createBasicBlock).1 with hfd
      set t3 := ((t2.createBasicBlock).2).appendTo fd (.br (acc.getLastD 0))
        with ht3
      set t4 := t3.prependTo fd (.destroyAddr ((k0 :: bt).headD 0)) with ht4
      set t7 := (((t4.createBasicBlock).2).createCondBranch
          ((t4.createBasicBlock).1) ((acc ++ [fd]).getLastD 0)).emitBlockNoBr
          ((t4.createBasicBlock).1) with ht7
      have hunfold : escGo (CondElt.binding :: rest) (k0 :: bt) acc t =
          if t2.predEmpty (acc.getLastD 0) = true
          then escGo rest (k0 :: bt).tail acc t6
          else escGo rest (k0 :: bt).tail (acc ++ [fd]) t7 := rfl
      rw [hunfold]
      have hhead : (k0 :: bt).headD 0 = k0 := rfl
      have hnddisj := List.nodup_append.1 hnd
      have hk0bt : k0 ∉ bt := (List.nodup_cons.1 hnddisj.2.1).1
      have hk0nc : ∀ k2 ∈ consumed, k2 ≠ k0 := by
        intro k2 hk2 hcon
        exact (hnddisj.2.2 hk2) (by rw [hcon]; exact List.mem_cons_self _ _)
      by_cases hpe : t2.predEmpty (acc.getLastD 0) = true
      · rw [if_pos hpe]
        have hc0 : consumed = [] ∧ ∃ b2, acc = [b2] := by
          rcases hcnt with hc | hc
          · exact hc
          · exfalso
            have hteq := htc2 (acc.getLastD 0)
            unfold SGState.predEmpty at hpe
            rw [hteq] at hpe
            cases hcnt2 : t.targetCount (acc.getLastD 0) with
            | zero => omega
            | succ n =>
              rw [hcnt2] at hpe
              exact Bool.noConfusion hpe
        obtain ⟨hc0a, b2, hc0b⟩ := hc0
        subst hc0a
        subst hc0b
        have hcontent : t.getBlockD b2 = [] := hchain.nil_done_content
        have hlastb2 : ([b2] : List Nat).getLastD 0 = b2 := rfl
        have hb2lt : b2 < t.nextId := hacclt b2 (by simp)
        have hpb2 : p ≠ b2 := by
          intro hcon
          exact hpacc (by rw [hcon]; simp)
        have hb2mem : b2 ∈ t2.ids := by
          rw [ht2ids]
          exact hacc b2 (by simp)
        have hnd2 : t2.ids.Nodup := wf_nodup hw2
        have hw3p : WFb t3p = true := by
          rw [ht3p, hlastb2]
          refine WFb_prependTo hw2 ?_
          rw [hhead]
          simp [instsBounded, Inst.targets, ht2slot]
          exact hk0.1
        have hgb3p : t3p.getBlockD b2 = [.destroyAddr k0] := by
          rw [ht3p, hlastb2, hhead, getBlockD_prependTo_self hb2mem]
          rw [show t2.getBlockD b2 = t.getBlockD b2 from hgb2 b2 (by simp),
            hcontent]
        have ht3pn : t3p.nextId = t.nextId := by rw [ht3p]; simp [ht2n]
        have ht3pslot : t3p.nextSlot = t.nextSlot := by rw [ht3p]; simp [ht2slot]
        have ht3pip : t3p.insPt = some p := by
          rw [ht3p, insPt_prependTo]
          exact ht2ip
        have hw3pc : WFb ((t3p.createBasicBlock).2) = true := WFb_create hw3p
        have hw6 : WFb t6 = true := by
          rw [ht6]
          refine WFb_emitBlockNoBr (WFb_createCondBranch hw3pc ?_ ?_) ?_
          · rw [create_fst]
            simp
          · rw [hlastb2, nextId_create, ht3pn]
            omega
          · simp
        have ht6slot : t6.nextSlot = t.nextSlot := by
          rw [ht6]
          simp [ht3pslot]
        have ht6ids : t6.ids = t.ids ++ [t.nextId] := by
          rw [ht6]
          simp [ht3p, ht2, ht3pn]
        have ht6ip : t6.insPt = some t.nextId := by
          rw [ht6]
          show some ((t3p.createBasicBlock).1) = _
          rw [create_fst, ht3pn]
        have hgb6 : t6.getBlockD b2 = [.destroyAddr k0] := by
          have hipc : ((t3p.createBasicBlock).2).insPt ≠ some b2 := by
            rw [insPt_create, ht3pip]
            intro hcon
            exact hpb2 (Option.some.inj hcon)
          rw [ht6, getBlockD_emitBlockNoBr, getBlockD_createCondBranch_ne hipc,
            getBlockD_create]
          exact hgb3p
        have hdc3p : ∀ k2, t3p.destroyCount k2 =
            t2.destroyCount k2 + (if k2 = k0 then 1 else 0) := by
          intro k2
          rw [ht3p, hlastb2, hhead, destroyCount_prependTo hnd2, if_pos hb2mem]
          by_cases hk : k2 = k0
          · subst hk
            simp
          · simp [hk, Ne.symm hk]
        have hd6all : ∀ k2, t6.destroyCount k2 =
            t.destroyCount k2 + (if k2 = k0 then 1 else 0) := by
          intro k2
          rw [ht6, destroyCount_emitBlockNoBr,
            destroyCount_createCondBranch hw3pc _ _, destroyCount_create,
            hdc3p, hdc2]
        have hsome3 : ((t3p.createBasicBlock).2).insPt.isSome = true := by
          rw [insPt_create, ht3pip]
          rfl
        have hne6 : (t3p.createBasicBlock).1 ≠ ([b2] : List Nat).getLastD 0 := by
          rw [create_fst, ht3pn, hlastb2]
          omega
        have hcnt6 : 1 ≤ t6.targetCount (([b2] : List Nat).getLastD 0) := by
          rw [ht6, targetCount_emitBlockNoBr,
            targetCount_condBr_false hw3pc hsome3 hne6]
          omega
        exact ih bt [b2] [k0] hw6
          ⟨t.nextId, ht6ip, by intro hcon; rw [List.mem_singleton] at hcon; omega⟩
          (by simp [countB] at hlen; omega)
          (fun k2 hk2 => ⟨by rw [ht6slot]; exact (hbufs k2 (List.mem_cons_of_mem _ hk2)).1,
            by rw [hd6all, if_neg ?hne]
               case hne =>
                 intro hcon
                 exact hk0bt (hcon ▸ hk2)
               simp
               exact (hbufs k2 (List.mem_cons_of_mem _ hk2)).2⟩)
          (fun k2 hk2 => by
            rcases List.mem_singleton.1 hk2 with rfl
            rw [hd6all, if_pos rfl, hk0.2])
          (by simpa using hnd)
          (fun cb hcb => by
            rcases List.mem_singleton.1 hcb with rfl
            rw [ht6ids]
            exact List.mem_append_left _ (hacc cb (by simp)))
          (ChainOK.base1 b2 k0 hgb6)
          (Or.inr hcnt6)
      · rw [if_neg hpe]
        have hnd2 : t2.ids.Nodup := wf_nodup hw2
        have hfde : fd = t.nextId := by rw [hfd, create_fst, ht2n]
        have hwc2 : WFb ((t2.createBasicBlock).2) = true := WFb_create hw2
        have hndc2 : ((t2.createBasicBlock).2).ids.Nodup := wf_nodup hwc2
        have hfdmem : fd ∈ ((t2.createBasicBlock).2).ids := by
          rw [hfd]
          simp
        have hw3 : WFb t3 = true := by
          rw [ht3]
          refine WFb_appendTo hwc2 ?_
          have hb2 : acc.getLastD 0 < ((t2.createBasicBlock).2).nextId := by
            rw [nextId_create, ht2n]
            omega
          simpa [instsBounded, Inst.targets] using hb2
        have hw4 : WFb t4 = true := by
          rw [ht4]
          refine WFb_prependTo hw3 ?_
          rw [hhead]
          simp [instsBounded, Inst.targets, ht3, ht2slot]
          exact hk0.1
        have ht4n : t4.nextId = t.nextId + 1 := by
          rw [ht4, ht3]
          simp [ht2n]
        have ht4slot : t4.nextSlot = t.nextSlot := by
          rw [ht4, ht3]
          simp [ht2slot]
        have ht4ip : t4.insPt = some p := by
          rw [ht4, ht3]
          simp [ht2ip]
        have ht4ids : t4.ids = t.ids ++ [t.nextId] := by
          rw [ht4, ht3]
          simp [ht2, hfde, ht2n]
        have hfdmem3 : fd ∈ t3.ids := by
          rw [ht3, ids_appendTo]
          exact hfdmem
        have hgb2fd : t2.getBlockD fd = [] := by
          have hfp1 : (t.appendInst .other).insPt ≠ some fd := by
            rw [insPt_appendInst, hp, hfde]
            intro hcon
            have := Option.some.inj hcon
            omega
          have hfp0 : t.insPt ≠ some fd := by
            rw [hp, hfde]
            intro hcon
            have := Option.some.inj hcon
            omega
          rw [ht2, getBlockD_appendInst_ne hfp1, getBlockD_appendInst_ne hfp0,
            hfde]
          exact wf_getBlockD_big hwt le_rfl
        have hgb4fd : t4.getBlockD fd =
            [.destroyAddr k0, .br (acc.getLastD 0)] := by
          rw [ht4, hhead, getBlockD_prependTo_self hfdmem3, ht3,
            getBlockD_appendTo_self hfdmem, getBlockD_create, hgb2fd]
          rfl
        have hw4c : WFb ((t4.createBasicBlock).2) = true := WFb_create hw4
        have hw7 : WFb t7 = true := by
          rw [ht7]
          refine WFb_emitBlockNoBr (WFb_createCondBranch hw4c ?_ ?_) ?_
          · rw [create_fst]
            simp
          · rw [List.getLastD_concat, hfde, nextId_create, ht4n]
            omega
          · simp
        have ht7slot : t7.nextSlot = t.nextSlot := by
          rw [ht7]
          simp [ht4slot]
        have ht7ids : t7.ids = (t.ids ++ [t.nextId]) ++ [t.nextId + 1] := by
          rw [ht7]
          simp [ht4ids, ht4n]
        have ht7ip : t7.insPt = some (t.nextId + 1) := by
          rw [ht7]
          show some ((t4.createBasicBlock).1) = _
          rw [create_fst, ht4n]
        have hgb7 : ∀ cb ∈ acc, t7.getBlockD cb = t.getBlockD cb := by
          intro cb hcb
          have hcbfd : cb ≠ fd := by
            rw [hfde]
            intro hcon
            exact absurd (hacclt cb hcb) (by omega)
          have hipcb : ((t4.createBasicBlock).2).insPt ≠ some cb := by
            rw [insPt_create, ht4ip]
            intro hcon
            exact hpacc ((Option.some.inj hcon) ▸ hcb)
          rw [ht7, getBlockD_emitBlockNoBr, getBlockD_createCondBranch_ne hipcb,
            getBlockD_create, ht4, getBlockD_prependTo_ne hcbfd, ht3,
            getBlockD_appendTo_ne hcbfd, getBlockD_create]
          exact hgb2 cb hcb
        have hgb7fd : t7.getBlockD fd =
            [.destroyAddr k0, .br (acc.getLastD 0)] := by
          have hipfd : ((t4.createBasicBlock).2).insPt ≠ some fd := by
            rw [insPt_create, ht4ip, hfde]
            intro hcon
            have := Option.some.inj hcon
            omega
          rw [ht7, getBlockD_emitBlockNoBr, getBlockD_createCondBranch_ne hipfd,
            getBlockD_create]
          exact hgb4fd
        have hd7all : ∀ k2, t7.destroyCount k2 =
            t.destroyCount k2 + (if k2 = k0 then 1 else 0) := by
          intro k2
          have h4eq : t4.destroyCount k2 =
              t2.destroyCount k2 + (if k2 = k0 then 1 else 0) := by
            rw [ht4, hhead, destroyCount_prependTo (wf_nodup hw3),
              if_pos (by rw [ht3, ids_appendTo]; exact hfdmem)]
            rw [ht3, destroyCount_appendTo hndc2, if_pos hfdmem]
            rw [destroyCount_create]
            by_cases hk : k2 = k0
            · subst hk
              simp
            · simp [hk, Ne.symm hk]
          rw [ht7, destroyCount_emitBlockNoBr,
            destroyCount_createCondBranch hw4c _ _, destroyCount_create, h4eq,
            hdc2]
        have hsome4 : ((t4.createBasicBlock).2).insPt.isSome = true := by
          rw [insPt_create, ht4ip]
          rfl
        have hnefd : (t4.createBasicBlock).1 ≠ (acc ++ [fd]).getLastD 0 := by
          rw [create_fst, ht4n, List.getLastD_concat, hfde]
          omega
        have hcnt7 : 1 ≤ t7.targetCount ((acc ++ [fd]).getLastD 0) := by
          rw [ht7, targetCount_emitBlockNoBr,
            targetCount_condBr_false hw4c hsome4 hnefd]
          omega
        have hchain7 : ChainOK t7 (acc ++ [fd]) (consumed ++ [k0]) :=
          ChainOK.step fd k0 acc consumed (hchain.mono hgb7) hgb7fd
        have hres := ih bt (acc ++ [fd]) (consumed ++ [k0]) hw7
          ⟨t.nextId + 1, ht7ip, by
            intro hcon
            rcases List.mem_append.1 hcon with hcon | hcon
            · exact absurd (hacclt _ hcon) (by omega)
            · rw [hfde] at hcon
              simp at hcon⟩
          (by simp [countB] at hlen; omega)
          (fun k2 hk2 => ⟨by rw [ht7slot]; exact (hbufs k2 (List.mem_cons_of_mem _ hk2)).1,
            by rw [hd7all, if_neg ?hne2]
               case hne2 =>
                 intro hcon
                 exact hk0bt (hcon ▸ hk2)
               simp
               exact (hbufs k2 (List.mem_cons_of_mem _ hk2)).2⟩)
          (fun k2 hk2 => by
            rcases List.mem_append.1 hk2 with hk2 | hk2
            · rw [hd7all, if_neg (hk0nc k2 hk2)]
              simp
              exact hcons k2 hk2
            · rcases List.mem_singleton.1 hk2 with rfl
              rw [hd7all, if_pos rfl, hk0.2])
          (by simpa [List.append_assoc] using hnd)
          (fun cb hcb => by
            rw [ht7ids]
            rcases List.mem_append.1 hcb with hcb | hcb
            · exact List.mem_append_left _ (List.mem_append_left _ (hacc cb hcb))
            · rcases List.mem_singleton.1 hcb with rfl
              rw [hfde]
              exact List.mem_append_left _
                (List.mem_append_right _ (by simp)))
          hchain7
          (Or.inr hcnt7)
        constructor
        · have h1 := hres.1
          simpa [List.append_assoc] using h1
        · intro k2 hk2
          refine hres.2 k2 ?_
          simpa [countB, List.append_assoc] using hk2

theorem ChainOK.head_content {acc done : List Nat} (h : ChainOK s acc done) :
    s.getBlockD (acc.headD 0) = [] ∨
    ∃ k2, s.getBlockD (acc.headD 0) = [.destroyAddr k2] := by
  induction h with
  | base0 b hb => exact Or.inl hb
  | base1 b k hb => exact Or.inr ⟨k, hb⟩
  | step b k bs ks hprev hb ih =>
    have hne := hprev.ne_nil
    cases bs with
    | nil => exact absurd rfl hne
    | cons b0 bs0 => exact ih

/-- The chain facts restated from the head of the returned (reversed)
list. -/
theorem chain_props {L done : List Nat} (h : ChainOK s (L.reverse) done) :
    chainBlocks s L.length (L.headD 0) = L ∧
    chainTrace s L.length (L.headD 0) = done.reverse := by
  have h2 := h.blocks_trace
  rw [List.length_reverse] at h2
  have hlast : (L.reverse).getLastD 0 = L.headD 0 := by
    rw [List.getLastD_eq_getLast?, List.getLast?_reverse]
    cases L with
    | nil => rfl
    | cons a l => rfl
  rw [hlast, List.reverse_reverse] at h2
  exact h2

theorem destroyCount_createBranch (hwt : WFb s = true) (d : Nat) :
    (s.createBranch d).destroyCount k = s.destroyCount k := by
  show ((s.appendInst _).clearIP).destroyCount k = _
  rw [destroyCount_clearIP,
    destroyCount_appendInst (wf_nodup hwt) (fun b2 hb2 => wf_insPt_mem hwt hb2)]
  simp

theorem destroyCount_emitBlockBr (hwt : WFb s = true) (hd : d < s.nextId) :
    (s.emitBlockBr d).destroyCount k = s.destroyCount k := by
  unfold SGState.emitBlockBr
  by_cases hips : s.insPt.isSome
  · rw [if_pos hips, destroyCount_emitBlockNoBr, destroyCount_createBranch hwt]
  · rw [if_neg hips, destroyCount_emitBlockNoBr]

theorem destroyCount_buffers (cond : List CondElt) (hwf : WFb s = true) :
    ((emitConditionalBindingBuffers cond s).2).destroyCount k =
      s.destroyCount k := by
  induction cond generalizing s with
  | nil => rfl
  | cons e rest ih =>
    cases e with
    | boolean => exact ih hwf
    | binding =>
      have hwa : WFb ((s.allocSlot).2) = true := WFb_allocSlot hwf
      have hw1 : WFb (((s.allocSlot).2).appendInst
          (.allocStack (s.allocSlot).1)) = true := by
        refine WFb_appendInst hwa ?_
        simp [instsBounded, Inst.targets]
      rw [show emitConditionalBindingBuffers (CondElt.binding :: rest) s =
        (((s.allocSlot).1 ::
          (emitConditionalBindingBuffers rest (((s.allocSlot).2).appendInst
            (.allocStack (s.allocSlot).1))).1),
          (emitConditionalBindingBuffers rest (((s.allocSlot).2).appendInst
            (.allocStack (s.allocSlot).1))).2) from rfl]
      show ((emitConditionalBindingBuffers rest _).2).destroyCount k = _
      rw [ih hw1]
      rw [destroyCount_appendInst (wf_nodup hwa)
        (fun b2 hb2 => wf_insPt_mem hwa hb2)]
      simp

theorem getBlockD_patternBindings_ne (bufs : List Nat)
    (hip : t.insPt ≠ some b) :
    (emitPatternBindingsM bufs t).getBlockD b = t.getBlockD b := by
  induction bufs generalizing t with
  | nil => rfl
  | cons b2 rest ih =>
    rw [show emitPatternBindingsM (b2 :: rest) t =
      emitPatternBindingsM rest (t.appendInst .other) from rfl]
    rw [ih (by rw [insPt_appendInst]; exact hip)]
    exact getBlockD_appendInst_ne hip

theorem destroyCount_patternBindings (bufs : List Nat) (hwt : WFb t = true) :
    (emitPatternBindingsM bufs t).destroyCount k = t.destroyCount k := by
  induction bufs generalizing t with
  | nil => rfl
  | cons b2 rest ih =>
    rw [show emitPatternBindingsM (b2 :: rest) t =
      emitPatternBindingsM rest (t.appendInst .other) from rfl]
    rw [ih (WFb_other hwt), destroyCount_other hwt]

/-- `emitStmtCondition` from a live, well-formed state with fresh distinct
buffers yields a well-shaped cleanup chain destroying exactly the consumed
buffers. -/
theorem emitStmtCondition_chain (cond : List CondElt) (bufs : List Nat)
    (hwt : WFb t = true) (hips : t.insPt.isSome = true)
    (hlen : countB cond ≤ bufs.length)
    (hbufs : ∀ k2 ∈ bufs, k2 < t.nextSlot ∧ t.destroyCount k2 = 0)
    (hnd : bufs.Nodup) :
    ChainOK ((emitStmtCondition cond bufs t).2)
      (((emitStmtCondition cond bufs t).1).reverse)
      (bufs.take (countB cond)) ∧
    (∀ k2 ∈ bufs.take (countB cond),
      ((emitStmtCondition cond bufs t).2).destroyCount k2 = 1) := by
  have hstep : emitStmtCondition cond bufs t =
      escGo cond bufs [(t.createBasicBlock).1] (t.createBasicBlock).2 := rfl
  rw [hstep]
  obtain ⟨p, hp⟩ := Option.isSome_iff_exists.1 hips
  have hplt := wf_insPt_lt hwt hp
  have hinv := escGo_chainInv cond bufs [(t.createBasicBlock).1] []
    (WFb_create hwt)
    ⟨p, by rw [insPt_create]; exact hp, by
      rw [create_fst, List.mem_singleton]
      omega⟩
    hlen
    (fun k2 hk2 => ⟨by simpa using (hbufs k2 hk2).1, by
      rw [destroyCount_create]
      exact (hbufs k2 hk2).2⟩)
    (fun k2 hk2 => absurd hk2 (List.not_mem_nil k2))
    (by simpa using hnd)
    (fun cb hcb => by
      rcases List.mem_singleton.1 hcb with rfl
      rw [create_fst]
      simp)
    (ChainOK.base0 _ (by
      rw [getBlockD_create, create_fst]
      exact wf_getBlockD_big hwt le_rfl))
    (Or.inl ⟨rfl, _, rfl⟩)
  simpa using hinv

end ChainLemmas

/-! ## Supporting lemmas for the claim theorems -/

section ClaimSupport

variable {s t : SGState} {b c d k : Nat}

theorem headD_reverse (L : List Nat) : (L.reverse).headD 0 = L.getLastD 0 := by
  rw [List.headD_eq_head?, List.head?_reverse, List.getLastD_eq_getLast?]

theorem targetCount_emitAll (cbs : List Nat) :
    (emitAll cbs s).targetCount b = s.targetCount b := by
  show tcL (emitAll cbs s).blocks b = tcL s.blocks b
  rw [blocks_emitAll]

theorem targetCount_createBranch_self (hwt : WFb t = true) (d : Nat) :
    (t.createBranch d).targetCount d =
      t.targetCount d + (if t.insPt.isSome then 1 else 0) := by
  show ((t.appendInst (.br d)).clearIP).targetCount d = _
  rw [targetCount_clearIP,
    targetCount_appendInst (wf_nodup hwt) (fun b2 hb2 => wf_insPt_mem hwt hb2)]
  by_cases hips : t.insPt.isSome = true
  · rw [if_pos hips, if_pos hips, instHits_br_self]
  · rw [if_neg hips, if_neg hips]

/-- The merge block of `ifElseMid` is targeted once when the then branch
exited live, and not at all otherwise. -/
theorem targetCount_ifElseMid (cbs : List Nat) (hwt : WFb t = true) :
    ((ifElseMid cbs t).2).targetCount t.nextId =
      if t.insPt.isSome then 1 else 0 := by
  have hunfold : (ifElseMid cbs t).2 =
      emitAll cbs (if ((t.createBasicBlock).2).insPt.isSome
        then ((t.createBasicBlock).2).createBranch (t.createBasicBlock).1
        else (t.createBasicBlock).2) := rfl
  rw [hunfold, targetCount_emitAll]
  have hwc : WFb ((t.createBasicBlock).2) = true := WFb_create hwt
  have htc : ((t.createBasicBlock).2).targetCount t.nextId = 0 := by
    rw [targetCount_create]
    exact wf_targetCount_big hwt le_rfl
  by_cases hips : t.insPt.isSome = true
  · rw [if_pos (by simpa using hips), create_fst,
      targetCount_createBranch_self hwc, htc,
      if_pos (by simpa using hips : ((t.createBasicBlock).2).insPt.isSome = true),
      if_pos hips]
  · rw [if_neg (by simpa using hips), htc, if_neg hips]

/-- The element loop of `visitBraceStmt` at an invalid insertion point:
exactly one diagnostic for the first non-configuration element, and nothing
else changes. -/
theorem visitBraceElts_dead (l : List Stmt) (stype : Nat) (s : SGState)
    (hip : s.insPt = none)
    (hne : l.any (fun e => !e.isIfConfig) = true) :
    visitBraceElts l stype s =
      { s with diags := s.diags ++ [classifyDiag stype] } := by
  induction l with
  | nil => simp at hne
  | cons e rest ih =>
    by_cases hcfg : e.isIfConfig = true
    · have hstep : visitBraceElts (e :: rest) stype s =
          visitBraceElts rest stype s := by
        simp [visitBraceElts, hcfg]
      rw [hstep]
      refine ih ?_
      rw [List.any_cons, hcfg] at hne
      simpa using hne
    · have hips : s.insPt.isSome = false := by
        rw [hip]
        rfl
      simp [visitBraceElts, hcfg, hips]

theorem visit_ret_eq (s : SGState) :
    visitStmt .ret s = (s.appendInst .other).createBranch s.returnDest := by
  simp [visitStmt]

end ClaimSupport

/-! ## The claim theorems -/

section Claims

/-- C9: lowering any statement — in particular a while, do-while, C-style
for or for-each loop, each of which pushes one break/continue entry on entry
and pops it before returning — leaves the break/continue destination stack
exactly as it found it, and so does lowering any brace element list. -/
theorem c9_stack_balanced (t : Stmt) (l : List Stmt) (k : Nat)
    (s s2 : SGState) :
    (visitStmt t s).bcStack = s.bcStack ∧
    (visitBraceElts l k s2).bcStack = s2.bcStack :=
  ⟨visit_stack_pair.1 t s, visit_stack_pair.2 l k s2⟩

/-- C10: a conditional-compilation element is skipped before the
unreachable-insertion-point check — lowering it changes nothing and never
stops the element loop — and when the insertion point is dead, the first
following non-configuration element is still the one diagnosed. -/
theorem c10_ifconfig_skipped (l : List Stmt) (stype : Nat) (s : SGState) :
    visitBraceElts (Stmt.ifConfig :: l) stype s = visitBraceElts l stype s ∧
    (s.insPt = none → l.any (fun e => !e.isIfConfig) = true →
      visitBraceElts (Stmt.ifConfig :: l) stype s =
        { s with diags := s.diags ++ [classifyDiag stype] }) := by
  have h1 : visitBraceElts (Stmt.ifConfig :: l) stype s =
      visitBraceElts l stype s := by
    simp [visitBraceElts, Stmt.isIfConfig]
  refine ⟨h1, fun hip hne => ?_⟩
  rw [h1]
  exact visitBraceElts_dead l stype s hip hne

/-- C10 at a concrete input: a configuration element after a dead point is
skipped and the following expression element is the one diagnosed. -/
theorem c10_ifconfig_skipped_witness :
    visitBraceElts [Stmt.ifConfig, Stmt.exprElt] 1 sampleState4 =
      { sampleState4 with
          diags := sampleState4.diags ++ [classifyDiag 1] } :=
  (c10_ifconfig_skipped [Stmt.exprElt] 1 sampleState4).2 rfl (by decide)

/-- C8: at an invalid insertion point, the element loop reports exactly one
unreachable-code diagnostic for the first non-configuration element —
classified after-return (0) or after-continue (1) by the preceding lowered
statement, generic (2) otherwise — and produces no further IR; in
particular a `return` followed by further statements yields exactly one
after-return diagnostic and leaves the state otherwise exactly as the
`return` left it. -/
theorem c8_unreachable_diagnostic (l : List Stmt) (stype b2 : Nat)
    (s t : SGState) (hip : s.insPt = none)
    (hne : l.any (fun e => !e.isIfConfig) = true)
    (hipt : t.insPt.isSome = true) :
    visitBraceElts l stype s =
      { s with diags := s.diags ++ [classifyDiag stype] } ∧
    classifyDiag 0 = Diag.unreachableAfterStmt 0 ∧
    classifyDiag 1 = Diag.unreachableAfterStmt 1 ∧
    classifyDiag 2 = Diag.unreachableCode ∧
    updStmtType Stmt.ret stype = 0 ∧
    updStmtType (Stmt.continueS b2) stype = 1 ∧
    visitBraceElts (Stmt.ret :: l) stype t =
      { visitStmt Stmt.ret t with
          diags := t.diags ++ [Diag.unreachableAfterStmt 0] } := by
  refine ⟨visitBraceElts_dead l stype s hip hne, rfl, rfl, rfl, rfl, rfl, ?_⟩
  have hstep : visitBraceElts (Stmt.ret :: l) stype t =
      visitBraceElts l (updStmtType Stmt.ret stype) (visitStmt Stmt.ret t) := by
    simp [visitBraceElts, Stmt.isIfConfig, hipt]
  rw [hstep]
  have hipr : (visitStmt Stmt.ret t).insPt = none := by
    rw [visit_ret_eq]
    rfl
  rw [visitBraceElts_dead l _ _ hipr hne]
  have hd : (visitStmt Stmt.ret t).diags = t.diags := by
    rw [visit_ret_eq]
    simp
  rw [hd]
  simp [updStmtType, classifyDiag]

/-- C8 at a concrete input: a `return` followed by an expression element
reports one after-return diagnostic and drops the element. -/
theorem c8_unreachable_diagnostic_witness :
    visitBraceElts [Stmt.ret, Stmt.exprElt] 2 sampleState =
      { visitStmt Stmt.ret sampleState with
          diags := sampleState.diags ++ [Diag.unreachableAfterStmt 0] } :=
  (c8_unreachable_diagnostic [Stmt.exprElt] 2 5 sampleState4 sampleState
    rfl (by decide) (by decide)).2.2.2.2.2.2

/-- C6: condition lowering with `hasFalseCode = false` materializes no
false block — the returned record carries none, and only the continuation
and true blocks are created — and the emitted conditional branch's false
edge goes directly to the continuation block. -/
theorem c6_no_false_block (invertV : Bool) (t : SGState) (p : Nat)
    (hip : t.insPt = some p) (hpm : p ∈ t.ids) :
    (emitConditionV false invertV t).1.falseBB = none ∧
    (emitConditionV false invertV t).1.contBB = some t.nextId ∧
    (emitConditionV false invertV t).1.trueBB = some (t.nextId + 1) ∧
    ((emitConditionV false invertV t).2).ids =
      t.ids ++ [t.nextId, t.nextId + 1] ∧
    ((emitConditionV false false t).2).getBlockD p =
      t.getBlockD p ++ [Inst.condBr (t.nextId + 1) t.nextId] := by
  have hr := emitConditionV_rec false invertV t
  refine ⟨?_, hr.1, hr.2.1, ?_, ?_⟩
  · rw [hr.2.2]
    rfl
  · rw [ids_emitConditionV]
    rfl
  · exact getBlockD_emitConditionV_self_ff hip hpm

/-- C6 at a concrete input. -/
theorem c6_no_false_block_witness :
    (emitConditionV false false sampleState).1.falseBB = none ∧
    (emitConditionV false false sampleState).1.contBB =
      some sampleState.nextId ∧
    (emitConditionV false false sampleState).1.trueBB =
      some (sampleState.nextId + 1) ∧
    ((emitConditionV false false sampleState).2).ids =
      sampleState.ids ++ [sampleState.nextId, sampleState.nextId + 1] ∧
    ((emitConditionV false false sampleState).2).getBlockD 0 =
      sampleState.getBlockD 0 ++
        [Inst.condBr (sampleState.nextId + 1) sampleState.nextId] :=
  c6_no_false_block false sampleState 0 rfl (by decide)

/-- C5: a do-while lowers its body before any condition evaluation — the
body starts in the loop header, entered by fallthrough, with the end block
as break target and the condition-test block as continue target — and the
condition step, run after the body, uses the no-false-block form: its true
block branches back to the loop header and the conditional branch's false
edge goes to the merge block. -/
theorem c5_do_while (id : Nat) (body : Stmt) (s t : SGState) (p0 : Nat)
    (hwf : WFb s = true) (hwt : WFb t = true)
    (hp0 : t.insPt = some p0) (hpm : p0 ∈ t.ids) :
    visitStmt (.doWhileS id body) s =
      doWhilePost (doWhilePre id s).1 (doWhilePre id s).2.1
        (doWhilePre id s).2.2.1 (visitStmt body ((doWhilePre id s).2.2.2)) ∧
    (doWhilePre id s).1 = s.nextId ∧
    (doWhilePre id s).2.2.1 = s.nextId + 2 ∧
    ((doWhilePre id s).2.2.2).insPt = some s.nextId ∧
    ((doWhilePre id s).2.2.2).bcStack =
      (id, s.nextId + 1, s.nextId + 2) :: s.bcStack ∧
    (doWhileCondStep s.nextId t).getBlockD (t.nextId + 1) =
      [Inst.br s.nextId] ∧
    (doWhileCondStep s.nextId t).getBlockD p0 =
      t.getBlockD p0 ++ [Inst.other, Inst.condBr (t.nextId + 1) t.nextId] := by
  have hd := doWhilePre_facts id hwf
  have hc := doWhileCondStep_facts s.nextId hwt (by rw [hp0]; rfl)
  refine ⟨?_, hd.1, hd.2.2.1, hd.2.2.2.1, ?_, hc.2.2.2.1,
    hc.2.2.2.2 p0 hp0 hpm⟩
  · simp only [visitStmt]
  · simp [doWhilePre]

/-- C5 at a concrete input. -/
theorem c5_do_while_witness :
    (doWhileCondStep sampleState.nextId sampleState).getBlockD
        (sampleState.nextId + 1) = [Inst.br sampleState.nextId] :=
  (c5_do_while 5 Stmt.exprElt sampleState sampleState 0 (by decide) (by decide)
    rfl (by decide)).2.2.2.2.2.1

/-- C2, counterexample to the spec's wording: on an `if` without else whose
condition holds two pattern bindings, the code branches the live then-exit
to the *last* cleanup block of the returned chain, not the first — the two
lowerings produce different graphs. -/
theorem c2_counterexample :
    visitStmt (.ifS [CondElt.binding, CondElt.binding] .exprElt none)
        sampleState ≠
      ifNoElseFinishSpec
        (ifPre [CondElt.binding, CondElt.binding] sampleState).1
        (visitStmt .exprElt
          (ifPre [CondElt.binding, CondElt.binding] sampleState).2) := by
  decide

/-- C2 (amended: the fallthrough branch goes to the *last* cleanup block of
the chain, the fully-cleaned continuation, not the first): with no else and
a live then-exit, the lowering branches to the last cleanup block —
appending a fresh block (to which the old last block branches) first when
the last cleanup block is non-empty, so no destroy runs on fallthrough —
then emits all cleanup blocks in sequence, the insertion point ending in
the final one as the continuation. -/
theorem c2_no_else_continuation (cbs : List Nat) (t : SGState) (p : Nat)
    (hwt : WFb t = true) (hip : t.insPt = some p) (hpm : p ∈ t.ids)
    (hne : cbs ≠ []) (hpc : p ∉ cbs) (hlm : cbs.getLastD 0 ∈ t.ids) :
    (t.getBlockD (cbs.getLastD 0) = [] →
      ifNoElseFinish cbs t = emitAll cbs (t.createBranch (cbs.getLastD 0)) ∧
      (ifNoElseFinish cbs t).getBlockD p =
        t.getBlockD p ++ [Inst.br (cbs.getLastD 0)] ∧
      (ifNoElseFinish cbs t).insPt = some (cbs.getLastD 0)) ∧
    (t.getBlockD (cbs.getLastD 0) ≠ [] →
      (ifNoElseFinish cbs t).getBlockD p =
        t.getBlockD p ++ [Inst.br t.nextId] ∧
      (ifNoElseFinish cbs t).getBlockD (cbs.getLastD 0) =
        t.getBlockD (cbs.getLastD 0) ++ [Inst.br t.nextId] ∧
      (ifNoElseFinish cbs t).getBlockD t.nextId = [] ∧
      (ifNoElseFinish cbs t).insPt = some t.nextId) := by
  have hips : t.insPt.isSome = true := by
    rw [hip]
    rfl
  constructor
  · intro hnil
    have hunfold : ifNoElseFinish cbs t =
        emitAll cbs (t.createBranch (cbs.getLastD 0)) := by
      unfold ifNoElseFinish
      rw [if_pos hips, if_pos hnil]
    refine ⟨hunfold, ?_, ?_⟩
    · rw [hunfold, getBlockD_emitAll, getBlockD_createBranch_self hip hpm]
    · rw [hunfold]
      cases cbs with
      | nil => exact absurd rfl hne
      | cons b2 rest => exact insPt_emitAll_cons b2 rest
  · intro hnil
    have hlastne : p ≠ cbs.getLastD 0 := by
      intro hcon
      exact hpc (hcon ▸ getLastD_mem hne 0)
    have hplt : p < t.nextId := wf_insPt_lt hwt hip
    have hllt : cbs.getLastD 0 < t.nextId := wf_block_lt hwt hlm
    have hunfold : ifNoElseFinish cbs t =
        emitAll (cbs ++ [(t.createBasicBlock).1])
          ((((t.createBasicBlock).2).appendTo (cbs.getLastD 0)
            (.br (t.createBasicBlock).1)).createBranch
              ((cbs ++ [(t.createBasicBlock).1]).getLastD 0)) := by
      unfold ifNoElseFinish
      rw [if_pos hips, if_neg hnil]
    have hipa : (((t.createBasicBlock).2).appendTo (cbs.getLastD 0)
        (.br (t.createBasicBlock).1)).insPt = some p := by
      show ((t.createBasicBlock).2).insPt = some p
      rw [insPt_create]
      exact hip
    have hpma : p ∈ (((t.createBasicBlock).2).appendTo (cbs.getLastD 0)
        (.br (t.createBasicBlock).1)).ids := by
      simp [hpm]
    have hglast : (cbs ++ [(t.createBasicBlock).1]).getLastD 0 = t.nextId := by
      rw [List.getLastD_concat, create_fst]
    refine ⟨?_, ?_, ?_, ?_⟩
    · rw [hunfold, getBlockD_emitAll, hglast,
        getBlockD_createBranch_self hipa hpma, getBlockD_appendTo_ne hlastne,
        getBlockD_create]
    · rw [hunfold, getBlockD_emitAll,
        getBlockD_createBranch_ne (by
          rw [hipa]
          exact fun hcon => hlastne (Option.some.inj hcon)),
        getBlockD_appendTo_self (by
          simp only [ids_create]
          exact List.mem_append_left _ hlm),
        getBlockD_create, create_fst]
    · rw [hunfold, getBlockD_emitAll,
        getBlockD_createBranch_ne (by
          rw [hipa]
          intro hcon
          have := Option.some.inj hcon
          omega),
        getBlockD_appendTo_ne (by omega), getBlockD_create]
      exact wf_getBlockD_big hwt le_rfl
    · rw [hunfold]
      cases cbs with
      | nil => exact absurd rfl hne
      | cons b2 rest =>
        rw [List.cons_append, insPt_emitAll_cons b2 (rest ++ [(t.createBasicBlock).1])]
        rw [← List.cons_append, hglast]

/-- C2 at a concrete input: with an empty last cleanup block the
fallthrough branches straight to it and continues there. -/
theorem c2_no_else_continuation_witness :
    ifNoElseFinish [1] sampleState2 =
      emitAll [1] (sampleState2.createBranch ([1].getLastD 0)) ∧
    (ifNoElseFinish [1] sampleState2).getBlockD 0 =
      sampleState2.getBlockD 0 ++ [Inst.br ([1].getLastD 0)] ∧
    (ifNoElseFinish [1] sampleState2).insPt = some ([1].getLastD 0) :=
  (c2_no_else_continuation [1] sampleState2 0 (by decide) rfl (by decide)
    (by decide) (by decide) (by decide)).1 (by decide)

/-- C3: the cleanup-block list returned by condition lowering is ordered so
that walking the branch chain from the block at index 0 visits the whole
list — destroying every evaluated slot exactly once along the way — and
ends at the block at the last index, the fully-cleaned continuation past
the whole condition, which branches to no further cleanup. -/
theorem c3_cleanup_chain (cond : List CondElt) (bufs : List Nat) (t : SGState)
    (hwt : WFb t = true) (hips : t.insPt.isSome = true)
    (hlen : countB cond = bufs.length)
    (hbufs : ∀ k2 ∈ bufs, k2 < t.nextSlot ∧ t.destroyCount k2 = 0)
    (hnd : bufs.Nodup) :
    chainBlocks ((emitStmtCondition cond bufs t).2)
        ((emitStmtCondition cond bufs t).1).length
        (((emitStmtCondition cond bufs t).1).headD 0) =
      (emitStmtCondition cond bufs t).1 ∧
    chainTrace ((emitStmtCondition cond bufs t).2)
        ((emitStmtCondition cond bufs t).1).length
        (((emitStmtCondition cond bufs t).1).headD 0) = bufs.reverse ∧
    (∀ k2 ∈ bufs, ((emitStmtCondition cond bufs t).2).destroyCount k2 = 1) ∧
    (∀ d2, (((emitStmtCondition cond bufs t).2).getBlockD
        (((emitStmtCondition cond bufs t).1).getLastD 0)).getLast? ≠
      some (Inst.br d2)) := by
  have htake : bufs.take (countB cond) = bufs := by
    rw [hlen, List.take_length]
  obtain ⟨hch, hcnt⟩ := emitStmtCondition_chain cond bufs hwt hips
    (le_of_eq hlen) hbufs hnd
  rw [htake] at hch hcnt
  obtain ⟨hb, ht⟩ := chain_props hch
  refine ⟨hb, ht, hcnt, ?_⟩
  have hhead := hch.head_content
  rw [headD_reverse] at hhead
  intro d2
  rcases hhead with hh | ⟨k2, hh⟩
  · rw [hh]
    simp
  · rw [hh]
    simp

/-- C3 at a concrete input: two bindings and a boolean, the trace from the
head of the returned list destroys the buffers last-bound first. -/
theorem c3_cleanup_chain_witness :
    chainTrace ((emitStmtCondition [CondElt.binding, CondElt.boolean,
        CondElt.binding] [0, 1] sampleState3).2)
      ((emitStmtCondition [CondElt.binding, CondElt.boolean, CondElt.binding]
        [0, 1] sampleState3).1).length
      (((emitStmtCondition [CondElt.binding, CondElt.boolean, CondElt.binding]
        [0, 1] sampleState3).1).headD 0) = [0, 1].reverse :=
  (c3_cleanup_chain [CondElt.binding, CondElt.boolean, CondElt.binding]
    [0, 1] sampleState3 (by decide) rfl (by decide) (by decide)
    (by decide)).2.1

/-- C1: an `if` or `while` condition with N pattern bindings allocates N
distinct buffers; in both lowerings, walking the failure chain entered at
the first returned cleanup block destroys exactly those N buffers, in
reverse binding order, and each buffer is destroyed exactly once in the
whole function. -/
theorem c1_condition_destroy_sites (cond : List CondElt) (id : Nat)
    (s : SGState) (hwf : WFb s = true) (hips : s.insPt.isSome = true) :
    ((emitConditionalBindingBuffers cond s).1).length = countB cond ∧
    ((emitConditionalBindingBuffers cond s).1).Nodup ∧
    chainBlocks ((ifPre cond s).2) ((ifPre cond s).1).length
        (((ifPre cond s).1).headD 0) = (ifPre cond s).1 ∧
    chainTrace ((ifPre cond s).2) ((ifPre cond s).1).length
        (((ifPre cond s).1).headD 0) =
      ((emitConditionalBindingBuffers cond s).1).reverse ∧
    (∀ k2 ∈ (emitConditionalBindingBuffers cond s).1,
      ((ifPre cond s).2).destroyCount k2 = 1) ∧
    chainBlocks ((whilePre id cond s).2.2) ((whilePre id cond s).2.1).length
        (((whilePre id cond s).2.1).headD 0) = (whilePre id cond s).2.1 ∧
    chainTrace ((whilePre id cond s).2.2) ((whilePre id cond s).2.1).length
        (((whilePre id cond s).2.1).headD 0) =
      ((emitConditionalBindingBuffers cond s).1).reverse ∧
    (∀ k2 ∈ (emitConditionalBindingBuffers cond s).1,
      ((whilePre id cond s).2.2).destroyCount k2 = 1) := by
  have hbf1 : (emitConditionalBindingBuffers cond s).1 =
      List.range' s.nextSlot (countB cond) := buffers_fst cond
  have hlenb : ((emitConditionalBindingBuffers cond s).1).length =
      countB cond := by
    rw [hbf1, List.length_range']
  have hnd : ((emitConditionalBindingBuffers cond s).1).Nodup := by
    rw [hbf1]
    exact List.nodup_range' _ _
  have htake : ((emitConditionalBindingBuffers cond s).1).take (countB cond) =
      (emitConditionalBindingBuffers cond s).1 := by
    rw [← hlenb, List.take_length]
  have hextb : Ext s ((emitConditionalBindingBuffers cond s).2) :=
    buffers_ext cond Ext.refl le_rfl
  have hwtb : WFb ((emitConditionalBindingBuffers cond s).2) = true :=
    (hextb hwf).wf
  have hmem : ∀ k2 ∈ (emitConditionalBindingBuffers cond s).1,
      s.nextSlot ≤ k2 ∧ k2 < s.nextSlot + countB cond := by
    intro k2 hk2
    rw [hbf1, List.mem_range'_1] at hk2
    exact hk2
  -- the if flow
  have hipsb : ((emitConditionalBindingBuffers cond s).2).insPt.isSome = true := by
    rw [insPt_buffers]
    exact hips
  have hbufs1 : ∀ k2 ∈ (emitConditionalBindingBuffers cond s).1,
      k2 < ((emitConditionalBindingBuffers cond s).2).nextSlot ∧
      ((emitConditionalBindingBuffers cond s).2).destroyCount k2 = 0 := by
    intro k2 hk2
    refine ⟨by rw [nextSlot_buffers]; exact (hmem k2 hk2).2, ?_⟩
    rw [destroyCount_buffers cond hwf]
    exact wf_destroyCount_big hwf (hmem k2 hk2).1
  obtain ⟨hch1, hcnt1⟩ := emitStmtCondition_chain cond
    (emitConditionalBindingBuffers cond s).1 hwtb hipsb (le_of_eq hlenb.symm)
    hbufs1 hnd
  rw [htake] at hch1 hcnt1
  have hbufs1' : ∀ k2 ∈ (emitConditionalBindingBuffers cond s).1,
      s.nextSlot ≤ k2 ∧
      k2 < ((emitConditionalBindingBuffers cond s).2).nextSlot :=
    fun k2 hk2 => ⟨(hmem k2 hk2).1, (hbufs1 k2 hk2).1⟩
  obtain ⟨hext1, hmem1, hne1, hipn1⟩ := emitStmtCondition_ext cond
    (emitConditionalBindingBuffers cond s).1 hwf hextb hbufs1'
    (le_of_eq hlenb.symm)
  have hwcc : WFb (emitStmtCondition cond (emitConditionalBindingBuffers cond s).1
      ((emitConditionalBindingBuffers cond s).2)).2 = true := (hext1 hwf).wf
  have hio : ∀ cb ∈ ((emitStmtCondition cond
        (emitConditionalBindingBuffers cond s).1
        ((emitConditionalBindingBuffers cond s).2)).1).reverse,
      ((ifPre cond s).2).getBlockD cb =
      ((emitStmtCondition cond (emitConditionalBindingBuffers cond s).1
        ((emitConditionalBindingBuffers cond s).2)).2).getBlockD cb := by
    intro cb hcb
    rw [List.mem_reverse] at hcb
    show (emitPatternBindingsM _ _).getBlockD cb = _
    refine getBlockD_patternBindings_ne _ ?_
    intro hcon
    exact hipn1 cb hcon hcb
  have hch1' : ChainOK ((ifPre cond s).2) (((ifPre cond s).1).reverse)
      (emitConditionalBindingBuffers cond s).1 := hch1.mono hio
  obtain ⟨hcb1, hct1⟩ := chain_props hch1'
  have hcnt1' : ∀ k2 ∈ (emitConditionalBindingBuffers cond s).1,
      ((ifPre cond s).2).destroyCount k2 = 1 := by
    intro k2 hk2
    show (emitPatternBindingsM _ _).destroyCount k2 = 1
    rw [destroyCount_patternBindings _ hwcc]
    exact hcnt1 k2 hk2
  -- the while flow
  have hwt2 : WFb (((((emitConditionalBindingBuffers cond s).2).createBasicBlock).2).emitBlockBr
      ((((emitConditionalBindingBuffers cond s).2).createBasicBlock)).1) = true := by
    refine WFb_emitBlockBr (WFb_create hwtb) ?_
    rw [create_fst, ids_create]
    exact List.mem_append_right _ (List.mem_singleton.2 rfl)
  have hips2 : ((((((emitConditionalBindingBuffers cond s).2).createBasicBlock).2).emitBlockBr
      ((((emitConditionalBindingBuffers cond s).2).createBasicBlock)).1)).insPt.isSome = true := by
    rw [insPt_emitBlockBr]
    rfl
  have hbufs2 : ∀ k2 ∈ (emitConditionalBindingBuffers cond s).1,
      k2 < (((((emitConditionalBindingBuffers cond s).2).createBasicBlock).2).emitBlockBr
        ((((emitConditionalBindingBuffers cond s).2).createBasicBlock)).1).nextSlot ∧
      (((((emitConditionalBindingBuffers cond s).2).createBasicBlock).2).emitBlockBr
        ((((emitConditionalBindingBuffers cond s).2).createBasicBlock)).1).destroyCount k2 = 0 := by
    intro k2 hk2
    constructor
    · rw [nextSlot_emitBlockBr, nextSlot_create, nextSlot_buffers]
      exact (hmem k2 hk2).2
    · rw [destroyCount_emitBlockBr (WFb_create hwtb)
        (by rw [create_fst, nextId_create]; omega), destroyCount_create,
        destroyCount_buffers cond hwf]
      exact wf_destroyCount_big hwf (hmem k2 hk2).1
  obtain ⟨hch2, hcnt2⟩ := emitStmtCondition_chain cond
    (emitConditionalBindingBuffers cond s).1 hwt2 hips2 (le_of_eq hlenb.symm)
    hbufs2 hnd
  rw [htake] at hch2 hcnt2
  have hext3 : Ext s (((((emitConditionalBindingBuffers cond s).2).createBasicBlock).2).emitBlockBr
      ((((emitConditionalBindingBuffers cond s).2).createBasicBlock)).1) := by
    refine (hextb.newBlock).emitBr ?_ ?_
    · rw [create_fst, ids_create]
      exact List.mem_append_right _ (List.mem_singleton.2 rfl)
    · rw [create_fst, nextId_buffers]
  have hbufs2' : ∀ k2 ∈ (emitConditionalBindingBuffers cond s).1,
      s.nextSlot ≤ k2 ∧
      k2 < (((((emitConditionalBindingBuffers cond s).2).createBasicBlock).2).emitBlockBr
        ((((emitConditionalBindingBuffers cond s).2).createBasicBlock)).1).nextSlot :=
    fun k2 hk2 => ⟨(hmem k2 hk2).1, (hbufs2 k2 hk2).1⟩
  obtain ⟨hext2, hmem2, hne2, hipn2⟩ := emitStmtCondition_ext cond
    (emitConditionalBindingBuffers cond s).1 hwf hext3 hbufs2'
    (le_of_eq hlenb.symm)
  have hwdd : WFb (emitStmtCondition cond (emitConditionalBindingBuffers cond s).1
      (((((emitConditionalBindingBuffers cond s).2).createBasicBlock).2).emitBlockBr
        ((((emitConditionalBindingBuffers cond s).2).createBasicBlock)).1)).2 = true :=
    (hext2 hwf).wf
  have hhd : ((emitStmtCondition cond (emitConditionalBindingBuffers cond s).1
      (((((emitConditionalBindingBuffers cond s).2).createBasicBlock).2).emitBlockBr
        ((((emitConditionalBindingBuffers cond s).2).createBasicBlock)).1)).1).headD 0 ∈
      (emitStmtCondition cond (emitConditionalBindingBuffers cond s).1
        (((((emitConditionalBindingBuffers cond s).2).createBasicBlock).2).emitBlockBr
          ((((emitConditionalBindingBuffers cond s).2).createBasicBlock)).1)).2.ids :=
    (hmem2 _ (headD_mem hne2 0)).2
  have hlbmem : ((((emitConditionalBindingBuffers cond s).2).createBasicBlock)).1 ∈
      (emitStmtCondition cond (emitConditionalBindingBuffers cond s).1
        (((((emitConditionalBindingBuffers cond s).2).createBasicBlock).2).emitBlockBr
          ((((emitConditionalBindingBuffers cond s).2).createBasicBlock)).1)).2.ids := by
    refine (emitStmtCondition_mono cond _ _).2 _ ?_
    simp
  have hwpush : WFb ((emitStmtCondition cond (emitConditionalBindingBuffers cond s).1
      (((((emitConditionalBindingBuffers cond s).2).createBasicBlock).2).emitBlockBr
        ((((emitConditionalBindingBuffers cond s).2).createBasicBlock)).1)).2.pushBC id
      ((emitStmtCondition cond (emitConditionalBindingBuffers cond s).1
        (((((emitConditionalBindingBuffers cond s).2).createBasicBlock).2).emitBlockBr
          ((((emitConditionalBindingBuffers cond s).2).createBasicBlock)).1)).1.headD 0)
      ((((emitConditionalBindingBuffers cond s).2).createBasicBlock)).1) = true :=
    WFb_pushBC hwdd (wf_block_lt hwdd hhd) (wf_block_lt hwdd hlbmem) id
  have hio2 : ∀ cb ∈ ((emitStmtCondition cond
        (emitConditionalBindingBuffers cond s).1
        (((((emitConditionalBindingBuffers cond s).2).createBasicBlock).2).emitBlockBr
          ((((emitConditionalBindingBuffers cond s).2).createBasicBlock)).1)).1).reverse,
      ((whilePre id cond s).2.2).getBlockD cb =
      ((emitStmtCondition cond (emitConditionalBindingBuffers cond s).1
        (((((emitConditionalBindingBuffers cond s).2).createBasicBlock).2).emitBlockBr
          ((((emitConditionalBindingBuffers cond s).2).createBasicBlock)).1)).2).getBlockD cb := by
    intro cb hcb
    rw [List.mem_reverse] at hcb
    show (emitPatternBindingsM _ _).getBlockD cb = _
    rw [getBlockD_patternBindings_ne _ (by
      rw [insPt_pushBC]
      intro hcon
      exact hipn2 cb hcon hcb)]
    exact getBlockD_pushBC ..
  have hch2' : ChainOK ((whilePre id cond s).2.2)
      (((whilePre id cond s).2.1).reverse)
      (emitConditionalBindingBuffers cond s).1 := hch2.mono hio2
  obtain ⟨hcb2, hct2⟩ := chain_props hch2'
  have hcnt2' : ∀ k2 ∈ (emitConditionalBindingBuffers cond s).1,
      ((whilePre id cond s).2.2).destroyCount k2 = 1 := by
    intro k2 hk2
    show (emitPatternBindingsM _ _).destroyCount k2 = 1
    rw [destroyCount_patternBindings _ hwpush, destroyCount_pushBC]
    exact hcnt2 k2 hk2
  exact ⟨hlenb, hnd, hcb1, hct1, hcnt1', hcb2, hct2, hcnt2'⟩

/-- C1 at a concrete input: two bindings, the `if` flow's trace destroys
the two buffers last-bound first. -/
theorem c1_condition_destroy_sites_witness :
    chainTrace ((ifPre [CondElt.binding, CondElt.binding] sampleState).2)
      ((ifPre [CondElt.binding, CondElt.binding] sampleState).1).length
      (((ifPre [CondElt.binding, CondElt.binding] sampleState).1).headD 0) =
      ((emitConditionalBindingBuffers [CondElt.binding, CondElt.binding]
        sampleState).1).reverse :=
  (c1_condition_destroy_sites [CondElt.binding, CondElt.binding] 4
    sampleState (by decide) rfl).2.2.2.1

theorem visit_forEach_eq (id : Nat) (body : Stmt) (s : SGState)
    (hips : (s.appendInst .other).insPt.isSome = true) :
    visitStmt (.forEachS id body) s =
      if ((forEachPre id (s.appendInst .other)).2.2.2.1).trueBB.isSome then
        forEachPost (forEachPre id (s.appendInst .other)).2.1
          (forEachPre id (s.appendInst .other)).2.2.1
          (forEachPre id (s.appendInst .other)).2.2.2.1
          (visitStmt body (forEachBodyEntry
            (forEachPre id (s.appendInst .other)).2.2.2.1
            (forEachPre id (s.appendInst .other)).2.2.2.2))
      else ((condComplete (forEachPre id (s.appendInst .other)).2.2.2.1
          (forEachPre id (s.appendInst .other)).2.2.2.2).emitOrDeleteBlock
            (forEachPre id (s.appendInst .other)).2.2.1).popBC := by
  obtain ⟨p, hp⟩ := Option.isSome_iff_exists.1 hips
  simp only [visitStmt]
  rw [if_neg (by rw [hp]; simp)]

/-- C7: a for-each loop allocates its shared next-value buffer exactly once
— the slot current when the loop is entered, claimed before the loop header
— and the whole lowering, loop exits and break paths included, emits no
destroy of that buffer. -/
theorem c7_foreach_next_buffer (id : Nat) (body : Stmt) (s : SGState)
    (hwf : WFb s = true) (hips : s.insPt.isSome = true) :
    (forEachPre id (s.appendInst .other)).1 = s.nextSlot ∧
    (visitStmt (.forEachS id body) s).allocCount s.nextSlot = 1 ∧
    (visitStmt (.forEachS id body) s).destroyCount s.nextSlot = 0 := by
  have hwf0 : WFb (s.appendInst .other) = true := WFb_other hwf
  have hips0 : (s.appendInst .other).insPt.isSome = true := by
    rw [insPt_appendInst]
    exact hips
  have hef := forEachPre_facts id hwf0
  obtain ⟨he1, he2, he3, he4, he5, he6, he7, he8, he9, he10, he11, he12,
    he13, he14⟩ := hef
  -- the slot
  have hslot : (forEachPre id (s.appendInst .other)).1 = s.nextSlot := by
    rw [he1, nextSlot_appendInst]
  -- the state after the single allocation
  have hwfa : WFb (((s.appendInst .other).allocSlot).2) = true :=
    WFb_allocSlot hwf0
  have hwfm : WFb ((((s.appendInst .other).allocSlot).2).appendInst
      (.allocStack ((s.appendInst .other)).nextSlot)) = true := by
    refine WFb_appendInst hwfa ?_
    simp [instsBounded, Inst.targets]
  have hmn : ((((s.appendInst .other).allocSlot).2).appendInst
      (.allocStack ((s.appendInst .other)).nextSlot)).nextId =
      (s.appendInst .other).nextId := by
    simp
  have hmslot : ((((s.appendInst .other).allocSlot).2).appendInst
      (.allocStack ((s.appendInst .other)).nextSlot)).nextSlot =
      s.nextSlot + 1 := by
    simp
  -- extension from the post-allocation state through the whole loop
  have hwfsb : WFb ((forEachPre id (s.appendInst .other)).2.2.2.2) = true :=
    (he4 hwf0).wf
  have hextE : Ext ((((s.appendInst .other).allocSlot).2).appendInst
      (.allocStack ((s.appendInst .other)).nextSlot))
      (forEachBodyEntry (forEachPre id (s.appendInst .other)).2.2.2.1
        (forEachPre id (s.appendInst .other)).2.2.2.2) := by
    refine forEachBodyEntry_ext he5 hwfm (Or.inr ⟨(s.appendInst .other).nextId + 3,
      he9, ?_, he10⟩)
    rw [hmn]
    omega
  have hwfE : WFb (forEachBodyEntry (forEachPre id (s.appendInst .other)).2.2.2.1
      (forEachPre id (s.appendInst .other)).2.2.2.2) = true := (hextE hwfm).wf
  have hextB : Ext ((((s.appendInst .other).allocSlot).2).appendInst
      (.allocStack ((s.appendInst .other)).nextSlot))
      (visitStmt body (forEachBodyEntry
        (forEachPre id (s.appendInst .other)).2.2.2.1
        (forEachPre id (s.appendInst .other)).2.2.2.2)) :=
    hextE.trans (visit_ext body _)
  have hcB := (visit_ext body (forEachBodyEntry
    (forEachPre id (s.appendInst .other)).2.2.2.1
    (forEachPre id (s.appendInst .other)).2.2.2.2)) hwfE
  have hipE : (forEachBodyEntry (forEachPre id (s.appendInst .other)).2.2.2.1
      (forEachPre id (s.appendInst .other)).2.2.2.2).insPt =
      some ((s.appendInst .other).nextId + 3) := by
    show ((condEnterTrue _ _).appendInst .other).insPt = _
    rw [insPt_appendInst, insPt_condEnterTrue_some he9]
  have hgbE : ∀ b2, b2 ≠ (s.appendInst .other).nextId + 3 →
      (forEachBodyEntry (forEachPre id (s.appendInst .other)).2.2.2.1
        (forEachPre id (s.appendInst .other)).2.2.2.2).getBlockD b2 =
      ((forEachPre id (s.appendInst .other)).2.2.2.2).getBlockD b2 := by
    intro b2 hb2
    show ((condEnterTrue _ _).appendInst .other).getBlockD b2 = _
    rw [getBlockD_appendInst_ne (by
      rw [insPt_condEnterTrue_some he9]
      intro hcon
      exact hb2 (Option.some.inj hcon).symm), getBlockD_condEnterTrue]
  have hidsE : (forEachBodyEntry (forEachPre id (s.appendInst .other)).2.2.2.1
      (forEachPre id (s.appendInst .other)).2.2.2.2).ids =
      ((forEachPre id (s.appendInst .other)).2.2.2.2).ids := by
    show ((condEnterTrue _ _).appendInst .other).ids = _
    rw [ids_appendInst, ids_condEnterTrue]
  have hipEe : (forEachBodyEntry (forEachPre id (s.appendInst .other)).2.2.2.1
      (forEachPre id (s.appendInst .other)).2.2.2.2).insPt ≠
      some ((forEachPre id (s.appendInst .other)).2.2.1) := by
    rw [hipE, he3]
    intro hcon
    have := Option.some.inj hcon
    omega
  have hmemEe : ((forEachPre id (s.appendInst .other)).2.2.1) ∈
      (forEachBodyEntry (forEachPre id (s.appendInst .other)).2.2.2.1
        (forEachPre id (s.appendInst .other)).2.2.2.2).ids := by
    rw [hidsE, he3]
    exact he7
  have hmemEl : ((forEachPre id (s.appendInst .other)).2.1) ∈
      (forEachBodyEntry (forEachPre id (s.appendInst .other)).2.2.2.1
        (forEachPre id (s.appendInst .other)).2.2.2.2).ids := by
    rw [hidsE, he2]
    exact he6
  have hipEc : (forEachBodyEntry (forEachPre id (s.appendInst .other)).2.2.2.1
      (forEachPre id (s.appendInst .other)).2.2.2.2).insPt ≠
      some ((s.appendInst .other).nextId + 2) := by
    rw [hipE]
    intro hcon
    have := Option.some.inj hcon
    omega
  have hmemEc : ((s.appendInst .other).nextId + 2) ∈
      (forEachBodyEntry (forEachPre id (s.appendInst .other)).2.2.2.1
        (forEachPre id (s.appendInst .other)).2.2.2.2).ids := by
    rw [hidsE]
    exact he12
  have hextP : Ext ((((s.appendInst .other).allocSlot).2).appendInst
      (.allocStack ((s.appendInst .other)).nextSlot))
      (forEachPost (forEachPre id (s.appendInst .other)).2.1
        (forEachPre id (s.appendInst .other)).2.2.1
        (forEachPre id (s.appendInst .other)).2.2.2.1
        (visitStmt body (forEachBodyEntry
          (forEachPre id (s.appendInst .other)).2.2.2.1
          (forEachPre id (s.appendInst .other)).2.2.2.2))) := by
    refine forEachPost_ext hextB hwfm (Or.inl ?_) (hcB.keep _ hmemEl) ?_
      (hcB.keep _ hmemEe) ?_ ?_ ?_
    · rw [hmn, he2]
    · rw [hmn, he3]
      omega
    · refine ext_frozen_nil hcB hmemEe hipEe ?_
      rw [hgbE _ (by rw [he3]; omega), he3]
      exact he8
    · exact ext_ip_ne hcB (wf_block_lt hwfE hmemEe) hipEe
    · refine Or.inr ⟨(s.appendInst .other).nextId + 2, he11, by rw [hmn]; omega,
        hcB.keep _ hmemEc, ?_, ?_, by rw [he3]; omega⟩
      · refine ext_frozen_nil hcB hmemEc hipEc ?_
        rw [hgbE _ (by omega)]
        exact he13
      · exact ext_ip_ne hcB (wf_block_lt hwfE hmemEc) hipEc
  have htrueS : ((forEachPre id (s.appendInst .other)).2.2.2.1).trueBB.isSome =
      true := by
    rw [he9]
    rfl
  have hstep := visit_forEach_eq id body s hips0
  rw [if_pos htrueS] at hstep
  rw [hstep]
  have hc := hextP hwfm
  -- the counts at the post-allocation state
  have hda : ((((s.appendInst .other).allocSlot).2).appendInst
      (.allocStack ((s.appendInst .other)).nextSlot)).destroyCount s.nextSlot
      = 0 := by
    rw [destroyCount_appendInst (wf_nodup hwfa)
      (fun b2 hb2 => wf_insPt_mem hwfa hb2)]
    rw [destroyCount_allocSlot, destroyCount_other hwf,
      wf_destroyCount_big hwf le_rfl]
    simp
  have haa : ((((s.appendInst .other).allocSlot).2).appendInst
      (.allocStack ((s.appendInst .other)).nextSlot)).allocCount s.nextSlot
      = 1 := by
    rw [allocCount_appendInst (wf_nodup hwfa)
      (fun b2 hb2 => wf_insPt_mem hwfa hb2)]
    have ha0 : (((s.appendInst .other).allocSlot).2).allocCount s.nextSlot = 0 := by
      rw [allocCount_allocSlot]
      rw [allocCount_appendInst (wf_nodup hwf)
        (fun b2 hb2 => wf_insPt_mem hwf hb2)]
      rw [wf_allocCount_big hwf le_rfl]
      simp
    rw [ha0]
    have hj : Inst.allocStack ((s.appendInst .other)).nextSlot =
        Inst.allocStack s.nextSlot := by
      rw [nextSlot_appendInst]
    rw [hj]
    have hia : (((s.appendInst .other).allocSlot).2).insPt.isSome = true := by
      rw [insPt_allocSlot]
      exact hips0
    rw [if_pos hia, if_pos rfl]
  refine ⟨hslot, ?_, ?_⟩
  · rw [hc.acount s.nextSlot (by rw [hmslot]; omega)]
    exact haa
  · rw [hc.dcount s.nextSlot (by rw [hmslot]; omega)]
    exact hda

/-- C7 at a concrete input. -/
theorem c7_foreach_next_buffer_witness :
    (visitStmt (.forEachS 2 Stmt.exprElt) sampleState).allocCount
        sampleState.nextSlot = 1 ∧
    (visitStmt (.forEachS 2 Stmt.exprElt) sampleState).destroyCount
        sampleState.nextSlot = 0 :=
  ⟨(c7_foreach_next_buffer 2 Stmt.exprElt sampleState (by decide) rfl).2.1,
   (c7_foreach_next_buffer 2 Stmt.exprElt sampleState (by decide) rfl).2.2⟩

/-- C4: with an else clause, the merge block is erased from the graph
exactly when both the then branch and the else branch end unreachable, and
otherwise becomes the continuation insertion point; in particular an `if`
whose two arms both end in `return` leaves no merge block in the final
graph. -/
theorem c4_merge_block (cond : List CondElt) (th el : Stmt) (s : SGState)
    (hwf : WFb s = true) :
    visitStmt (.ifS cond th (some el)) s =
      ifElseFinish (ifElseMid (ifPre cond s).1
          (visitStmt th (ifPre cond s).2)).1
        (visitStmt el (ifElseMid (ifPre cond s).1
          (visitStmt th (ifPre cond s).2)).2) ∧
    ((visitStmt th (ifPre cond s).2).insPt = none ∧
      (visitStmt el (ifElseMid (ifPre cond s).1
        (visitStmt th (ifPre cond s).2)).2).insPt = none →
      (ifElseMid (ifPre cond s).1 (visitStmt th (ifPre cond s).2)).1 ∉
        (visitStmt (.ifS cond th (some el)) s).ids ∧
      (visitStmt (.ifS cond th (some el)) s).insPt = none) ∧
    (((visitStmt th (ifPre cond s).2).insPt.isSome = true ∨
      (visitStmt el (ifElseMid (ifPre cond s).1
        (visitStmt th (ifPre cond s).2)).2).insPt.isSome = true) →
      (ifElseMid (ifPre cond s).1 (visitStmt th (ifPre cond s).2)).1 ∈
        (visitStmt (.ifS cond th (some el)) s).ids ∧
      (visitStmt (.ifS cond th (some el)) s).insPt =
        some (ifElseMid (ifPre cond s).1
          (visitStmt th (ifPre cond s).2)).1) := by
  obtain ⟨hextp, hcbs, hcne, hipcb⟩ := ifPre_ext cond hwf
  have hwf0 : WFb ((ifPre cond s).2) = true := (hextp hwf).wf
  set s1 := visitStmt th (ifPre cond s).2 with hs1
  have hexts1 : Ext s s1 := hextp.trans (visit_ext th _)
  have hwf1 : WFb s1 = true := (hexts1 hwf).wf
  have hnid1 : s.nextId ≤ s1.nextId := (hexts1 hwf).nid
  obtain ⟨hm1, hm2, hm3, hm4, hm5⟩ := ifElseMid_facts hwf1 hcne
  have htc2 : ((ifElseMid (ifPre cond s).1 s1).2).targetCount s1.nextId =
      if s1.insPt.isSome then 1 else 0 :=
    targetCount_ifElseMid _ hwf1
  have hcbs1 : ∀ c2 ∈ (ifPre cond s).1, s.nextId ≤ c2 ∧ c2 ∈ s1.ids := by
    intro c2 hc2
    exact ⟨(hcbs c2 hc2).1, ((visit_ext th _) hwf0).keep _ (hcbs c2 hc2).2⟩
  have hextm : Ext s ((ifElseMid (ifPre cond s).1 s1).2) :=
    ifElseMid_ext hexts1 hcbs1
  have hwf2 : WFb ((ifElseMid (ifPre cond s).1 s1).2) = true := (hextm hwf).wf
  set s2 := (ifElseMid (ifPre cond s).1 s1).2 with hs2
  have hcu := (visit_ext el s2) hwf2
  have hmlt : s1.nextId < s2.nextId := by
    rw [hs2, hm5]
    omega
  have hstk : s2.bcStack = s.bcStack := by
    rw [hs2, bcStack_ifElseMid, hs1, visit_stack, bcStack_ifPre]
  have htgtu : (visitStmt el s2).targetCount s1.nextId =
      s2.targetCount s1.nextId := by
    refine hcu.tgt s1.nextId hmlt ?_ ?_
    · intro e he
      rw [hstk] at he
      obtain ⟨ha, hb⟩ := wf_stack_lt hwf he
      constructor <;> omega
    · have hrd : s2.returnDest = s.returnDest := (hextm hwf).rdest
      rw [hrd]
      have := wf_rdest_lt hwf
      omega
  set u := visitStmt el s2 with hu
  have hwfu : WFb u = true := hcu.wf
  have htcu : u.targetCount s1.nextId = if s1.insPt.isSome then 1 else 0 := by
    rw [htgtu]
    exact htc2
  have hlast_lt : ((ifPre cond s).1).getLastD 0 < s1.nextId :=
    wf_block_lt hwf1 (hcbs1 _ (getLastD_mem hcne 0)).2
  have hipm : s2.insPt ≠ some s1.nextId := by
    rw [hs2, hm2]
    intro hcon
    have := Option.some.inj hcon
    omega
  have hmmem : s1.nextId ∈ u.ids := hcu.keep _ hm3
  have h1 : visitStmt (.ifS cond th (some el)) s =
      ifElseFinish (ifElseMid (ifPre cond s).1 s1).1 u := by
    simp only [visitStmt]
  refine ⟨h1, ?_, ?_⟩
  · rintro ⟨hth, hel⟩
    rw [h1, hm1]
    have htcu0 : u.targetCount s1.nextId = 0 := by
      rw [htcu, hth]
      rfl
    have hpeA : u.predEmpty s1.nextId = true := by
      unfold SGState.predEmpty
      rw [htcu0]
      rfl
    have hsel : (if u.insPt.isSome = true then u.createBranch s1.nextId else u)
        = u := by
      rw [hel]
      rfl
    have hunfold : ifElseFinish s1.nextId u = u.eraseBlock s1.nextId := by
      unfold ifElseFinish
      rw [hsel, if_pos hpeA]
    rw [hunfold]
    constructor
    · simp
    · rw [insPt_eraseBlock]
      exact hel
  · intro hOr
    rw [h1, hm1]
    by_cases hipsu : u.insPt.isSome = true
    · have hunfold : ifElseFinish s1.nextId u =
          if (u.createBranch s1.nextId).predEmpty s1.nextId = true then
            (u.createBranch s1.nextId).eraseBlock s1.nextId
          else (u.createBranch s1.nextId).emitBlockNoBr s1.nextId := by
        unfold ifElseFinish
        rw [if_pos hipsu]
      have htcb : (u.createBranch s1.nextId).targetCount s1.nextId =
          u.targetCount s1.nextId + 1 := by
        rw [targetCount_createBranch_self hwfu, if_pos hipsu]
      have hpe : (u.createBranch s1.nextId).predEmpty s1.nextId = false := by
        unfold SGState.predEmpty
        rw [htcb]
        simp
      rw [hunfold, if_neg (by rw [hpe]; exact Bool.false_ne_true)]
      constructor
      · show s1.nextId ∈ ((u.createBranch s1.nextId).emitBlockNoBr s1.nextId).ids
        have : ((u.createBranch s1.nextId).emitBlockNoBr s1.nextId).ids = u.ids := by
          show ((u.createBranch s1.nextId)).ids = u.ids
          exact ids_createBranch
        rw [this]
        exact hmmem
      · rfl
    · have hths : s1.insPt.isSome = true := by
        rcases hOr with hOr | hOr
        · exact hOr
        · exact absurd hOr hipsu
      have htcu1 : u.targetCount s1.nextId = 1 := by
        rw [htcu, if_pos hths]
      have hpe : u.predEmpty s1.nextId = false := by
        unfold SGState.predEmpty
        rw [htcu1]
        rfl
      have hunfold : ifElseFinish s1.nextId u = u.emitBlockNoBr s1.nextId := by
        unfold ifElseFinish
        rw [if_neg hipsu, if_neg (by rw [hpe]; exact Bool.false_ne_true)]
      rw [hunfold]
      exact ⟨hmmem, rfl⟩

/-- C4 at a concrete input: both arms return, the merge block (block 2) is
absent from the final graph. -/
theorem c4_merge_block_witness :
    (ifElseMid (ifPre [] sampleState).1
        (visitStmt .ret (ifPre [] sampleState).2)).1 ∉
      (visitStmt (.ifS [] .ret (some .ret)) sampleState).ids ∧
    (visitStmt (.ifS [] .ret (some .ret)) sampleState).insPt = none :=
  (c4_merge_block [] .ret .ret sampleState (by decide)).2.1
    ⟨by decide, by decide⟩

end Claims

end SILGenStmt
